import Mathlib

/-! # GoWaze: the shared in-memory store, the traffic simulator and the broadcast hub

A shallow embedding of `services/storage.go`, `models/models.go`,
`utils/utils.go` (coordinate validation, cardinal direction), the two
mutating handlers of
`handlers/api.go`, `services/traffic.go`, `services/websocket.go` and the
message dispatch of `handlers/websocket.go`.

Modelling conventions

* A Go `map[K]*V` is a `GoMap`: a list of key/value entries whose keys are
  pairwise distinct. The order of the list stands for the (unspecified)
  iteration order of the Go map; no statement below depends on it.
  Stored records are never mutated after they are inserted, so the pointers
  held by the maps are modelled by the records themselves.
* `time.Time` is an integer count of nanoseconds on one time axis and
  `time.Duration` an integer count of nanoseconds; `Time.Sub` saturates at
  the 64-bit bounds exactly as Go does. Every `time.Now()` of one call is
  the explicit argument `now` of that call.
* Go `int` identifiers and counters are mathematical integers: a counter
  starts at 1 and grows by one per call, so the 64-bit wrap-around would
  need `2^63` calls and is left out of the model. The arithmetic of the
  simulator on its arguments is 64-bit: the product `locationIndex*7` and
  the sum with the unix time wrap around (`wrapInt64`), as Go's `int` does
  on a 64-bit platform. The operator `%` is Go's truncated remainder,
  `Int.tmod`.
* A `float64` is `Float64`: NaN, the two infinities, or a finite value named
  by the rational number it denotes. The store only carries coordinates
  around and compares them; the simulator adds integers of small magnitude,
  on which `float64` addition is exact.
* `GetCardinalDirection` adds and divides arbitrary `float64` values, so
  there the sum and the quotient are rounded (`Float64.addRounded`,
  `Float64.divRounded`): `Float64.round` is the IEEE-754 rounding to the
  nearest value with a 53-bit significand in the binary64 exponent range,
  ties to the even significand. The conversion `int(x)` truncates towards
  zero and is `none` where Go leaves its result to the implementation.
* The lock `mu` serialises the operations; each operation is one atomic
  state transformer `Storage → result × Storage`. The section on concurrent
  calls of `CreateUser` goes below this level and interleaves the single
  statements of the calls.
* The unbuffered channel `broadcast` is the list of payloads sent and not
  yet received; a payload is named by the message it encodes. Whether a
  write to a connection fails is an input (`writeErr`). The hub's methods
  are taken one at a time; the client map has no lock of its own.
-/

namespace GoWaze

/-! ## Go maps -/

/-- A Go map: entries with pairwise distinct keys. -/
structure GoMap (κ : Type) (α : Type) where
  entries : List (κ × α)
  nodupKeys : (entries.map Prod.fst).Nodup

namespace GoMap

variable {κ α : Type} [DecidableEq κ]

/-- The result of `make(map[K]V)`. -/
def empty : GoMap κ α :=
  ⟨[], List.nodup_nil⟩

/-- The lookup `v, ok := m[k]`. -/
def get (m : GoMap κ α) (k : κ) : Option α :=
  (m.entries.find? (fun e => decide (e.1 = k))).map Prod.snd

/-- The statement `delete(m, k)`. -/
def delete (m : GoMap κ α) (k : κ) : GoMap κ α :=
  ⟨m.entries.filter (fun e => decide (e.1 ≠ k)),
    m.nodupKeys.sublist ((List.filter_sublist _).map Prod.fst)⟩

/-- The assignment `m[k] = v`: overwrites the entry of `k` or adds one. -/
def set (m : GoMap κ α) (k : κ) (v : α) : GoMap κ α :=
  ⟨(k, v) :: m.entries.filter (fun e => decide (e.1 ≠ k)),
    List.nodup_cons.mpr
      ⟨by
        intro h
        obtain ⟨e, he, hk⟩ := List.mem_map.mp h
        have := (List.mem_filter.mp he).2
        simp [hk] at this,
       m.nodupKeys.sublist ((List.filter_sublist _).map Prod.fst)⟩⟩

/-- The builtin `len(m)`. -/
def len (m : GoMap κ α) : Int :=
  m.entries.length

/-- The loop `for k, v := range m { if cond(v) { delete(m, k) } }`: the
entries are visited once each, and a visited entry that satisfies `cond` is
deleted by its key. -/
def rangeDeleteIf (m : GoMap κ α) (cond : α → Bool) : GoMap κ α :=
  m.entries.foldl (fun acc e => if cond e.2 then acc.delete e.1 else acc) m

end GoMap

/-! ## Time -/

/-- A `time.Time`, in nanoseconds. -/
abbrev Time := Int

/-- A `time.Duration`, in nanoseconds. -/
abbrev Duration := Int

def minDuration : Duration := -9223372036854775808

def maxDuration : Duration := 9223372036854775807

def Second : Duration := 1000000000

def Minute : Duration := 60 * Second

def Hour : Duration := 60 * Minute

/-- The method `t.Sub(u)`: the difference, saturated to the range of a
`Duration`. -/
def Time.Sub (t u : Time) : Duration :=
  if t - u > maxDuration then maxDuration
  else if t - u < minDuration then minDuration
  else t - u

/-- The call `time.Since(t)` made when the clock reads `now`. -/
def Since (now t : Time) : Duration :=
  Time.Sub now t

/-- The method `t.Add(d)`. -/
def Time.Add (t : Time) (d : Duration) : Time :=
  t + d

/-! ## Floating-point values -/

/-- A `float64`, as far as it is compared and stored. -/
inductive Float64
  | nan
  | negInf
  | posInf
  | finite (q : ℚ)
  deriving DecidableEq

namespace Float64

/-- The Go comparison `x <= y`: false as soon as one side is NaN. -/
def le : Float64 → Float64 → Bool
  | nan, _ => false
  | _, nan => false
  | negInf, _ => true
  | _, posInf => true
  | posInf, _ => false
  | _, negInf => false
  | finite p, finite q => decide (p ≤ q)

/-- The Go comparison `x >= y`. -/
def ge (x y : Float64) : Bool :=
  le y x

end Float64

/-! ## models/models.go -/

structure User where
  ID : Int
  Username : String
  Lat : Float64
  Lng : Float64
  LastSeen : Time
  deriving DecidableEq

structure Report where
  ID : Int
  Type_ : String
  Lat : Float64
  Lng : Float64
  Description : String
  UserID : Int
  CreatedAt : Time
  Votes : Int
  deriving DecidableEq

structure TrafficData where
  Lat : Float64
  Lng : Float64
  Speed : Float64
  Congestion : String
  Timestamp : Time
  deriving DecidableEq

/-! ## utils/utils.go -/

/-- The function `ValidateCoordinates` of utils/utils.go. -/
def ValidateCoordinates (lat lng : Float64) : Bool :=
  Float64.ge lat (.finite (-90)) && Float64.le lat (.finite 90) &&
    Float64.ge lng (.finite (-180)) && Float64.le lng (.finite 180)

/-! ## services/storage.go -/

structure Storage where
  Users : GoMap Int User
  Reports : GoMap Int Report
  TrafficData : GoMap String TrafficData
  NextUserID : Int
  NextReportID : Int

/-- The constructor `NewStorage`. -/
def NewStorage : Storage :=
  { Users := GoMap.empty
    Reports := GoMap.empty
    TrafficData := GoMap.empty
    NextUserID := 1
    NextReportID := 1 }

namespace Storage

/-- The method `CreateUser`; returns the new user and the store after. -/
def CreateUser (s : Storage) (username : String) (lat lng : Float64) (now : Time) :
    User × Storage :=
  let user : User :=
    { ID := s.NextUserID
      Username := username
      Lat := lat
      Lng := lng
      LastSeen := now }
  (user, { s with Users := s.Users.set s.NextUserID user, NextUserID := s.NextUserID + 1 })

/-- The method `CreateReport`; returns the new report and the store after. -/
def CreateReport (s : Storage) (reportType : String) (lat lng : Float64)
    (description : String) (userID : Int) (now : Time) : Report × Storage :=
  let report : Report :=
    { ID := s.NextReportID
      Type_ := reportType
      Lat := lat
      Lng := lng
      Description := description
      UserID := userID
      CreatedAt := now
      Votes := 1 }
  (report,
    { s with Reports := s.Reports.set s.NextReportID report, NextReportID := s.NextReportID + 1 })

/-- The method `GetRecentReports`: the loop appends every visited report
younger than 24 hours. The store is only read. -/
def GetRecentReports (s : Storage) (now : Time) : List Report × Storage :=
  (s.Reports.entries.foldl
      (fun reports e =>
        if Since now e.2.CreatedAt < 24 * Hour then reports ++ [e.2] else reports)
      [],
    s)

/-- The method `GetStats`: the sizes of the three maps. -/
def GetStats (s : Storage) : (Int × Int × Int) × Storage :=
  ((s.Users.len, s.Reports.len, s.TrafficData.len), s)

/-- The method `UpdateTrafficData`. -/
def UpdateTrafficData (s : Storage) (key : String) (data : GoWaze.TrafficData) : Storage :=
  { s with TrafficData := s.TrafficData.set key data }

/-- The method `InitSampleData`. -/
def InitSampleData (s : Storage) (now : Time) : Storage :=
  let r1 : Report :=
    { ID := 1
      Type_ := "traffic"
      Lat := .finite (140818 / 10000)
      Lng := .finite (-872068 / 10000)
      Description := "Tráfico pesado en el centro de San Pedro Sula"
      UserID := 1
      CreatedAt := Time.Add now (-10 * Minute)
      Votes := 5 }
  let r2 : Report :=
    { ID := 2
      Type_ := "police"
      Lat := .finite (140900 / 10000)
      Lng := .finite (-872100 / 10000)
      Description := "Control policial en Bulevar del Norte"
      UserID := 1
      CreatedAt := Time.Add now (-5 * Minute)
      Votes := 3 }
  let r3 : Report :=
    { ID := 3
      Type_ := "accident"
      Lat := .finite (140750 / 10000)
      Lng := .finite (-872200 / 10000)
      Description := "Accidente menor en intersección"
      UserID := 1
      CreatedAt := Time.Add now (-15 * Minute)
      Votes := 7 }
  { s with Reports := ((s.Reports.set 1 r1).set 2 r2).set 3 r3, NextReportID := 4 }

/-- The method `cleanup`: three delete-while-ranging loops. -/
def cleanup (s : Storage) (now : Time) : Storage :=
  { s with
    Users := s.Users.rangeDeleteIf (fun user => decide (Since now user.LastSeen > Hour))
    Reports := s.Reports.rangeDeleteIf (fun report => decide (Since now report.CreatedAt > 24 * Hour))
    TrafficData := s.TrafficData.rangeDeleteIf (fun traffic => decide (Since now traffic.Timestamp > Hour)) }

end Storage

/-! ## handlers/api.go -/

/-- A call the handler makes on the WebSocket service. -/
inductive WsCall
  | BroadcastStats
  | BroadcastNewReport (report : Report)

/-- What a handler writes to the response. -/
inductive HttpResponse
  | error (msg : String) (code : Nat)
  | userRegistered (user : User)
  | reportsList (reports : List Report)

def StatusBadRequest : Nat := 400

/-- What a handler has done when it returns. -/
structure HandlerResult where
  response : HttpResponse
  storage : Storage
  wsCalls : List WsCall

/-- The map `validTypes` of `CreateReportHandler`. -/
def validTypes (reportType : String) : Bool :=
  reportType = "accident" || reportType = "police" || reportType = "traffic" ||
    reportType = "hazard"

/-- The handler `CreateUserHandler` on the form values `username`, `lat`,
`lng` (the latter two as parsed by `strconv.ParseFloat`). -/
def CreateUserHandler (s : Storage) (username : String) (lat lng : Float64) (now : Time) :
    HandlerResult :=
  if username = "" then
    { response := .error "Username es requerido" StatusBadRequest, storage := s, wsCalls := [] }
  else
    let (user, s1) := s.CreateUser username lat lng now
    { response := .userRegistered user, storage := s1, wsCalls := [.BroadcastStats] }

/-- The handler `CreateReportHandler` on the form values `type`, `lat`,
`lng`, `description`; `now` is the clock at the store call and `listNow` the
clock when `GetReportsHandler` lists the recent reports. -/
def CreateReportHandler (s : Storage) (reportType : String) (lat lng : Float64)
    (description : String) (now listNow : Time) : HandlerResult :=
  if reportType = "" then
    { response := .error "Tipo de reporte es requerido" StatusBadRequest, storage := s,
      wsCalls := [] }
  else if !validTypes reportType then
    { response := .error "Tipo de reporte inválido" StatusBadRequest, storage := s,
      wsCalls := [] }
  else
    let (report, s1) := s.CreateReport reportType lat lng description 1 now
    let (reports, s2) := s1.GetRecentReports listNow
    { response := .reportsList reports, storage := s2, wsCalls := [.BroadcastNewReport report] }

/-! ## Sequences of store operations -/

/-- A mutating operation of the store, with its arguments and clock. -/
inductive Op
  | createUser (username : String) (lat lng : Float64) (now : Time)
  | createReport (reportType : String) (lat lng : Float64) (description : String)
      (userID : Int) (now : Time)
  | updateTrafficData (key : String) (data : TrafficData)
  | initSampleData (now : Time)
  | cleanup (now : Time)

/-- The store after one operation. -/
def Op.apply (s : Storage) : Op → Storage
  | .createUser username lat lng now => (s.CreateUser username lat lng now).2
  | .createReport reportType lat lng description userID now =>
      (s.CreateReport reportType lat lng description userID now).2
  | .updateTrafficData key data => s.UpdateTrafficData key data
  | .initSampleData now => s.InitSampleData now
  | .cleanup now => s.cleanup now

/-- The store after a sequence of operations. -/
def run (s : Storage) (ops : List Op) : Storage :=
  ops.foldl Op.apply s

/-- The ids returned by the `CreateUser` calls one operation makes. -/
def Op.userIDs (s : Storage) : Op → List Int
  | .createUser username lat lng now => [(s.CreateUser username lat lng now).1.ID]
  | _ => []

/-- The ids returned by the `CreateUser` calls of a sequence, in call
order. -/
def userIDsReturned (s : Storage) : List Op → List Int
  | [] => []
  | op :: ops => op.userIDs s ++ userIDsReturned (op.apply s) ops

/-- The ids under which one operation stores a report: the id `CreateReport`
returns, and the ids 1, 2, 3 written by `InitSampleData`. -/
def Op.reportIDs (s : Storage) : Op → List Int
  | .createReport reportType lat lng description userID now =>
      [(s.CreateReport reportType lat lng description userID now).1.ID]
  | .initSampleData _ => [1, 2, 3]
  | _ => []

/-- The ids under which the operations of a sequence store reports, in call
order. -/
def reportIDsAssigned (s : Storage) : List Op → List Int
  | [] => []
  | op :: ops => op.reportIDs s ++ reportIDsAssigned (op.apply s) ops

/-- Whether the operation is a `cleanup` pass. -/
def Op.isCleanup : Op → Bool
  | .cleanup _ => true
  | _ => false

/-- Whether the operation is `InitSampleData`. -/
def Op.isInitSampleData : Op → Bool
  | .initSampleData _ => true
  | _ => false

/-- The sequences in which `InitSampleData` is used as at startup: it occurs
at most once, and no `CreateReport` comes before it. -/
def seededBeforeReports : List Op → Bool
  | [] => true
  | .initSampleData _ :: ops => ops.all (fun op => !op.isInitSampleData)
  | .createReport _ _ _ _ _ _ :: ops => ops.all (fun op => !op.isInitSampleData)
  | _ :: ops => seededBeforeReports ops

/-- A `CreateReport` call with fixed arguments, for the examples. -/
def sampleCreateReport : Op :=
  .createReport "traffic" (.finite 14) (.finite (-87)) "jam" 1 0

/-! ## Arithmetic on floating-point values -/

/-- The conversion `float64(n)` of a Go `int`; exact for the small integers
it is applied to here. -/
def Float64.ofInt (n : Int) : Float64 :=
  .finite n

/-- The Go sum `x + y`. The sum of two finite values is their exact sum:
the values added here are integers below 100 in magnitude, on which
`float64` addition does not round. -/
def Float64.add : Float64 → Float64 → Float64
  | .nan, _ => .nan
  | _, .nan => .nan
  | .posInf, .negInf => .nan
  | .negInf, .posInf => .nan
  | .posInf, _ => .posInf
  | _, .posInf => .posInf
  | .negInf, _ => .negInf
  | _, .negInf => .negInf
  | .finite p, .finite q => .finite (p + q)

/-- The Go comparison `x < y`: false as soon as one side is NaN. -/
def Float64.lt : Float64 → Float64 → Bool
  | .nan, _ => false
  | _, .nan => false
  | .posInf, _ => false
  | _, .negInf => false
  | .negInf, _ => true
  | _, .posInf => true
  | .finite p, .finite q => decide (p < q)

/-- The Go comparison `x > y`. -/
def Float64.gt (x y : Float64) : Bool :=
  Float64.lt y x

/-- Whether the value is neither NaN nor an infinity. -/
def Float64.isFinite : Float64 → Bool
  | .finite _ => true
  | _ => false

/-! ## models/models.go, continued -/

structure Location where
  Lat : Float64
  Lng : Float64
  deriving DecidableEq

/-! ## services/traffic.go -/

/-- The value a 64-bit Go `int` holds for the mathematical integer `n`: the
two's-complement wrap-around into the range from `-2^63` to `2^63 - 1`. -/
def wrapInt64 (n : Int) : Int :=
  (n + 9223372036854775808) % 18446744073709551616 - 9223372036854775808

namespace TrafficService

/-- The local `baseSpeed` of `calculateSpeed` after the two adjustments, for
the wall-clock hour `hour` returned by `time.Now().Hour()`. -/
def baseSpeed (hour : Int) : Float64 :=
  let baseSpeed : Float64 := .finite 45
  let baseSpeed : Float64 :=
    if (hour ≥ 7 ∧ hour ≤ 9) ∨ (hour ≥ 17 ∧ hour ≤ 19) then .finite 25 else baseSpeed
  let baseSpeed : Float64 := if hour ≥ 22 ∨ hour ≤ 5 then .finite 55 else baseSpeed
  baseSpeed

/-- The local `locationVariation` of `calculateSpeed`; `unixTime` is
`time.Now().Unix()`, the product and the sum are 64-bit `int` operations,
and `%` is Go's truncated remainder. -/
def locationVariation (locationIndex unixTime : Int) : Float64 :=
  Float64.ofInt (Int.tmod (wrapInt64 (wrapInt64 (locationIndex * 7) + unixTime)) 20 - 10)

/-- The method `calculateSpeed`. -/
def calculateSpeed (locationIndex : Int) (_loc : Location) (hour unixTime : Int) : Float64 :=
  let speed := Float64.add (baseSpeed hour) (locationVariation locationIndex unixTime)
  let speed := if Float64.lt speed (.finite 5) then .finite 5 else speed
  let speed := if Float64.gt speed (.finite 70) then .finite 70 else speed
  speed

/-- The method `getCongestionLevel`. -/
def getCongestionLevel (speed : Float64) : String :=
  if Float64.gt speed (.finite 40) then "low"
  else if Float64.gt speed (.finite 25) then "medium"
  else "high"

end TrafficService

/-- The nearest natural number to a non-negative rational, ties to even. -/
def roundHalfEven (x : ℚ) : Nat :=
  let f : Nat := ⌊x⌋.toNat
  if x - f < 1 / 2 then f
  else if x - f > 1 / 2 then f + 1
  else if f % 2 = 0 then f
  else f + 1

/-- The verb `%.4f` of `fmt.Sprintf`: sign, integer part, point, and four
decimals of the value rounded to four decimals. -/
def formatFixed4 : Float64 → String
  | .nan => "NaN"
  | .posInf => "+Inf"
  | .negInf => "-Inf"
  | .finite q =>
    let n : Nat := roundHalfEven (|q| * 10000)
    let frac : String := toString (n % 10000)
    (if q < 0 then "-" else "") ++ toString (n / 10000) ++ "." ++
      String.mk (List.replicate (4 - frac.length) '0') ++ frac

namespace TrafficService

/-- The slice `locations` of `simulateTrafficData`. -/
def locations : List Location :=
  [ ⟨.finite (140818 / 10000), .finite (-872068 / 10000)⟩,
    ⟨.finite (140900 / 10000), .finite (-872100 / 10000)⟩,
    ⟨.finite (140700 / 10000), .finite (-872000 / 10000)⟩,
    ⟨.finite (140800 / 10000), .finite (-871900 / 10000)⟩,
    ⟨.finite (140750 / 10000), .finite (-872200 / 10000)⟩,
    ⟨.finite (140950 / 10000), .finite (-872150 / 10000)⟩,
    ⟨.finite (140650 / 10000), .finite (-872050 / 10000)⟩,
    ⟨.finite (140850 / 10000), .finite (-871950 / 10000)⟩ ]

/-- The body of the loop of `simulateTrafficData` up to the store call: the
key and the sample of zone `i` at `loc`, when the clock reads hour `hour`,
unix time `unixTime` and time `now`. -/
def simulateZone (i : Nat) (loc : Location) (hour unixTime : Int) (now : Time) :
    String × TrafficData :=
  let key := formatFixed4 loc.Lat ++ "," ++ formatFixed4 loc.Lng
  let speed := calculateSpeed i loc hour unixTime
  let congestion := getCongestionLevel speed
  (key,
    { Lat := loc.Lat
      Lng := loc.Lng
      Speed := speed
      Congestion := congestion
      Timestamp := now })

/-- The method `simulateTrafficData`: one sample per zone, stored with
`UpdateTrafficData`. -/
def simulateTrafficData (s : Storage) (hour unixTime : Int) (now : Time) : Storage :=
  locations.enum.foldl
    (fun st e =>
      st.UpdateTrafficData (simulateZone e.1 e.2 hour unixTime now).1
        (simulateZone e.1 e.2 hour unixTime now).2)
    s

/-- The keys and samples one `simulateTrafficData` call passes to
`UpdateTrafficData`, in call order. -/
def trafficWrites (hour unixTime : Int) (now : Time) : List (String × TrafficData) :=
  locations.enum.map (fun e => simulateZone e.1 e.2 hour unixTime now)

end TrafficService

/-! ## services/websocket.go -/

/-- A `*websocket.Conn`; connections are told apart by a number. -/
abbrev Conn := Nat

/-- The struct `WebSocketMessage` of models/models.go. The field `Data` is
never set and is left out; a nil slice is the empty list. -/
structure WebSocketMessage where
  Type_ : String
  UsersOnline : Int
  TotalReports : Int
  TrafficPoints : Int
  Report : Option GoWaze.Report
  Reports : List GoWaze.Report
  deriving DecidableEq

/-- Whether `encoding/json` can encode the report: it rejects a NaN or
infinite `float64` with an `UnsupportedValueError`. (Clock readings are
dates with a four-digit year, which it encodes.) -/
def Report.encodable (r : Report) : Bool :=
  r.Lat.isFinite && r.Lng.isFinite

/-- The call `json.Marshal(msg)`: `none` when it returns an error. The
bytes it returns are named by the message they encode. -/
def jsonMarshal (msg : WebSocketMessage) : Option WebSocketMessage :=
  if (match msg.Report with
      | none => true
      | some r => r.encodable) && msg.Reports.all Report.encodable then
    some msg
  else
    none

/-- The struct `WebSocketService`: the active clients and the payloads sent
on the channel `broadcast` that `HandleBroadcast` has not received yet,
oldest first. The store it points to is passed to its methods. -/
structure WebSocketService where
  clients : GoMap Conn Bool
  broadcast : List WebSocketMessage

/-- What a method does to a connection. -/
inductive ConnEvent
  | written (conn : Conn) (data : WebSocketMessage)
  | writeFailed (conn : Conn) (data : WebSocketMessage)
  | closed (conn : Conn)
  deriving DecidableEq

namespace WebSocketService

/-- The body of the loop of `HandleBroadcast` for one client; `writeErr`
tells whether `client.WriteMessage` returns an error. -/
def deliver (msg : WebSocketMessage) (writeErr : Conn → Bool)
    (acc : WebSocketService × List ConnEvent) (e : Conn × Bool) :
    WebSocketService × List ConnEvent :=
  if writeErr e.1 then
    ({ acc.1 with clients := acc.1.clients.delete e.1 },
      acc.2 ++ [.writeFailed e.1 msg, .closed e.1])
  else
    (acc.1, acc.2 ++ [.written e.1 msg])

/-- One round of the endless loop of `HandleBroadcast`: receive the oldest
payload from the channel and write it to every client, closing and deleting
a client whose write fails. With nothing to receive the method waits. -/
def HandleBroadcast (ws : WebSocketService) (writeErr : Conn → Bool) :
    WebSocketService × List ConnEvent :=
  match ws.broadcast with
  | [] => (ws, [])
  | msg :: rest =>
    ws.clients.entries.foldl (deliver msg writeErr) ({ ws with broadcast := rest }, [])

/-- The method `RemoveClient`. -/
def RemoveClient (ws : WebSocketService) (conn : Conn) : WebSocketService × List ConnEvent :=
  match ws.clients.get conn with
  | some _ => ({ ws with clients := ws.clients.delete conn }, [.closed conn])
  | none => (ws, [])

/-- The method `BroadcastStats`, on the store `s`. -/
def BroadcastStats (ws : WebSocketService) (s : Storage) : WebSocketService :=
  let stats := s.GetStats.1
  let msg : WebSocketMessage :=
    { Type_ := "stats"
      UsersOnline := stats.1
      TotalReports := stats.2.1
      TrafficPoints := stats.2.2
      Report := none
      Reports := [] }
  match jsonMarshal msg with
  | none => ws
  | some data => { ws with broadcast := ws.broadcast ++ [data] }

/-- The method `BroadcastNewReport`, on the store `s` when the clock reads
`now`. -/
def BroadcastNewReport (ws : WebSocketService) (s : Storage) (report : Report) (now : Time) :
    WebSocketService :=
  let reports := (s.GetRecentReports now).1
  let msg : WebSocketMessage :=
    { Type_ := "new_report"
      UsersOnline := 0
      TotalReports := 0
      TrafficPoints := 0
      Report := some report
      Reports := reports }
  match jsonMarshal msg with
  | none => ws
  | some data => BroadcastStats { ws with broadcast := ws.broadcast ++ [data] } s

end WebSocketService

/-- The connections to which a write was attempted, in order. -/
def attempted : List ConnEvent → List Conn
  | [] => []
  | .written conn _ :: evs => conn :: attempted evs
  | .writeFailed conn _ :: evs => conn :: attempted evs
  | .closed _ :: evs => attempted evs

/-! ## handlers/websocket.go -/

/-- A decoded JSON value, as far as `handleClientMessage` looks at it: a
string, or a value of another kind. -/
inductive JsonValue
  | str (s : String)
  | nonString
  deriving DecidableEq

/-- The method `handleClientMessage`: the hub and the store afterwards, and
what was done to connections. -/
def handleClientMessage (ws : WebSocketService) (s : Storage) (msg : GoMap String JsonValue) :
    (WebSocketService × Storage) × List ConnEvent :=
  match msg.get "type" with
  | some (.str msgType) =>
    if msgType = "ping" then ((ws, s), [])
    else if msgType = "request_stats" then ((ws.BroadcastStats s, s), [])
    else ((ws, s), [])
  | _ => ((ws, s), [])

/-! ## Concurrent calls of `CreateUser`

Each call runs in its own goroutine and goes through the statements of
`Storage.CreateUser` one at a time; a schedule says which goroutine takes
the next step. -/

/-- Where a goroutine that runs `CreateUser` stands: before `s.mu.Lock()`,
after it, after building `user`, after the map write, after
`s.NextUserID++`, and after the deferred `s.mu.Unlock()` and the return. -/
inductive CreateUserCall
  | start (username : String) (lat lng : Float64)
  | locked (username : String) (lat lng : Float64)
  | built (user : User)
  | stored (user : User)
  | bumped (user : User)
  | returned (user : User)
  deriving DecidableEq

/-- Whether the goroutine is between `Lock` and `Unlock`. -/
def CreateUserCall.holdsLock : CreateUserCall → Bool
  | .locked _ _ _ => true
  | .built _ => true
  | .stored _ => true
  | .bumped _ => true
  | _ => false

/-- The user the goroutine has written to the map, once it has. -/
def CreateUserCall.written : CreateUserCall → Option User
  | .stored user => some user
  | .bumped user => some user
  | .returned user => some user
  | _ => none

/-- The number of statements the goroutine has still to execute. -/
def CreateUserCall.stepsLeft : CreateUserCall → Nat
  | .start _ _ _ => 5
  | .locked _ _ _ => 4
  | .built _ => 3
  | .stored _ => 2
  | .bumped _ => 1
  | .returned _ => 0

/-- The store, its mutex, and the goroutines calling `CreateUser`. -/
structure Goroutines where
  storage : Storage
  muLocked : Bool
  calls : List CreateUserCall

namespace Goroutines

/-- Goroutine `i` executes its next statement when the clock reads `now`. A
goroutine waiting for the mutex, one that has returned, and an index that
names no goroutine leave everything as it is. -/
def step (g : Goroutines) (i : Nat) (now : Time) : Goroutines :=
  match g.calls[i]? with
  | none => g
  | some (.start username lat lng) =>
    if g.muLocked then g
    else { g with muLocked := true, calls := g.calls.set i (.locked username lat lng) }
  | some (.locked username lat lng) =>
    { g with
      calls := g.calls.set i
        (.built
          { ID := g.storage.NextUserID
            Username := username
            Lat := lat
            Lng := lng
            LastSeen := now }) }
  | some (.built user) =>
    { g with
      storage := { g.storage with Users := g.storage.Users.set g.storage.NextUserID user }
      calls := g.calls.set i (.stored user) }
  | some (.stored user) =>
    { g with
      storage := { g.storage with NextUserID := g.storage.NextUserID + 1 }
      calls := g.calls.set i (.bumped user) }
  | some (.bumped user) =>
    { g with muLocked := false, calls := g.calls.set i (.returned user) }
  | some (.returned _) => g

/-- The goroutines after a schedule: a list of goroutine indices, each with
the clock reading at that step. -/
def runSchedule (g : Goroutines) (schedule : List (Nat × Time)) : Goroutines :=
  schedule.foldl (fun g e => g.step e.1 e.2) g

/-- The calls `CreateUser(username, lat, lng)` of `args`, all about to start
on a fresh store. -/
def initial (args : List (String × Float64 × Float64)) : Goroutines :=
  { storage := NewStorage
    muLocked := false
    calls := args.map (fun a => .start a.1 a.2.1 a.2.2) }

/-- The number of goroutines that have written their user to the map. -/
def writtenCount : List CreateUserCall → Int
  | [] => 0
  | c :: cs => (if c.written.isSome then 1 else 0) + writtenCount cs

/-- The number of statements the goroutines have still to execute. -/
def stepsLeft : List CreateUserCall → Nat
  | [] => 0
  | c :: cs => c.stepsLeft + stepsLeft cs

/-- What holds of the goroutines at every moment: the mutex is held exactly
by the one goroutine between `Lock` and `Unlock`; an id read from the
counter is the counter until the increment and below it afterwards; the
map holds exactly the users written by the goroutines, each under its id;
and these ids are pairwise distinct. -/
structure Inv (g : Goroutines) : Prop where
  lockHeld : ∀ (i : Nat) (c : CreateUserCall), g.calls[i]? = some c → c.holdsLock = true →
    g.muLocked = true
  lockOwner : g.muLocked = true →
    ∃ (i : Nat) (c : CreateUserCall), g.calls[i]? = some c ∧ c.holdsLock = true
  oneHolder : ∀ (i j : Nat) (ci cj : CreateUserCall), g.calls[i]? = some ci →
    g.calls[j]? = some cj → ci.holdsLock = true → cj.holdsLock = true → i = j
  builtID : ∀ (i : Nat) (u : User), g.calls[i]? = some (.built u) →
    u.ID = g.storage.NextUserID
  storedID : ∀ (i : Nat) (u : User), g.calls[i]? = some (.stored u) →
    u.ID = g.storage.NextUserID
  bumpedID : ∀ (i : Nat) (u : User), g.calls[i]? = some (.bumped u) →
    u.ID + 1 = g.storage.NextUserID
  returnedID : ∀ (i : Nat) (u : User), g.calls[i]? = some (.returned u) →
    u.ID < g.storage.NextUserID
  keysWritten : ∀ (k : Int) (u : User), g.storage.Users.get k = some u →
    ∃ (i : Nat) (c : CreateUserCall), g.calls[i]? = some c ∧ c.written = some u ∧ u.ID = k
  writtenStored : ∀ (i : Nat) (c : CreateUserCall) (u : User), g.calls[i]? = some c →
    c.written = some u → g.storage.Users.get u.ID = some u
  distinct : ∀ (i j : Nat) (ci cj : CreateUserCall) (ui uj : User), i ≠ j →
    g.calls[i]? = some ci → g.calls[j]? = some cj → ci.written = some ui →
    cj.written = some uj → ui.ID ≠ uj.ID
  count : g.storage.Users.len = writtenCount g.calls

end Goroutines

namespace TrafficService

/-- The keys `fmt.Sprintf("%.4f,%.4f", loc.Lat, loc.Lng)` gives for the eight
zones of `locations`, in the order of the slice. -/
def zoneKeys : List String :=
  ["14.0818,-87.2068", "14.0900,-87.2100", "14.0700,-87.2000", "14.0800,-87.1900",
    "14.0750,-87.2200", "14.0950,-87.2150", "14.0650,-87.2050", "14.0850,-87.1950"]

end TrafficService

/-! ## Rounding to `float64`

The operations of `GetCardinalDirection` round: the result of `+` and `/`
is the exact result rounded to the nearest `float64`, ties to the even
significand (IEEE 754 binary64). Signed zeros are not told apart. -/

/-- The binary exponent `float64` uses for a positive rational: the integer
logarithm to base 2, but not below -1022, where the subnormal range
begins. -/
def Float64.exponent (x : ℚ) : Int :=
  max (Int.log 2 x) (-1022)

/-- The distance between neighbouring `float64` values at a positive
rational: 52 binary digits below the exponent. -/
def Float64.ulp (x : ℚ) : ℚ :=
  (2 : ℚ) ^ (Float64.exponent x - 52)

/-- The multiple of `ulp x` nearest to a positive rational `x`, ties to the
even multiple. -/
def Float64.roundPos (x : ℚ) : ℚ :=
  (roundHalfEven (x / Float64.ulp x) : ℚ) * Float64.ulp x

/-- The `float64` nearest to a rational, ties to even; beyond the largest
finite value the result is an infinity. -/
def Float64.round (x : ℚ) : Float64 :=
  if x = 0 then .finite 0
  else if Float64.roundPos |x| ≥ (2 : ℚ) ^ (1024 : Nat) then
    (if x < 0 then .negInf else .posInf)
  else .finite (if x < 0 then -Float64.roundPos |x| else Float64.roundPos |x|)

/-- The Go sum `x + y` of two `float64`, with its rounding. -/
def Float64.addRounded : Float64 → Float64 → Float64
  | .nan, _ => .nan
  | _, .nan => .nan
  | .posInf, .negInf => .nan
  | .negInf, .posInf => .nan
  | .posInf, _ => .posInf
  | _, .posInf => .posInf
  | .negInf, _ => .negInf
  | _, .negInf => .negInf
  | .finite p, .finite q => Float64.round (p + q)

/-- The Go quotient `x / y` of two `float64`, with its rounding. (A zero
divisor counts as positive zero.) -/
def Float64.divRounded : Float64 → Float64 → Float64
  | .nan, _ => .nan
  | _, .nan => .nan
  | .finite p, .finite q =>
    if q = 0 then (if p = 0 then .nan else if p < 0 then .negInf else .posInf)
    else Float64.round (p / q)
  | .finite _, _ => .finite 0
  | .posInf, .finite q => if q < 0 then .negInf else .posInf
  | .negInf, .finite q => if q < 0 then .posInf else .negInf
  | _, _ => .nan

/-- The Go conversion `int(x)` of a `float64`: the value truncated towards
zero. It is `none` where the Go specification leaves the result to the
implementation: for NaN, the infinities and values outside the 64-bit
range. -/
def Float64.toInt : Float64 → Option Int
  | .finite q =>
    let n : Int := if 0 ≤ q then ⌊q⌋ else ⌈q⌉
    if -9223372036854775808 ≤ n ∧ n ≤ 9223372036854775807 then some n else none
  | _ => none

/-! ## utils/utils.go, continued -/

/-- The slice `directions` of `GetCardinalDirection`. -/
def directions : List String :=
  ["N", "NE", "E", "SE", "S", "SW", "W", "NW"]

/-- The local `index` of `GetCardinalDirection`; `none` where the
conversion to `int` is left to the implementation. -/
def directionIndex (bearing : Float64) : Option Int :=
  (Float64.toInt
    (Float64.divRounded (Float64.addRounded bearing (.finite (45 / 2))) (.finite 45))).map
    (fun n => Int.tmod n 8)

/-- The function `GetCardinalDirection`: `none` where `index` is not
determined or where the lookup `directions[index]` panics. -/
def GetCardinalDirection (bearing : Float64) : Option String :=
  match directionIndex bearing with
  | none => none
  | some index => if 0 ≤ index then directions[index.toNat]? else none

end GoWaze

namespace GoWaze

/-! ## Facts about Go maps -/

theorem GoMap.ext_entries {κ α : Type} {m m' : GoMap κ α} (h : m.entries = m'.entries) :
    m = m' := by
  cases m
  cases m'
  cases h
  rfl

namespace GoMap

variable {κ α : Type} [DecidableEq κ]

theorem get_empty (k : κ) : (empty : GoMap κ α).get k = none := rfl

theorem find_key_of_nodup {l : List (κ × α)} (hl : (l.map Prod.fst).Nodup) {k : κ} {v : α} :
    (k, v) ∈ l ↔ l.find? (fun e => decide (e.1 = k)) = some (k, v) := by
  induction l with
  | nil => simp
  | cons e l ih =>
    rw [List.map_cons, List.nodup_cons] at hl
    by_cases hek : e.1 = k
    · have hnot : ∀ w, (k, w) ∉ l := by
        intro w hw
        exact hl.1 (List.mem_map.mpr ⟨(k, w), hw, hek.symm⟩)
      rw [List.find?_cons_of_pos _ (by simpa using hek)]
      constructor
      · intro h
        rcases List.mem_cons.mp h with h | h
        · rw [h]
        · exact absurd h (hnot v)
      · intro h
        rw [← Option.some.inj h]
        exact List.mem_cons_self _ _
    · rw [List.find?_cons_of_neg _ (by simpa using hek), ← ih hl.2]
      constructor
      · intro h
        rcases List.mem_cons.mp h with h | h
        · exact absurd (by rw [← h]) hek
        · exact h
      · exact fun h => List.mem_cons_of_mem _ h

theorem mem_entries_iff_get (m : GoMap κ α) (k : κ) (v : α) :
    (k, v) ∈ m.entries ↔ m.get k = some v := by
  rw [find_key_of_nodup m.nodupKeys]
  unfold get
  constructor
  · intro h
    rw [h]
    rfl
  · intro h
    obtain ⟨e, he, hv⟩ := Option.map_eq_some'.mp h
    have hk : e.1 = k := by simpa using List.find?_some he
    rw [he]
    congr 1
    exact Prod.ext hk hv

theorem get_delete (m : GoMap κ α) (k k' : κ) :
    (m.delete k).get k' = if k' = k then none else m.get k' := by
  cases h : (m.delete k).get k' with
  | none =>
    split
    · rfl
    · rename_i hne
      cases h' : m.get k' with
      | none => rfl
      | some v =>
        have hm := (mem_entries_iff_get m k' v).mpr h'
        have : (k', v) ∈ (m.delete k).entries := List.mem_filter.mpr ⟨hm, by simpa using hne⟩
        rw [(mem_entries_iff_get _ _ _).mp this] at h
        cases h
  | some v =>
    have hm := List.mem_filter.mp ((mem_entries_iff_get _ k' v).mpr h)
    have hne : k' ≠ k := by simpa using hm.2
    rw [if_neg hne, (mem_entries_iff_get m k' v).mp hm.1]

theorem get_set (m : GoMap κ α) (k k' : κ) (v : α) :
    (m.set k v).get k' = if k' = k then some v else m.get k' := by
  by_cases hk : k' = k
  · rw [if_pos hk, hk]
    exact (mem_entries_iff_get _ _ _).mp (List.mem_cons_self _ _)
  · rw [if_neg hk]
    have hd := get_delete m k k'
    rw [if_neg hk] at hd
    rw [← hd]
    unfold get set delete
    rw [List.find?_cons_of_neg _ (by simpa using fun h : k = k' => hk h.symm)]

theorem len_set_of_get_none (m : GoMap κ α) (k : κ) (v : α) (h : m.get k = none) :
    (m.set k v).len = m.len + 1 := by
  have hall : ∀ e ∈ m.entries, decide (e.1 ≠ k) = true := by
    intro e he
    have : e.1 ≠ k := by
      intro hk
      have := (mem_entries_iff_get m k e.2).mp (by rw [← hk]; exact he)
      rw [h] at this
      cases this
    simpa using this
  unfold len set
  simp only [List.length_cons, List.filter_eq_self.mpr hall]
  push_cast
  rfl

theorem rangeDeleteIf_loop (cond : α → Bool) (todo : List (κ × α)) (acc : GoMap κ α) :
    (todo.foldl (fun acc e => if cond e.2 then acc.delete e.1 else acc) acc).entries =
      acc.entries.filter (fun e => decide (∀ t ∈ todo, cond t.2 = true → t.1 ≠ e.1)) := by
  induction todo generalizing acc with
  | nil => simp
  | cons t todo ih =>
    rw [List.foldl_cons, ih]
    by_cases hc : cond t.2 = true
    · rw [if_pos hc]
      show List.filter _ (List.filter _ acc.entries) = _
      rw [List.filter_filter]
      apply List.filter_congr
      intro e _
      simp only [List.mem_cons, forall_eq_or_imp, hc, true_implies, Bool.decide_and, ne_eq]
      rw [Bool.and_comm]
      congr 2
      exact propext ⟨fun h h' => h h'.symm, fun h h' => h h'.symm⟩
    · rw [if_neg hc]
      apply List.filter_congr
      intro e _
      simp [hc]

theorem rangeDeleteIf_entries (m : GoMap κ α) (cond : α → Bool) :
    (m.rangeDeleteIf cond).entries = m.entries.filter (fun e => !cond e.2) := by
  unfold rangeDeleteIf
  rw [rangeDeleteIf_loop]
  apply List.filter_congr
  intro e he
  by_cases hc : cond e.2 = true
  · have : ¬ ∀ t ∈ m.entries, cond t.2 = true → t.1 ≠ e.1 := fun h => h e he hc rfl
    rw [decide_eq_false this, hc]
    rfl
  · have : ∀ t ∈ m.entries, cond t.2 = true → t.1 ≠ e.1 := by
      intro t ht htc hte
      have h1 := (mem_entries_iff_get m e.1 t.2).mp (by rw [← hte]; exact ht)
      have h2 := (mem_entries_iff_get m e.1 e.2).mp he
      rw [h1] at h2
      rw [Option.some.inj h2] at htc
      exact hc htc
    rw [decide_eq_true this, Bool.eq_false_iff.mpr hc]
    rfl

theorem get_rangeDeleteIf (m : GoMap κ α) (cond : α → Bool) (k : κ) (v : α) :
    (m.rangeDeleteIf cond).get k = some v ↔ m.get k = some v ∧ cond v = false := by
  rw [← mem_entries_iff_get, ← mem_entries_iff_get, rangeDeleteIf_entries, List.mem_filter]
  simp

theorem rangeDeleteIf_idem (m : GoMap κ α) (cond : α → Bool) :
    (m.rangeDeleteIf cond).rangeDeleteIf cond = m.rangeDeleteIf cond := by
  apply ext_entries
  rw [rangeDeleteIf_entries, rangeDeleteIf_entries, List.filter_filter]
  simp

end GoMap

/-! ## Identifiers of users -/

theorem Op.apply_userKeys (s : Storage) (op : Op)
    (hs : ∀ k u, s.Users.get k = some u → k < s.NextUserID) :
    (∀ k u, (op.apply s).Users.get k = some u → k < (op.apply s).NextUserID) ∧
      s.NextUserID ≤ (op.apply s).NextUserID ∧
      ∀ id ∈ op.userIDs s, id < (op.apply s).NextUserID := by
  cases op with
  | createUser username lat lng now =>
    refine ⟨?_, ?_, ?_⟩
    · intro k u hk
      simp only [Op.apply, Storage.CreateUser, GoMap.get_set] at hk ⊢
      split at hk
      · omega
      · have := hs k u hk
        omega
    · simp only [Op.apply, Storage.CreateUser]
      omega
    · intro id hid
      simp only [Op.userIDs, Storage.CreateUser, List.mem_singleton] at hid
      simp only [Op.apply, Storage.CreateUser]
      omega
  | createReport reportType lat lng description userID now =>
    exact ⟨hs, le_refl _, by simp [Op.userIDs]⟩
  | updateTrafficData key data =>
    exact ⟨hs, le_refl _, by simp [Op.userIDs]⟩
  | initSampleData now =>
    exact ⟨hs, le_refl _, by simp [Op.userIDs]⟩
  | cleanup now =>
    refine ⟨?_, le_refl _, by simp [Op.userIDs]⟩
    intro k u hk
    exact hs k u ((GoMap.get_rangeDeleteIf _ _ _ _).mp hk).1

theorem run_userKeys (ops : List Op) (s : Storage)
    (hs : ∀ k u, s.Users.get k = some u → k < s.NextUserID) :
    (∀ k u, (run s ops).Users.get k = some u → k < (run s ops).NextUserID) ∧
      s.NextUserID ≤ (run s ops).NextUserID ∧
      ∀ id ∈ userIDsReturned s ops, id < (run s ops).NextUserID := by
  induction ops generalizing s with
  | nil => exact ⟨hs, le_refl _, by simp [userIDsReturned]⟩
  | cons op ops ih =>
    obtain ⟨h1, h2, h3⟩ := Op.apply_userKeys s op hs
    obtain ⟨i1, i2, i3⟩ := ih (op.apply s) h1
    refine ⟨i1, le_trans h2 i2, ?_⟩
    intro id hid
    rcases List.mem_append.mp hid with h | h
    · exact lt_of_lt_of_le (h3 id h) i2
    · exact i3 id h

/-- C1: in every store reached from a fresh store by store operations,
`CreateUser` with a non-empty name is accepted by the handler and returns a
user whose id is strictly greater than every id `CreateUser` returned
before, and the store then holds exactly one more user. -/
theorem createUser_id_fresh (ops : List Op) (username : String) (lat lng : Float64)
    (now : Time) (hname : username ≠ "") :
    (CreateUserHandler (run NewStorage ops) username lat lng now).response =
        .userRegistered ((run NewStorage ops).CreateUser username lat lng now).1 ∧
      (CreateUserHandler (run NewStorage ops) username lat lng now).storage =
        ((run NewStorage ops).CreateUser username lat lng now).2 ∧
      (∀ id ∈ userIDsReturned NewStorage ops,
        id < ((run NewStorage ops).CreateUser username lat lng now).1.ID) ∧
      ((run NewStorage ops).CreateUser username lat lng now).2.Users.len =
        (run NewStorage ops).Users.len + 1 := by
  obtain ⟨h1, _, h3⟩ := run_userKeys ops NewStorage (by
    intro k u hk
    rw [show NewStorage.Users = GoMap.empty from rfl, GoMap.get_empty] at hk
    cases hk)
  refine ⟨by simp [CreateUserHandler, hname], by simp [CreateUserHandler, hname], h3, ?_⟩
  apply GoMap.len_set_of_get_none
  cases hg : (run NewStorage ops).Users.get (run NewStorage ops).NextUserID with
  | none => rfl
  | some u => exact absurd (h1 _ u hg) (lt_irrefl _)

theorem createUser_id_fresh_witness :
    "luis" ≠ "" ∧
      (CreateUserHandler (run NewStorage [.createUser "ana" (.finite 14) (.finite (-87)) 0,
          .cleanup 5]) "luis" (.finite 15) (.finite (-88)) 7).response =
        .userRegistered ((run NewStorage [.createUser "ana" (.finite 14) (.finite (-87)) 0,
          .cleanup 5]).CreateUser "luis" (.finite 15) (.finite (-88)) 7).1 ∧
      (CreateUserHandler (run NewStorage [.createUser "ana" (.finite 14) (.finite (-87)) 0,
          .cleanup 5]) "luis" (.finite 15) (.finite (-88)) 7).storage =
        ((run NewStorage [.createUser "ana" (.finite 14) (.finite (-87)) 0,
          .cleanup 5]).CreateUser "luis" (.finite 15) (.finite (-88)) 7).2 ∧
      (∀ id ∈ userIDsReturned NewStorage [.createUser "ana" (.finite 14) (.finite (-87)) 0,
          .cleanup 5],
        id < ((run NewStorage [.createUser "ana" (.finite 14) (.finite (-87)) 0,
          .cleanup 5]).CreateUser "luis" (.finite 15) (.finite (-88)) 7).1.ID) ∧
      ((run NewStorage [.createUser "ana" (.finite 14) (.finite (-87)) 0,
          .cleanup 5]).CreateUser "luis" (.finite 15) (.finite (-88)) 7).2.Users.len =
        (run NewStorage [.createUser "ana" (.finite 14) (.finite (-87)) 0,
          .cleanup 5]).Users.len + 1 :=
  ⟨by decide, createUser_id_fresh _ "luis" _ _ 7 (by decide)⟩

/-! ## Validation in the handlers -/

/-- C2: for every store and coordinates, creating a user with the empty
name is rejected with status 400 before the store is called: the store
(users, their number, the next-user-id counter) is unchanged and nothing is
broadcast. -/
theorem createUser_empty_name_rejected (s : Storage) (lat lng : Float64) (now : Time) :
    (CreateUserHandler s "" lat lng now).response =
        .error "Username es requerido" StatusBadRequest ∧
      (CreateUserHandler s "" lat lng now).storage = s ∧
      (CreateUserHandler s "" lat lng now).storage.Users.len = s.Users.len ∧
      (CreateUserHandler s "" lat lng now).storage.NextUserID = s.NextUserID ∧
      (CreateUserHandler s "" lat lng now).wsCalls = [] :=
  ⟨rfl, rfl, rfl, rfl, rfl⟩

/-- C3: for every store and every report type other than accident, police,
traffic and hazard, creating a report is rejected with status 400 before the
store is called: the store (reports, their number, the next-report-id
counter) is unchanged and nothing is broadcast. -/
theorem createReport_invalid_type_rejected (s : Storage) (reportType : String)
    (lat lng : Float64) (description : String) (now listNow : Time)
    (h1 : reportType ≠ "accident") (h2 : reportType ≠ "police")
    (h3 : reportType ≠ "traffic") (h4 : reportType ≠ "hazard") :
    (∃ msg, (CreateReportHandler s reportType lat lng description now listNow).response =
        .error msg StatusBadRequest) ∧
      (CreateReportHandler s reportType lat lng description now listNow).storage = s ∧
      (CreateReportHandler s reportType lat lng description now listNow).storage.Reports.len =
        s.Reports.len ∧
      (CreateReportHandler s reportType lat lng description now listNow).storage.NextReportID =
        s.NextReportID ∧
      (CreateReportHandler s reportType lat lng description now listNow).wsCalls = [] := by
  have hv : validTypes reportType = false := by simp [validTypes, h1, h2, h3, h4]
  unfold CreateReportHandler
  by_cases he : reportType = ""
  · rw [if_pos he]
    exact ⟨⟨_, rfl⟩, rfl, rfl, rfl, rfl⟩
  · rw [if_neg he, hv]
    exact ⟨⟨_, rfl⟩, rfl, rfl, rfl, rfl⟩

theorem createReport_invalid_type_rejected_witness :
    ("flood" ≠ "accident" ∧ "flood" ≠ "police" ∧ "flood" ≠ "traffic" ∧ "flood" ≠ "hazard") ∧
      (∃ msg, (CreateReportHandler NewStorage "flood" (.finite 14) (.finite (-87)) "rio" 0
        0).response = .error msg StatusBadRequest) ∧
      (CreateReportHandler NewStorage "flood" (.finite 14) (.finite (-87)) "rio" 0 0).storage =
        NewStorage ∧
      (CreateReportHandler NewStorage "flood" (.finite 14) (.finite (-87)) "rio" 0
        0).storage.Reports.len = NewStorage.Reports.len ∧
      (CreateReportHandler NewStorage "flood" (.finite 14) (.finite (-87)) "rio" 0
        0).storage.NextReportID = NewStorage.NextReportID ∧
      (CreateReportHandler NewStorage "flood" (.finite 14) (.finite (-87)) "rio" 0 0).wsCalls =
        [] :=
  ⟨by decide,
    createReport_invalid_type_rejected NewStorage "flood" (.finite 14) (.finite (-87)) "rio" 0 0
      (by decide) (by decide) (by decide) (by decide)⟩

/-! ## Creating a report -/

/-- C4: for every store and every type among accident, police, traffic and
hazard, `CreateReport` returns a report with the store's next report id,
the given type, position, description and author, the current clock as
creation time and one vote; afterwards the report is stored under its id,
the counter is one higher, and users and traffic samples are unchanged. The
handler accepts such a type and performs exactly this store call (with
author 1). -/
theorem createReport_valid_type (s : Storage) (reportType : String) (lat lng : Float64)
    (description : String) (userID : Int) (now listNow : Time)
    (h : reportType = "accident" ∨ reportType = "police" ∨ reportType = "traffic" ∨
      reportType = "hazard") :
    (s.CreateReport reportType lat lng description userID now).1 =
        { ID := s.NextReportID, Type_ := reportType, Lat := lat, Lng := lng,
          Description := description, UserID := userID, CreatedAt := now, Votes := 1 } ∧
      (s.CreateReport reportType lat lng description userID now).2.Reports.get s.NextReportID =
        some (s.CreateReport reportType lat lng description userID now).1 ∧
      (s.CreateReport reportType lat lng description userID now).2.NextReportID =
        s.NextReportID + 1 ∧
      (s.CreateReport reportType lat lng description userID now).2.Users = s.Users ∧
      (s.CreateReport reportType lat lng description userID now).2.TrafficData =
        s.TrafficData ∧
      (s.CreateReport reportType lat lng description userID now).2.NextUserID =
        s.NextUserID ∧
      (CreateReportHandler s reportType lat lng description now listNow).storage =
        (s.CreateReport reportType lat lng description 1 now).2 ∧
      (CreateReportHandler s reportType lat lng description now listNow).wsCalls =
        [.BroadcastNewReport (s.CreateReport reportType lat lng description 1 now).1] := by
  have hv : validTypes reportType = true := by
    rcases h with h | h | h | h <;> rw [h] <;> decide
  have he : reportType ≠ "" := by
    rcases h with h | h | h | h <;> rw [h] <;> decide
  refine ⟨rfl, ?_, rfl, rfl, rfl, rfl, ?_, ?_⟩
  · show (s.Reports.set s.NextReportID _).get s.NextReportID = _
    rw [GoMap.get_set, if_pos rfl]
    rfl
  · simp [CreateReportHandler, he, hv, Storage.GetRecentReports]
  · simp [CreateReportHandler, he, hv]

theorem createReport_valid_type_witness :
    ("hazard" = "accident" ∨ "hazard" = "police" ∨ "hazard" = "traffic" ∨
        "hazard" = "hazard") ∧
      (NewStorage.CreateReport "hazard" (.finite 14) (.finite (-87)) "bache" 7 100).1 =
        { ID := 1, Type_ := "hazard", Lat := .finite 14, Lng := .finite (-87),
          Description := "bache", UserID := 7, CreatedAt := 100, Votes := 1 } :=
  ⟨by decide,
    (createReport_valid_type NewStorage "hazard" (.finite 14) (.finite (-87)) "bache" 7 100 100
      (by decide)).1⟩

/-! ## Recent reports -/

theorem Since_lt_iff (now t d : Int) (hd : d ≤ maxDuration) (hd' : minDuration < d) :
    Since now t < d ↔ now - t < d := by
  unfold Since Time.Sub maxDuration minDuration at *
  unfold Duration Time at *
  split_ifs <;> omega

theorem Since_gt_iff (now t d : Int) (hd : d < maxDuration) (hd' : minDuration ≤ d) :
    Since now t > d ↔ now - t > d := by
  unfold Since Time.Sub maxDuration minDuration at *
  unfold Duration Time at *
  split_ifs <;> omega

theorem day_bounds : 24 * Hour < maxDuration ∧ minDuration < 24 * Hour := by
  unfold Hour Minute Second maxDuration minDuration Duration
  omega

theorem hour_bounds : Hour < maxDuration ∧ minDuration < Hour := by
  unfold Hour Minute Second maxDuration minDuration Duration
  omega

theorem recentLoop_eq (now : Time) (l : List (Int × Report)) (init : List Report) :
    l.foldl
        (fun reports e =>
          if Since now e.2.CreatedAt < 24 * Hour then reports ++ [e.2] else reports)
        init =
      init ++ (l.filter (fun e => decide (now - e.2.CreatedAt < 24 * Hour))).map Prod.snd := by
  induction l generalizing init with
  | nil => simp
  | cons e l ih =>
    rw [List.foldl_cons, ih]
    by_cases h : now - e.2.CreatedAt < 24 * Hour
    · rw [if_pos ((Since_lt_iff _ _ _ (le_of_lt day_bounds.1) day_bounds.2).mpr h),
        List.filter_cons_of_pos (by simpa using h)]
      simp
    · rw [if_neg (fun h' => h ((Since_lt_iff _ _ _ (le_of_lt day_bounds.1) day_bounds.2).mp h')),
        List.filter_cons_of_neg (by simpa using h)]

theorem GetRecentReports_eq (s : Storage) (now : Time) :
    (s.GetRecentReports now).1 =
      (s.Reports.entries.filter (fun e => decide (now - e.2.CreatedAt < 24 * Hour))).map
        Prod.snd := by
  unfold Storage.GetRecentReports
  rw [recentLoop_eq]
  rfl

theorem mem_GetRecentReports (s : Storage) (now : Time) (r : Report) :
    r ∈ (s.GetRecentReports now).1 ↔
      (∃ k, s.Reports.get k = some r) ∧ now - r.CreatedAt < 24 * Hour := by
  rw [GetRecentReports_eq, List.mem_map]
  constructor
  · rintro ⟨e, he, rfl⟩
    obtain ⟨hm, hq⟩ := List.mem_filter.mp he
    exact ⟨⟨e.1, (GoMap.mem_entries_iff_get _ _ _).mp hm⟩, by simpa using hq⟩
  · rintro ⟨⟨k, hk⟩, hq⟩
    exact ⟨(k, r), List.mem_filter.mpr ⟨(GoMap.mem_entries_iff_get _ _ _).mpr hk, by simpa using hq⟩,
      rfl⟩

/-- C5: for every store and call time, `GetRecentReports` returns exactly
the stored reports created less than 24 hours before the call: a report is
in the result if and only if it is stored and younger than 24 hours, the
result lists the qualifying entries of the map once each (it is a
permutation of them), and the store is unchanged. -/
theorem recentReports_exact (s : Storage) (now : Time) :
    (∀ r, r ∈ (s.GetRecentReports now).1 ↔
        (∃ k, s.Reports.get k = some r) ∧ now - r.CreatedAt < 24 * Hour) ∧
      (∀ r ∈ (s.GetRecentReports now).1, ¬ now - r.CreatedAt ≥ 24 * Hour) ∧
      ((s.GetRecentReports now).1.Perm
        ((s.Reports.entries.filter
          (fun e => decide (now - e.2.CreatedAt < 24 * Hour))).map Prod.snd)) ∧
      (s.GetRecentReports now).2 = s := by
  refine ⟨mem_GetRecentReports s now, ?_, ?_, rfl⟩
  · intro r hr
    have := ((mem_GetRecentReports s now r).mp hr).2
    exact not_le.mpr this
  · rw [GetRecentReports_eq]

theorem Op.apply_keeps_report (s : Storage) (op : Op) (k : Int) (r : Report)
    (hop : op.isCleanup = false ∧ op.isInitSampleData = false)
    (hk : s.Reports.get k = some r) (hlt : k < s.NextReportID) :
    (op.apply s).Reports.get k = some r ∧ k < (op.apply s).NextReportID := by
  cases op with
  | createUser username lat lng now => exact ⟨hk, hlt⟩
  | createReport reportType lat lng description userID now =>
    constructor
    · show (s.Reports.set s.NextReportID _).get k = some r
      rw [GoMap.get_set, if_neg (ne_of_lt hlt), hk]
    · show k < s.NextReportID + 1
      omega
  | updateTrafficData key data => exact ⟨hk, hlt⟩
  | initSampleData now => simp [Op.isInitSampleData] at hop
  | cleanup now => simp [Op.isCleanup] at hop

theorem run_keeps_report (mid : List Op) (s : Storage) (k : Int) (r : Report)
    (hmid : ∀ op ∈ mid, op.isCleanup = false ∧ op.isInitSampleData = false)
    (hk : s.Reports.get k = some r) (hlt : k < s.NextReportID) :
    (run s mid).Reports.get k = some r := by
  induction mid generalizing s with
  | nil => exact hk
  | cons op mid ih =>
    obtain ⟨h1, h2⟩ := Op.apply_keeps_report s op k r (hmid op (List.mem_cons_self _ _)) hk hlt
    exact ih (op.apply s) (fun o ho => hmid o (List.mem_cons_of_mem _ ho)) h1 h2

/-- C6: on a fresh store, creating the report traffic / 14.0818 / -87.2068 /
"jam" returns a report with id 1, one vote and type traffic, and a
`GetRecentReports` call less than 24 hours later returns exactly that one
report. In general, for every store, the report `CreateReport` has just
returned is in the result of a `GetRecentReports` call made less than 24
hours after its creation, also when users, reports and traffic samples are
created in between, as long as no `cleanup` runs in between (nor the
startup-only `InitSampleData`). -/
theorem createReport_then_recent (author : Int) (t0 t1 : Time) (s : Storage)
    (reportType : String) (lat lng : Float64) (description : String) (userID : Int)
    (mid : List Op) (hlt : t1 - t0 < 24 * Hour)
    (hmid : ∀ op ∈ mid, op.isCleanup = false ∧ op.isInitSampleData = false) :
    (NewStorage.CreateReport "traffic" (.finite (140818 / 10000)) (.finite (-872068 / 10000))
        "jam" author t0).1 =
        { ID := 1, Type_ := "traffic", Lat := .finite (140818 / 10000),
          Lng := .finite (-872068 / 10000), Description := "jam", UserID := author,
          CreatedAt := t0, Votes := 1 } ∧
      ((NewStorage.CreateReport "traffic" (.finite (140818 / 10000))
          (.finite (-872068 / 10000)) "jam" author t0).2.GetRecentReports t1).1 =
        [(NewStorage.CreateReport "traffic" (.finite (140818 / 10000))
          (.finite (-872068 / 10000)) "jam" author t0).1] ∧
      (s.CreateReport reportType lat lng description userID t0).1 ∈
        ((run (s.CreateReport reportType lat lng description userID t0).2
          mid).GetRecentReports t1).1 := by
  refine ⟨rfl, ?_, ?_⟩
  · rw [GetRecentReports_eq]
    show List.map Prod.snd (List.filter _ [(1, _)]) = _
    rw [List.filter_cons_of_pos (by simpa using hlt)]
    rfl
  · rw [mem_GetRecentReports]
    refine ⟨⟨s.NextReportID, ?_⟩, hlt⟩
    apply run_keeps_report mid _ _ _ hmid
    · show (s.Reports.set s.NextReportID _).get s.NextReportID = _
      rw [GoMap.get_set, if_pos rfl]
      rfl
    · show s.NextReportID < s.NextReportID + 1
      omega

theorem createReport_then_recent_witness :
    ((3600000000000 : Int) - 0 < 24 * Hour) ∧
      ((NewStorage.CreateReport "traffic" (.finite (140818 / 10000))
          (.finite (-872068 / 10000)) "jam" 1 0).2.GetRecentReports 3600000000000).1 =
        [(NewStorage.CreateReport "traffic" (.finite (140818 / 10000))
          (.finite (-872068 / 10000)) "jam" 1 0).1] ∧
      (NewStorage.CreateReport "police" (.finite 14) (.finite (-87)) "reten" 1 0).1 ∈
        ((run (NewStorage.CreateReport "police" (.finite 14) (.finite (-87)) "reten" 1 0).2
          [.createUser "ana" (.finite 14) (.finite (-87)) 5,
            .createReport "hazard" (.finite 14) (.finite (-87)) "bache" 1 6]).GetRecentReports
              3600000000000).1 :=
  ⟨by decide,
    (createReport_then_recent 1 0 3600000000000 NewStorage "police" (.finite 14)
      (.finite (-87)) "reten" 1
      [.createUser "ana" (.finite 14) (.finite (-87)) 5,
        .createReport "hazard" (.finite 14) (.finite (-87)) "bache" 1 6]
      (by decide) (by simp [Op.isCleanup, Op.isInitSampleData])).2⟩

/-! ## The cleanup pass -/

theorem expired_false_iff (now t d : Int) (hd : d < maxDuration) (hd' : minDuration ≤ d) :
    decide (Since now t > d) = false ↔ now - t ≤ d := by
  rw [decide_eq_false_iff_not, Since_gt_iff now t d hd hd']
  exact not_lt

/-- C7: for every store and sweep time, after `cleanup` the store holds
exactly the users last seen at most one hour ago, the reports created at
most 24 hours ago and the traffic samples taken at most one hour ago that it
held before, each under its old key and unaltered; every older record is
gone, nothing is added, and the id counters are unchanged. -/
theorem cleanup_exact (s : Storage) (now : Time) :
    (∀ k u, (s.cleanup now).Users.get k = some u ↔
        s.Users.get k = some u ∧ now - u.LastSeen ≤ Hour) ∧
      (∀ k r, (s.cleanup now).Reports.get k = some r ↔
        s.Reports.get k = some r ∧ now - r.CreatedAt ≤ 24 * Hour) ∧
      (∀ k t, (s.cleanup now).TrafficData.get k = some t ↔
        s.TrafficData.get k = some t ∧ now - t.Timestamp ≤ Hour) ∧
      (s.cleanup now).NextUserID = s.NextUserID ∧
      (s.cleanup now).NextReportID = s.NextReportID := by
  refine ⟨?_, ?_, ?_, rfl, rfl⟩
  · intro k u
    show (s.Users.rangeDeleteIf _).get k = some u ↔ _
    rw [GoMap.get_rangeDeleteIf, expired_false_iff _ _ _ hour_bounds.1 (le_of_lt hour_bounds.2)]
  · intro k r
    show (s.Reports.rangeDeleteIf _).get k = some r ↔ _
    rw [GoMap.get_rangeDeleteIf, expired_false_iff _ _ _ day_bounds.1 (le_of_lt day_bounds.2)]
  · intro k t
    show (s.TrafficData.rangeDeleteIf _).get k = some t ↔ _
    rw [GoMap.get_rangeDeleteIf, expired_false_iff _ _ _ hour_bounds.1 (le_of_lt hour_bounds.2)]

/-- C8: `cleanup` is idempotent: for every store and time, a second pass at
the same time leaves the store exactly as the first pass left it. -/
theorem cleanup_idempotent (s : Storage) (now : Time) :
    (s.cleanup now).cleanup now = s.cleanup now := by
  unfold Storage.cleanup
  simp only [GoMap.rangeDeleteIf_idem]

/-! ## Identifiers of reports and the counters -/

theorem run_append (s : Storage) (pre post : List Op) :
    run s (pre ++ post) = run (run s pre) post :=
  List.foldl_append _ _ _ _

theorem Op.apply_userCounter (s : Storage) (op : Op) :
    s.NextUserID ≤ (op.apply s).NextUserID := by
  cases op with
  | createUser username lat lng now =>
    show s.NextUserID ≤ s.NextUserID + 1
    omega
  | createReport reportType lat lng description userID now => exact le_refl _
  | updateTrafficData key data => exact le_refl _
  | initSampleData now => exact le_refl _
  | cleanup now => exact le_refl _

theorem run_userCounter (ops : List Op) (s : Storage) :
    s.NextUserID ≤ (run s ops).NextUserID := by
  induction ops generalizing s with
  | nil => exact le_refl _
  | cons op ops ih => exact le_trans (Op.apply_userCounter s op) (ih (op.apply s))

theorem Op.apply_reportCounter_ge_one (s : Storage) (op : Op) (h : 1 ≤ s.NextReportID) :
    1 ≤ (op.apply s).NextReportID := by
  cases op with
  | createUser username lat lng now => exact h
  | createReport reportType lat lng description userID now =>
    show 1 ≤ s.NextReportID + 1
    omega
  | updateTrafficData key data => exact h
  | initSampleData now =>
    show (1 : Int) ≤ 4
    omega
  | cleanup now => exact h

theorem run_reportCounter_ge_one (ops : List Op) (s : Storage) (h : 1 ≤ s.NextReportID) :
    1 ≤ (run s ops).NextReportID := by
  induction ops generalizing s with
  | nil => exact h
  | cons op ops ih => exact ih (op.apply s) (Op.apply_reportCounter_ge_one s op h)

theorem Op.apply_reportIDs (s : Storage) (op : Op) (h : op.isInitSampleData = false) :
    s.NextReportID ≤ (op.apply s).NextReportID ∧
      ∀ id ∈ op.reportIDs s, s.NextReportID ≤ id ∧ id < (op.apply s).NextReportID := by
  cases op with
  | createUser username lat lng now => exact ⟨le_refl _, by simp [Op.reportIDs]⟩
  | createReport reportType lat lng description userID now =>
    constructor
    · show s.NextReportID ≤ s.NextReportID + 1
      omega
    · intro id hid
      have hid' : id = s.NextReportID := by simpa [Op.reportIDs, Storage.CreateReport] using hid
      show s.NextReportID ≤ id ∧ id < s.NextReportID + 1
      omega
  | updateTrafficData key data => exact ⟨le_refl _, by simp [Op.reportIDs]⟩
  | initSampleData now => simp [Op.isInitSampleData] at h
  | cleanup now => exact ⟨le_refl _, by simp [Op.reportIDs]⟩

theorem run_reportIDs_of_noSeed (ops : List Op) (s : Storage)
    (h : ∀ op ∈ ops, op.isInitSampleData = false) :
    s.NextReportID ≤ (run s ops).NextReportID ∧
      (∀ id ∈ reportIDsAssigned s ops, s.NextReportID ≤ id ∧ id < (run s ops).NextReportID) ∧
      (reportIDsAssigned s ops).Nodup := by
  induction ops generalizing s with
  | nil => exact ⟨le_refl _, by simp [reportIDsAssigned], by simp [reportIDsAssigned]⟩
  | cons op ops ih =>
    obtain ⟨h1, h2⟩ := Op.apply_reportIDs s op (h op (List.mem_cons_self _ _))
    obtain ⟨i1, i2, i3⟩ := ih (op.apply s) (fun o ho => h o (List.mem_cons_of_mem _ ho))
    refine ⟨le_trans h1 i1, ?_, ?_⟩
    · intro id hid
      rcases List.mem_append.mp hid with hm | hm
      · exact ⟨(h2 id hm).1, lt_of_lt_of_le (h2 id hm).2 i1⟩
      · exact ⟨le_trans h1 (i2 id hm).1, (i2 id hm).2⟩
    · show (op.reportIDs s ++ reportIDsAssigned (op.apply s) ops).Nodup
      refine List.nodup_append.mpr ⟨?_, i3, ?_⟩
      · cases op <;> simp [Op.reportIDs]
      · intro id hm hm'
        have := (h2 id hm).2
        have := (i2 id hm').1
        omega

theorem all_noSeed {ops : List Op} (h : ops.all (fun op => !op.isInitSampleData) = true) :
    ∀ op ∈ ops, op.isInitSampleData = false := by
  intro op hop
  simpa using List.all_eq_true.mp h op hop

theorem run_reportIDs_of_seeded (ops : List Op) (s : Storage) (hs : s.NextReportID = 1)
    (h : seededBeforeReports ops = true) : (reportIDsAssigned s ops).Nodup := by
  induction ops generalizing s with
  | nil => simp [reportIDsAssigned]
  | cons op ops ih =>
    cases op with
    | createUser username lat lng now => exact ih _ hs h
    | updateTrafficData key data => exact ih _ hs h
    | cleanup now => exact ih _ hs h
    | createReport reportType lat lng description userID now =>
      refine (run_reportIDs_of_noSeed _ s ?_).2.2
      intro o ho
      rcases List.mem_cons.mp ho with ho | ho
      · rw [ho]
        rfl
      · exact all_noSeed h o ho
    | initSampleData now =>
      obtain ⟨_, i2, i3⟩ := run_reportIDs_of_noSeed ops (s.InitSampleData now) (all_noSeed h)
      show ([1, 2, 3] ++ reportIDsAssigned (s.InitSampleData now) ops).Nodup
      refine List.nodup_append.mpr ⟨by decide, i3, ?_⟩
      intro id hm hm'
      have h4 : (4 : Int) ≤ id := (i2 id hm').1
      simp only [List.mem_cons, List.mem_singleton, List.not_mem_nil, or_false] at hm
      omega

theorem Op.apply_userIDs (s : Storage) (op : Op) :
    (op.userIDs s).Nodup ∧
      ∀ id ∈ op.userIDs s, s.NextUserID ≤ id ∧ id < (op.apply s).NextUserID := by
  cases op with
  | createUser username lat lng now =>
    refine ⟨List.nodup_singleton _, ?_⟩
    intro id hid
    have hid' : id = s.NextUserID := by simpa [Op.userIDs, Storage.CreateUser] using hid
    show s.NextUserID ≤ id ∧ id < s.NextUserID + 1
    omega
  | createReport reportType lat lng description userID now =>
    exact ⟨List.nodup_nil, by simp [Op.userIDs]⟩
  | updateTrafficData key data => exact ⟨List.nodup_nil, by simp [Op.userIDs]⟩
  | initSampleData now => exact ⟨List.nodup_nil, by simp [Op.userIDs]⟩
  | cleanup now => exact ⟨List.nodup_nil, by simp [Op.userIDs]⟩

theorem run_userIDs_nodup (ops : List Op) (s : Storage) :
    (∀ id ∈ userIDsReturned s ops, s.NextUserID ≤ id) ∧ (userIDsReturned s ops).Nodup := by
  induction ops generalizing s with
  | nil => exact ⟨by simp [userIDsReturned], by simp [userIDsReturned]⟩
  | cons op ops ih =>
    obtain ⟨h1, h2⟩ := Op.apply_userIDs s op
    obtain ⟨i1, i2⟩ := ih (op.apply s)
    constructor
    · intro id hid
      rcases List.mem_append.mp hid with hm | hm
      · exact (h2 id hm).1
      · exact le_trans (Op.apply_userCounter s op) (i1 id hm)
    · show (op.userIDs s ++ userIDsReturned (op.apply s) ops).Nodup
      refine List.nodup_append.mpr ⟨h1, i2, ?_⟩
      intro id hm hm'
      have := (h2 id hm).2
      have := i1 id hm'
      omega

theorem run_reportCounter_of_seeded (pre post : List Op) (s : Storage)
    (h : seededBeforeReports (pre ++ post) = true)
    (hpost : ∃ op ∈ post, op.isInitSampleData = true) :
    (run s pre).NextReportID = s.NextReportID := by
  induction pre generalizing s with
  | nil => rfl
  | cons op pre ih =>
    obtain ⟨o, ho, hseed⟩ := hpost
    cases op with
    | createUser username lat lng now => exact ih _ h
    | updateTrafficData key data => exact ih _ h
    | cleanup now => exact ih _ h
    | createReport reportType lat lng description userID now =>
      have := all_noSeed h o (List.mem_append_right _ ho)
      rw [hseed] at this
      cases this
    | initSampleData now =>
      have := all_noSeed h o (List.mem_append_right _ ho)
      rw [hseed] at this
      cases this

/-- C9, as the code has it: for every sequence of `CreateUser`,
`CreateReport`, `UpdateTrafficData`, `cleanup` and `InitSampleData` applied
to a fresh store in which `InitSampleData` occurs at most once and before
any `CreateReport`, neither id counter is ever lower after a longer prefix
of the sequence than after a shorter one, no report id is assigned twice
(whatever `cleanup` has deleted meanwhile), and no user id is returned
twice. -/
theorem ids_never_reused (pre post : List Op)
    (h : seededBeforeReports (pre ++ post) = true) :
    (run NewStorage pre).NextUserID ≤ (run NewStorage (pre ++ post)).NextUserID ∧
      (run NewStorage pre).NextReportID ≤ (run NewStorage (pre ++ post)).NextReportID ∧
      (reportIDsAssigned NewStorage (pre ++ post)).Nodup ∧
      (userIDsReturned NewStorage (pre ++ post)).Nodup := by
  refine ⟨?_, ?_, run_reportIDs_of_seeded _ NewStorage rfl h, (run_userIDs_nodup _ _).2⟩
  · rw [run_append]
    exact run_userCounter post _
  · rw [run_append]
    by_cases hpost : ∃ op ∈ post, op.isInitSampleData = true
    · rw [run_reportCounter_of_seeded pre post NewStorage h hpost]
      exact run_reportCounter_ge_one post _
        (by rw [run_reportCounter_of_seeded pre post NewStorage h hpost]; exact le_refl _)
    · refine (run_reportIDs_of_noSeed post _ ?_).1
      intro o ho
      cases ho' : o.isInitSampleData with
      | false => rfl
      | true => exact absurd ⟨o, ho, ho'⟩ hpost

theorem ids_never_reused_witness :
    seededBeforeReports ([.initSampleData 0, sampleCreateReport] ++
        [.cleanup 5, sampleCreateReport]) = true ∧
      (run NewStorage [.initSampleData 0, sampleCreateReport]).NextUserID ≤
        (run NewStorage ([.initSampleData 0, sampleCreateReport] ++
          [.cleanup 5, sampleCreateReport])).NextUserID ∧
      (run NewStorage [.initSampleData 0, sampleCreateReport]).NextReportID ≤
        (run NewStorage ([.initSampleData 0, sampleCreateReport] ++
          [.cleanup 5, sampleCreateReport])).NextReportID ∧
      (reportIDsAssigned NewStorage ([.initSampleData 0, sampleCreateReport] ++
        [.cleanup 5, sampleCreateReport])).Nodup ∧
      (userIDsReturned NewStorage ([.initSampleData 0, sampleCreateReport] ++
        [.cleanup 5, sampleCreateReport])).Nodup :=
  ⟨by decide,
    ids_never_reused [.initSampleData 0, sampleCreateReport] [.cleanup 5, sampleCreateReport]
      (by decide)⟩

/-- C9, as stated, fails when `InitSampleData` runs after reports were
created: after four `CreateReport` calls the next report id is 5, a late
`InitSampleData` sets it back to 4 and stores reports under the ids 1, 2, 3
again, and the next `CreateReport` returns the id 4 a second time. -/
theorem late_seed_reuses_ids :
    (run NewStorage [sampleCreateReport, sampleCreateReport, sampleCreateReport,
        sampleCreateReport]).NextReportID = 5 ∧
      (run NewStorage [sampleCreateReport, sampleCreateReport, sampleCreateReport,
        sampleCreateReport, .initSampleData 0]).NextReportID = 4 ∧
      reportIDsAssigned NewStorage [sampleCreateReport, sampleCreateReport,
        sampleCreateReport, sampleCreateReport, .initSampleData 0, sampleCreateReport] =
        [1, 2, 3, 4, 1, 2, 3, 4] ∧
      ¬ (reportIDsAssigned NewStorage [sampleCreateReport, sampleCreateReport,
        sampleCreateReport, sampleCreateReport, .initSampleData 0,
        sampleCreateReport]).Nodup := by
  refine ⟨rfl, rfl, rfl, ?_⟩
  rw [show reportIDsAssigned NewStorage [sampleCreateReport, sampleCreateReport,
        sampleCreateReport, sampleCreateReport, .initSampleData 0, sampleCreateReport] =
        [1, 2, 3, 4, 1, 2, 3, 4] from rfl]
  decide

/-! ## Coordinates are not validated -/

theorem ValidateCoordinates_finite (a b : ℚ) :
    ValidateCoordinates (.finite a) (.finite b) = true ↔
      -90 ≤ a ∧ a ≤ 90 ∧ -180 ≤ b ∧ b ≤ 180 := by
  simp [ValidateCoordinates, Float64.ge, Float64.le, and_assoc]

/-- C10, as the code has it: neither handler nor store method validates
coordinates. For every store, a `CreateUser` request with a non-empty name
and a `CreateReport` request with a type among accident, police, traffic and
hazard are accepted also when `ValidateCoordinates lat lng` is false, and
the new record is stored with the coordinates as given. (On finite values
`ValidateCoordinates` is true exactly for latitudes in [-90, 90] with
longitudes in [-180, 180].) -/
theorem coordinates_not_validated (s : Storage) (username reportType : String)
    (lat lng : Float64) (description : String) (now listNow : Time)
    (hname : username ≠ "")
    (htype : reportType = "accident" ∨ reportType = "police" ∨ reportType = "traffic" ∨
      reportType = "hazard")
    (_hcoord : ValidateCoordinates lat lng = false) :
    (CreateUserHandler s username lat lng now).response =
        .userRegistered
          { ID := s.NextUserID, Username := username, Lat := lat, Lng := lng,
            LastSeen := now } ∧
      (CreateUserHandler s username lat lng now).storage.Users.get s.NextUserID =
        some
          { ID := s.NextUserID, Username := username, Lat := lat, Lng := lng,
            LastSeen := now } ∧
      (CreateReportHandler s reportType lat lng description now listNow).storage.Reports.get
          s.NextReportID =
        some
          { ID := s.NextReportID, Type_ := reportType, Lat := lat, Lng := lng,
            Description := description, UserID := 1, CreatedAt := now, Votes := 1 } ∧
      (∀ msg code, (CreateReportHandler s reportType lat lng description now listNow).response ≠
        .error msg code) ∧
      (∀ a b : ℚ, ValidateCoordinates (.finite a) (.finite b) = true ↔
        -90 ≤ a ∧ a ≤ 90 ∧ -180 ≤ b ∧ b ≤ 180) := by
  have hv : validTypes reportType = true := by
    rcases htype with h | h | h | h <;> rw [h] <;> decide
  have he : reportType ≠ "" := by
    rcases htype with h | h | h | h <;> rw [h] <;> decide
  refine ⟨?_, ?_, ?_, ?_, ValidateCoordinates_finite⟩
  · simp [CreateUserHandler, hname, Storage.CreateUser]
  · simp [CreateUserHandler, hname, Storage.CreateUser, GoMap.get_set]
  · simp [CreateReportHandler, he, hv, Storage.CreateReport, Storage.GetRecentReports,
      GoMap.get_set]
  · intro msg code
    simp [CreateReportHandler, he, hv]

theorem coordinates_not_validated_witness :
    ("ana" ≠ "" ∧ ValidateCoordinates (.finite 91) (.finite 200) = false) ∧
      (CreateUserHandler NewStorage "ana" (.finite 91) (.finite 200) 0).response =
        .userRegistered
          { ID := 1, Username := "ana", Lat := .finite 91, Lng := .finite 200,
            LastSeen := 0 } :=
  ⟨⟨by decide, by simp [ValidateCoordinates, Float64.ge, Float64.le]; norm_num⟩,
    (coordinates_not_validated NewStorage "ana" "hazard" (.finite 91) (.finite 200) "bache" 0 0
      (by decide) (by decide)
      (by simp [ValidateCoordinates, Float64.ge, Float64.le]; norm_num)).1⟩

/-- C10, as stated, fails: with latitude 91 and longitude 200, for which
`ValidateCoordinates` is false, `CreateUserHandler` registers the user and
`CreateReportHandler` stores the report; neither answers with an error, and
the store is mutated (one user, one report, both counters advanced). -/
theorem out_of_range_coordinates_accepted :
    ValidateCoordinates (.finite 91) (.finite 200) = false ∧
      (CreateUserHandler NewStorage "ana" (.finite 91) (.finite 200) 0).response =
        .userRegistered
          { ID := 1, Username := "ana", Lat := .finite 91, Lng := .finite 200,
            LastSeen := 0 } ∧
      (CreateUserHandler NewStorage "ana" (.finite 91) (.finite 200) 0).storage.Users.len =
        1 ∧
      (CreateUserHandler NewStorage "ana" (.finite 91) (.finite 200) 0).storage.NextUserID =
        2 ∧
      (CreateReportHandler NewStorage "hazard" (.finite 91) (.finite 200) "bache" 0
          0).response =
        .reportsList
          [{ ID := 1, Type_ := "hazard", Lat := .finite 91, Lng := .finite 200,
             Description := "bache", UserID := 1, CreatedAt := 0, Votes := 1 }] ∧
      (CreateReportHandler NewStorage "hazard" (.finite 91) (.finite 200) "bache" 0
          0).storage.Reports.len = 1 ∧
      (CreateReportHandler NewStorage "hazard" (.finite 91) (.finite 200) "bache" 0
          0).storage.NextReportID = 2 := by
  refine ⟨?_, rfl, rfl, rfl, ?_, rfl, rfl⟩
  · simp [ValidateCoordinates, Float64.ge, Float64.le]
    norm_num
  · have hl := GetRecentReports_eq
      (NewStorage.CreateReport "hazard" (.finite 91) (.finite 200) "bache" 1 0).2 0
    simp only [CreateReportHandler]
    rw [if_neg (by decide), if_neg (by decide)]
    show HttpResponse.reportsList
      ((NewStorage.CreateReport "hazard" (.finite 91) (.finite 200) "bache" 1 0).2.GetRecentReports
        0).1 = _
    rw [hl]
    rfl

/-! ## The traffic simulator: speed and congestion -/

theorem baseSpeed_cases (hour : Int) :
    TrafficService.baseSpeed hour =
      .finite (((if (7 ≤ hour ∧ hour ≤ 9) ∨ (17 ≤ hour ∧ hour ≤ 19) then 25
        else if hour ≥ 22 ∨ hour ≤ 5 then 55 else 45 : Int) : Int) : ℚ) := by
  unfold TrafficService.baseSpeed
  by_cases h1 : (7 ≤ hour ∧ hour ≤ 9) ∨ (17 ≤ hour ∧ hour ≤ 19)
  · have h2 : ¬ (hour ≥ 22 ∨ hour ≤ 5) := by omega
    simp [h1, h2]
  · by_cases h2 : hour ≥ 22 ∨ hour ≤ 5
    · simp [h1, h2]
    · simp [h1, h2]

theorem wrapInt64_of_fits (n : Int) (h1 : -9223372036854775808 ≤ n)
    (h2 : n < 9223372036854775808) : wrapInt64 n = n := by
  unfold wrapInt64
  omega

theorem wrapInt64_sum (a b : Int) : wrapInt64 (wrapInt64 a + b) = wrapInt64 (a + b) := by
  unfold wrapInt64
  omega

theorem wrapInt64_neg (n : Int) (h : wrapInt64 n < 0) : n < 0 ∨ 9223372036854775808 ≤ n := by
  unfold wrapInt64 at h
  omega

theorem locationVariation_of_nonneg (locationIndex unixTime : Int)
    (hidx : 0 ≤ locationIndex) (hunix : 0 ≤ unixTime)
    (hfit : locationIndex * 7 + unixTime < 9223372036854775808) :
    TrafficService.locationVariation locationIndex unixTime =
      .finite (((locationIndex * 7 + unixTime) % 20 - 10 : Int) : ℚ) := by
  unfold TrafficService.locationVariation Float64.ofInt
  rw [wrapInt64_of_fits (locationIndex * 7) (by omega) (by omega),
    wrapInt64_of_fits (locationIndex * 7 + unixTime) (by omega) (by omega),
    Int.tmod_eq_emod (by omega) (by omega)]

theorem calculateSpeed_of_int (locationIndex : Int) (loc : Location) (hour unixTime b v : Int)
    (hb : TrafficService.baseSpeed hour = .finite (b : ℚ))
    (hv : TrafficService.locationVariation locationIndex unixTime = .finite (v : ℚ)) :
    TrafficService.calculateSpeed locationIndex loc hour unixTime =
      .finite ((max 5 (min 70 (b + v)) : Int) : ℚ) := by
  unfold TrafficService.calculateSpeed
  rw [hb, hv]
  have hsum : Float64.add (.finite (b : ℚ)) (.finite (v : ℚ)) = .finite ((b + v : Int) : ℚ) := by
    simp [Float64.add]
  rw [hsum]
  by_cases h5 : b + v < 5
  · have hlt : Float64.lt (.finite ((b + v : Int) : ℚ)) (.finite 5) = true := by
      simp only [Float64.lt, decide_eq_true_eq]
      exact_mod_cast h5
    have hgt : Float64.gt (.finite 5) (.finite 70) = false := by
      simp only [Float64.gt, Float64.lt, decide_eq_false_iff_not]
      norm_num
    simp only [hlt, hgt, if_true, Bool.false_eq_true, if_false]
    rw [show max 5 (min 70 (b + v)) = 5 by omega]
    norm_num
  · have hlt : Float64.lt (.finite ((b + v : Int) : ℚ)) (.finite 5) = false := by
      simp only [Float64.lt, decide_eq_false_iff_not]
      exact_mod_cast h5
    simp only [hlt, Bool.false_eq_true, if_false]
    by_cases h70 : 70 < b + v
    · have hgt : Float64.gt (.finite ((b + v : Int) : ℚ)) (.finite 70) = true := by
        simp only [Float64.gt, Float64.lt, decide_eq_true_eq]
        exact_mod_cast h70
      simp only [hgt, if_true]
      rw [show max 5 (min 70 (b + v)) = 70 by omega]
      norm_num
    · have hgt : Float64.gt (.finite ((b + v : Int) : ℚ)) (.finite 70) = false := by
        simp only [Float64.gt, Float64.lt, decide_eq_false_iff_not]
        exact_mod_cast h70
      simp only [hgt, Bool.false_eq_true, if_false]
      rw [show max 5 (min 70 (b + v)) = b + v by omega]

/-- C13, as amended: for every non-negative zone index, hour in 0..23 and
non-negative unix time whose sum `zoneIndex*7 + unixTime` fits the 64-bit
`int` (is below `2^63`), the simulated speed does not depend on the zone's
coordinates and equals `base + ((zoneIndex*7 + unixTime) mod 20 - 10)`
clamped to [5, 70], where `base` is 25 for hours 7..9 and 17..19, 55 for
hours from 22 on and up to 5, and 45 otherwise. For all arguments the speed
is a function of the zone index, the hour and the unix time alone: the same
clamped sum, with the remainder taken of the 64-bit sum. -/
theorem calculateSpeed_formula (locationIndex hour unixTime : Int) (loc loc' : Location)
    (hidx : 0 ≤ locationIndex) (hhour : 0 ≤ hour ∧ hour ≤ 23) (hunix : 0 ≤ unixTime)
    (hfit : locationIndex * 7 + unixTime < 9223372036854775808) :
    TrafficService.calculateSpeed locationIndex loc hour unixTime =
        TrafficService.calculateSpeed locationIndex loc' hour unixTime ∧
      TrafficService.calculateSpeed locationIndex loc hour unixTime =
        .finite ((max 5 (min 70
          ((if (7 ≤ hour ∧ hour ≤ 9) ∨ (17 ≤ hour ∧ hour ≤ 19) then 25
            else if hour ≥ 22 ∨ hour ≤ 5 then 55 else 45) +
            ((locationIndex * 7 + unixTime) % 20 - 10))) : Int) : ℚ) ∧
      (∀ (i h u : Int) (l l' : Location),
        TrafficService.calculateSpeed i l h u = TrafficService.calculateSpeed i l' h u ∧
          TrafficService.calculateSpeed i l h u =
            .finite ((max 5 (min 70
              ((if (7 ≤ h ∧ h ≤ 9) ∨ (17 ≤ h ∧ h ≤ 19) then 25
                else if h ≥ 22 ∨ h ≤ 5 then 55 else 45) +
                (Int.tmod (wrapInt64 (wrapInt64 (i * 7) + u)) 20 - 10))) : Int) : ℚ)) := by
  have _ := hhour
  have hv := locationVariation_of_nonneg locationIndex unixTime hidx hunix hfit
  exact ⟨rfl, calculateSpeed_of_int _ _ _ _ _ _ (baseSpeed_cases hour) hv,
    fun i h u l _ => ⟨rfl, calculateSpeed_of_int i l h u _ _ (baseSpeed_cases h) rfl⟩⟩

theorem calculateSpeed_formula_witness :
    ((0 : Int) ≤ 3 ∧ ((0 : Int) ≤ 12 ∧ (12 : Int) ≤ 23) ∧ (0 : Int) ≤ 1700000000 ∧
        (3 : Int) * 7 + 1700000000 < 9223372036854775808) ∧
      TrafficService.calculateSpeed 3 ⟨.finite 14, .finite (-87)⟩ 12 1700000000 =
        .finite ((max 5 (min 70
          ((if (7 ≤ (12 : Int) ∧ (12 : Int) ≤ 9) ∨ (17 ≤ (12 : Int) ∧ (12 : Int) ≤ 19) then 25
            else if (12 : Int) ≥ 22 ∨ (12 : Int) ≤ 5 then 55 else 45) +
            ((3 * 7 + 1700000000) % 20 - 10))) : Int) : ℚ) :=
  ⟨by decide,
    (calculateSpeed_formula 3 12 1700000000 ⟨.finite 14, .finite (-87)⟩
      ⟨.finite 15, .finite (-88)⟩ (by decide) (by decide) (by decide) (by decide)).2.1⟩

/-- C13, as stated, fails: the zone index `2^62`, the hour 12 and the unix
time 1700000000 are non-negative and the hour is in 0..23, but the product
`locationIndex*7` overflows the 64-bit `int`: the 64-bit sum is
`-2^62 + 1700000000`, its truncated remainder by 20 is -4, and the speed is
45 - 14 = 31, while the stated formula gives 45 + (8 - 10) = 43. -/
theorem calculateSpeed_formula_overflow :
    (0 : Int) ≤ 4611686018427387904 ∧ ((0 : Int) ≤ 12 ∧ (12 : Int) ≤ 23) ∧
      (0 : Int) ≤ 1700000000 ∧
      wrapInt64 (wrapInt64 (4611686018427387904 * 7) + 1700000000) =
        -4611686018427387904 + 1700000000 ∧
      TrafficService.locationVariation 4611686018427387904 1700000000 = .finite (-14) ∧
      TrafficService.calculateSpeed 4611686018427387904 ⟨.finite 14, .finite (-87)⟩ 12
        1700000000 = .finite 31 ∧
      (max 5 (min 70
        ((if (7 ≤ (12 : Int) ∧ (12 : Int) ≤ 9) ∨ (17 ≤ (12 : Int) ∧ (12 : Int) ≤ 19) then 25
          else if (12 : Int) ≥ 22 ∨ (12 : Int) ≤ 5 then 55 else 45) +
          ((4611686018427387904 * 7 + 1700000000) % 20 - 10))) : Int) = 43 ∧
      TrafficService.calculateSpeed 4611686018427387904 ⟨.finite 14, .finite (-87)⟩ 12
        1700000000 ≠
        .finite ((max 5 (min 70
          ((if (7 ≤ (12 : Int) ∧ (12 : Int) ≤ 9) ∨ (17 ≤ (12 : Int) ∧ (12 : Int) ≤ 19) then 25
            else if (12 : Int) ≥ 22 ∨ (12 : Int) ≤ 5 then 55 else 45) +
            ((4611686018427387904 * 7 + 1700000000) % 20 - 10))) : Int) : ℚ) := by
  have hb : TrafficService.baseSpeed 12 = .finite ((45 : Int) : ℚ) := by
    rw [baseSpeed_cases]
    rfl
  have hv : TrafficService.locationVariation 4611686018427387904 1700000000 =
      .finite ((-14 : Int) : ℚ) := rfl
  have hs : TrafficService.calculateSpeed 4611686018427387904 ⟨.finite 14, .finite (-87)⟩ 12
      1700000000 = .finite ((31 : Int) : ℚ) :=
    calculateSpeed_of_int _ _ 12 1700000000 45 (-14) hb hv
  have hf : (max 5 (min 70
      ((if (7 ≤ (12 : Int) ∧ (12 : Int) ≤ 9) ∨ (17 ≤ (12 : Int) ∧ (12 : Int) ≤ 19) then 25
        else if (12 : Int) ≥ 22 ∨ (12 : Int) ≤ 5 then 55 else 45) +
        ((4611686018427387904 * 7 + 1700000000) % 20 - 10))) : Int) = 43 := by decide
  refine ⟨by decide, by decide, by decide, by decide, by rw [hv]; norm_num,
    by rw [hs]; norm_num, hf, ?_⟩
  rw [hs, hf]
  intro h
  have := Float64.finite.inj h
  norm_num at this

theorem calculateSpeed_bounds (locationIndex : Int) (loc : Location) (hour unixTime : Int) :
    ∃ r : Int, TrafficService.calculateSpeed locationIndex loc hour unixTime = .finite (r : ℚ) ∧
      5 ≤ r ∧ r ≤ 70 :=
  ⟨_, calculateSpeed_of_int locationIndex loc hour unixTime _ _ (baseSpeed_cases hour) rfl,
    by omega, by omega⟩

theorem getCongestionLevel_of_int (r : Int) :
    TrafficService.getCongestionLevel (.finite (r : ℚ)) =
      if 40 < r then "low" else if 25 < r then "medium" else "high" := by
  unfold TrafficService.getCongestionLevel
  have h40 : Float64.gt (.finite (r : ℚ)) (.finite 40) = decide (40 < r) := by
    simp only [Float64.gt, Float64.lt]
    exact decide_eq_decide.mpr (by exact_mod_cast Iff.rfl)
  have h25 : Float64.gt (.finite (r : ℚ)) (.finite 25) = decide (25 < r) := by
    simp only [Float64.gt, Float64.lt]
    exact decide_eq_decide.mpr (by exact_mod_cast Iff.rfl)
  rw [h40, h25]
  simp only [decide_eq_true_eq]

/-- C14, as the code has it: at hour 8 (rush hour), zone index 0 and unix
time 100 the base speed is 25, the perturbation is (0*7 + 100) mod 20 - 10 =
-10, the final speed is 15 and the congestion level is "high". -/
theorem rush_hour_example (loc : Location) :
    TrafficService.baseSpeed 8 = .finite 25 ∧
      TrafficService.locationVariation 0 100 = .finite (-10) ∧
      TrafficService.calculateSpeed 0 loc 8 100 = .finite 15 ∧
      TrafficService.getCongestionLevel (TrafficService.calculateSpeed 0 loc 8 100) = "high" := by
  have hb : TrafficService.baseSpeed 8 = .finite ((25 : Int) : ℚ) := by
    rw [baseSpeed_cases]
    rfl
  have hv : TrafficService.locationVariation 0 100 = .finite ((-10 : Int) : ℚ) := by
    rw [locationVariation_of_nonneg 0 100 (by decide) (by decide) (by decide)]
    rfl
  have hs : TrafficService.calculateSpeed 0 loc 8 100 = .finite ((15 : Int) : ℚ) :=
    calculateSpeed_of_int 0 loc 8 100 25 (-10) hb hv
  refine ⟨by rw [hb]; norm_num, by rw [hv]; norm_num, by rw [hs]; norm_num, ?_⟩
  rw [hs, getCongestionLevel_of_int]
  rfl

/-- C14, as stated, fails: at hour 8, zone index 0 and unix time 100 the
perturbation is -10 and not 0, the final speed is 15 and not 25, and the
congestion level is "high" and not "medium"; a speed of exactly 25 would be
"high" as well. -/
theorem rush_hour_example_as_stated_fails :
    TrafficService.locationVariation 0 100 ≠ .finite 0 ∧
      TrafficService.calculateSpeed 0 ⟨.finite (140818 / 10000), .finite (-872068 / 10000)⟩ 8
        100 ≠ .finite 25 ∧
      TrafficService.getCongestionLevel
        (TrafficService.calculateSpeed 0
          ⟨.finite (140818 / 10000), .finite (-872068 / 10000)⟩ 8 100) ≠ "medium" ∧
      TrafficService.getCongestionLevel (.finite 25) ≠ "medium" := by
  have hb : TrafficService.baseSpeed 8 = .finite ((25 : Int) : ℚ) := by
    rw [baseSpeed_cases]
    rfl
  have hv : TrafficService.locationVariation 0 100 = .finite ((-10 : Int) : ℚ) := by
    rw [locationVariation_of_nonneg 0 100 (by decide) (by decide) (by decide)]
    rfl
  have hs : TrafficService.calculateSpeed 0
      ⟨.finite (140818 / 10000), .finite (-872068 / 10000)⟩ 8 100 = .finite ((15 : Int) : ℚ) :=
    calculateSpeed_of_int 0 _ 8 100 25 (-10) hb hv
  refine ⟨?_, ?_, ?_, ?_⟩
  · rw [hv]
    intro h
    have := Float64.finite.inj h
    norm_num at this
  · rw [hs]
    intro h
    have := Float64.finite.inj h
    norm_num at this
  · rw [hs, getCongestionLevel_of_int]
    decide
  · rw [show (25 : ℚ) = ((25 : Int) : ℚ) by norm_num, getCongestionLevel_of_int]
    decide

theorem roundHalfEven_natCast (n : Nat) : roundHalfEven (n : ℚ) = n := by
  unfold roundHalfEven
  simp

theorem formatFixed4_of_scaled (q : ℚ) (n : Nat) (h : |q| * 10000 = n) :
    formatFixed4 (.finite q) =
      (if q < 0 then "-" else "") ++ toString (n / 10000) ++ "." ++
        String.mk (List.replicate (4 - (toString (n % 10000)).length) '0') ++
        toString (n % 10000) := by
  unfold formatFixed4
  simp only [h, roundHalfEven_natCast]

theorem Float64.gt_false_of_le (x : Float64) (q : ℚ) (h : Float64.le x (.finite q) = true) :
    Float64.gt x (.finite q) = false := by
  cases x with
  | nan => rfl
  | negInf => rfl
  | posInf => simp [Float64.le] at h
  | finite p =>
    simp only [Float64.le, decide_eq_true_eq] at h
    simp only [Float64.gt, Float64.lt, decide_eq_false_iff_not]
    exact not_lt.mpr h

theorem simulateTrafficData_eq_writes (s : Storage) (hour unixTime : Int) (now : Time) :
    TrafficService.simulateTrafficData s hour unixTime now =
      (TrafficService.trafficWrites hour unixTime now).foldl
        (fun st w => st.UpdateTrafficData w.1 w.2) s := by
  unfold TrafficService.simulateTrafficData TrafficService.trafficWrites
  rw [List.foldl_map]

theorem simulateZone_sample (i : Nat) (loc : Location) (hour unixTime : Int) (now : Time) :
    Float64.le (.finite 5) (TrafficService.simulateZone i loc hour unixTime now).2.Speed = true ∧
      Float64.le (TrafficService.simulateZone i loc hour unixTime now).2.Speed (.finite 70) =
        true ∧
      (TrafficService.simulateZone i loc hour unixTime now).2.Congestion =
        TrafficService.getCongestionLevel
          (TrafficService.simulateZone i loc hour unixTime now).2.Speed := by
  obtain ⟨r, hr, h5, h70⟩ := calculateSpeed_bounds i loc hour unixTime
  refine ⟨?_, ?_, rfl⟩
  · show Float64.le (.finite 5) (TrafficService.calculateSpeed i loc hour unixTime) = true
    rw [hr]
    simp only [Float64.le, decide_eq_true_eq]
    exact_mod_cast h5
  · show Float64.le (TrafficService.calculateSpeed i loc hour unixTime) (.finite 70) = true
    rw [hr]
    simp only [Float64.le, decide_eq_true_eq]
    exact_mod_cast h70

theorem updates_get (writes : List (String × TrafficData)) (s : Storage) (k : String)
    (d : TrafficData)
    (h : (writes.foldl (fun st w => st.UpdateTrafficData w.1 w.2) s).TrafficData.get k =
      some d) :
    s.TrafficData.get k = some d ∨ (k, d) ∈ writes := by
  induction writes generalizing s with
  | nil => exact Or.inl h
  | cons w writes ih =>
    rcases ih _ h with h' | h'
    · have hg : (s.TrafficData.set w.1 w.2).get k = some d := h'
      rw [GoMap.get_set] at hg
      by_cases hk : k = w.1
      · rw [if_pos hk] at hg
        right
        rw [hk, ← Option.some.inj hg]
        exact List.mem_cons_self _ _
      · rw [if_neg hk] at hg
        exact Or.inl hg
    · exact Or.inr (List.mem_cons_of_mem _ h')

/-- C15: for every speed the congestion level is "low" above 40, "medium"
above 25 and up to 40, and "high" up to 25; and every sample one
`simulateTrafficData` call writes, for any clock, has a speed between 5 and
70 and the congestion level of its own speed, so every sample in the store
after the call is either one that was there before or such a sample. -/
theorem congestion_levels (speed : Float64) (s : Storage) (hour unixTime : Int) (now : Time) :
    (Float64.gt speed (.finite 40) = true →
        TrafficService.getCongestionLevel speed = "low") ∧
      (Float64.gt speed (.finite 25) = true ∧ Float64.le speed (.finite 40) = true →
        TrafficService.getCongestionLevel speed = "medium") ∧
      (Float64.le speed (.finite 25) = true →
        TrafficService.getCongestionLevel speed = "high") ∧
      (∀ w ∈ TrafficService.trafficWrites hour unixTime now,
        Float64.le (.finite 5) w.2.Speed = true ∧ Float64.le w.2.Speed (.finite 70) = true ∧
          w.2.Congestion = TrafficService.getCongestionLevel w.2.Speed) ∧
      (∀ k d, (TrafficService.simulateTrafficData s hour unixTime now).TrafficData.get k =
          some d →
        s.TrafficData.get k = some d ∨
          (Float64.le (.finite 5) d.Speed = true ∧ Float64.le d.Speed (.finite 70) = true ∧
            d.Congestion = TrafficService.getCongestionLevel d.Speed)) := by
  have hw : ∀ w ∈ TrafficService.trafficWrites hour unixTime now,
      Float64.le (.finite 5) w.2.Speed = true ∧ Float64.le w.2.Speed (.finite 70) = true ∧
        w.2.Congestion = TrafficService.getCongestionLevel w.2.Speed := by
    intro w hw
    obtain ⟨e, _, rfl⟩ := List.mem_map.mp hw
    exact simulateZone_sample e.1 e.2 hour unixTime now
  refine ⟨?_, ?_, ?_, hw, ?_⟩
  · intro h
    unfold TrafficService.getCongestionLevel
    rw [if_pos h]
  · rintro ⟨h25, h40⟩
    unfold TrafficService.getCongestionLevel
    rw [if_neg (by rw [Float64.gt_false_of_le _ _ h40]; decide), if_pos h25]
  · intro h
    have h25 := Float64.gt_false_of_le _ _ h
    have h40 : Float64.gt speed (.finite 40) = false := by
      cases speed with
      | nan => rfl
      | negInf => rfl
      | posInf => simp [Float64.le] at h
      | finite p =>
        simp only [Float64.le, decide_eq_true_eq] at h
        simp only [Float64.gt, Float64.lt, decide_eq_false_iff_not]
        linarith
    unfold TrafficService.getCongestionLevel
    rw [h40, h25]
    rfl
  · intro k d hk
    rw [simulateTrafficData_eq_writes] at hk
    rcases updates_get _ _ _ _ hk with h | h
    · exact Or.inl h
    · exact Or.inr (hw (k, d) h)

/-! ## The broadcast hub -/

theorem attempted_append (xs ys : List ConnEvent) :
    attempted (xs ++ ys) = attempted xs ++ attempted ys := by
  induction xs with
  | nil => rfl
  | cons x xs ih =>
    cases x <;> simp [attempted, ih]

theorem deliver_loop (msg : WebSocketMessage) (writeErr : Conn → Bool)
    (todo : List (Conn × Bool)) (acc : WebSocketService × List ConnEvent) :
    (todo.foldl (WebSocketService.deliver msg writeErr) acc).1.clients.entries =
        acc.1.clients.entries.filter
          (fun e => decide (∀ t ∈ todo, writeErr t.1 = true → t.1 ≠ e.1)) ∧
      (todo.foldl (WebSocketService.deliver msg writeErr) acc).1.broadcast = acc.1.broadcast ∧
      attempted (todo.foldl (WebSocketService.deliver msg writeErr) acc).2 =
        attempted acc.2 ++ todo.map Prod.fst ∧
      (∀ ev, ev ∈ (todo.foldl (WebSocketService.deliver msg writeErr) acc).2 ↔
        ev ∈ acc.2 ∨ ∃ t ∈ todo,
          (writeErr t.1 = false ∧ ev = .written t.1 msg) ∨
            (writeErr t.1 = true ∧ (ev = .writeFailed t.1 msg ∨ ev = .closed t.1))) := by
  induction todo generalizing acc with
  | nil => simp
  | cons t todo ih =>
    by_cases hc : writeErr t.1 = true
    · have hd : WebSocketService.deliver msg writeErr acc t =
          (({ clients := acc.1.clients.delete t.1, broadcast := acc.1.broadcast } :
              WebSocketService),
            acc.2 ++ [.writeFailed t.1 msg, .closed t.1]) := by
        unfold WebSocketService.deliver
        rw [if_pos hc]
      rw [List.foldl_cons, hd]
      obtain ⟨i1, i2, i3, i4⟩ := ih
        (({ clients := acc.1.clients.delete t.1, broadcast := acc.1.broadcast } :
            WebSocketService),
          acc.2 ++ [.writeFailed t.1 msg, .closed t.1])
      dsimp only at i1 i2 i3 i4
      refine ⟨?_, i2, ?_, ?_⟩
      · rw [i1]
        show List.filter _ (List.filter _ acc.1.clients.entries) = _
        rw [List.filter_filter]
        apply List.filter_congr
        intro e _
        simp only [List.mem_cons, forall_eq_or_imp, hc, true_implies, Bool.decide_and, ne_eq]
        rw [Bool.and_comm]
        congr 2
        exact propext ⟨fun h h' => h h'.symm, fun h h' => h h'.symm⟩
      · rw [i3, attempted_append]
        simp [attempted]
      · intro ev
        rw [i4]
        constructor
        · rintro (h | ⟨u, hu, hp⟩)
          · rcases List.mem_append.mp h with h | h
            · exact Or.inl h
            · exact Or.inr ⟨t, List.mem_cons_self _ _, Or.inr ⟨hc, by simpa using h⟩⟩
          · exact Or.inr ⟨u, List.mem_cons_of_mem _ hu, hp⟩
        · rintro (h | ⟨u, hu, hp⟩)
          · exact Or.inl (List.mem_append_left _ h)
          · rcases List.mem_cons.mp hu with rfl | hu
            · rcases hp with ⟨hf, _⟩ | ⟨_, h⟩
              · rw [hc] at hf
                cases hf
              · exact Or.inl (List.mem_append_right _ (by simpa using h))
            · exact Or.inr ⟨u, hu, hp⟩
    · have hd : WebSocketService.deliver msg writeErr acc t =
          (acc.1, acc.2 ++ [.written t.1 msg]) := by
        unfold WebSocketService.deliver
        rw [if_neg hc]
      have hf : writeErr t.1 = false := Bool.eq_false_iff.mpr hc
      rw [List.foldl_cons, hd]
      obtain ⟨i1, i2, i3, i4⟩ := ih (acc.1, acc.2 ++ [.written t.1 msg])
      dsimp only at i1 i2 i3 i4
      refine ⟨?_, i2, ?_, ?_⟩
      · rw [i1]
        apply List.filter_congr
        intro e _
        simp [hc]
      · rw [i3, attempted_append]
        simp [attempted]
      · intro ev
        rw [i4]
        constructor
        · rintro (h | ⟨u, hu, hp⟩)
          · rcases List.mem_append.mp h with h | h
            · exact Or.inl h
            · exact Or.inr ⟨t, List.mem_cons_self _ _, Or.inl ⟨hf, by simpa using h⟩⟩
          · exact Or.inr ⟨u, List.mem_cons_of_mem _ hu, hp⟩
        · rintro (h | ⟨u, hu, hp⟩)
          · exact Or.inl (List.mem_append_left _ h)
          · rcases List.mem_cons.mp hu with rfl | hu
            · rcases hp with ⟨_, h⟩ | ⟨ht, _⟩
              · exact Or.inl (List.mem_append_right _ (by simpa using h))
              · exact absurd ht hc
            · exact Or.inr ⟨u, hu, hp⟩

theorem HandleBroadcast_result (clients : GoMap Conn Bool) (msg : WebSocketMessage)
    (rest : List WebSocketMessage) (writeErr : Conn → Bool) :
    (∀ c b, (WebSocketService.HandleBroadcast ⟨clients, msg :: rest⟩ writeErr).1.clients.get c =
        some b ↔ clients.get c = some b ∧ writeErr c = false) ∧
      (WebSocketService.HandleBroadcast ⟨clients, msg :: rest⟩ writeErr).1.broadcast = rest ∧
      attempted (WebSocketService.HandleBroadcast ⟨clients, msg :: rest⟩ writeErr).2 =
        clients.entries.map Prod.fst ∧
      (∀ ev, ev ∈ (WebSocketService.HandleBroadcast ⟨clients, msg :: rest⟩ writeErr).2 ↔
        ∃ c b, clients.get c = some b ∧
          ((writeErr c = false ∧ ev = .written c msg) ∨
            (writeErr c = true ∧ (ev = .writeFailed c msg ∨ ev = .closed c)))) := by
  obtain ⟨h1, h2, h3, h4⟩ :=
    deliver_loop msg writeErr clients.entries (({ clients := clients, broadcast := rest } :
      WebSocketService), [])
  dsimp only at h1 h2 h3 h4
  have hHB : WebSocketService.HandleBroadcast ⟨clients, msg :: rest⟩ writeErr =
      clients.entries.foldl (WebSocketService.deliver msg writeErr)
        (({ clients := clients, broadcast := rest } : WebSocketService), []) := rfl
  rw [hHB]
  refine ⟨?_, h2, by simpa [attempted] using h3, ?_⟩
  · intro c b
    rw [← GoMap.mem_entries_iff_get, ← GoMap.mem_entries_iff_get, h1, List.mem_filter]
    constructor
    · rintro ⟨hm, hq⟩
      refine ⟨hm, ?_⟩
      have hq' := of_decide_eq_true hq
      cases hw : writeErr c with
      | false => rfl
      | true => exact absurd rfl (hq' (c, b) hm hw)
    · rintro ⟨hm, hw⟩
      refine ⟨hm, decide_eq_true ?_⟩
      intro t ht htw hte
      have h1 := (GoMap.mem_entries_iff_get clients c t.2).mp (by
        have : t = (c, t.2) := Prod.ext hte rfl
        rw [← this]
        exact ht)
      have : writeErr c = true := by
        have hte' : t.1 = c := hte
        rw [← hte']
        exact htw
      rw [hw] at this
      cases this
  · intro ev
    rw [h4]
    simp only [List.not_mem_nil, false_or]
    constructor
    · rintro ⟨t, ht, h⟩
      exact ⟨t.1, t.2, (GoMap.mem_entries_iff_get _ _ _).mp ht, h⟩
    · rintro ⟨c, b, hg, h⟩
      exact ⟨(c, b), (GoMap.mem_entries_iff_get _ _ _).mpr hg, h⟩

theorem BroadcastStats_eq (ws : WebSocketService) (s : Storage) :
    ws.BroadcastStats s =
      { ws with
        broadcast := ws.broadcast ++
          [{ Type_ := "stats", UsersOnline := s.Users.len, TotalReports := s.Reports.len,
             TrafficPoints := s.TrafficData.len, Report := none, Reports := [] }] } :=
  rfl

/-- C12: for every store and every set of active clients, `BroadcastStats`
sends exactly one message on the channel: a stats message whose three
counts are the numbers of entries of the user, report and traffic maps, as
`GetStats` returns them; and when `HandleBroadcast` delivers it, every
active client whose write succeeds receives that same message. -/
theorem broadcastStats_message (s : Storage) (ws : WebSocketService)
    (clients : GoMap Conn Bool) (rest : List WebSocketMessage) (writeErr : Conn → Bool) :
    s.GetStats.1 = (s.Users.len, s.Reports.len, s.TrafficData.len) ∧
      (s.Users.len = s.Users.entries.length ∧ s.Reports.len = s.Reports.entries.length ∧
        s.TrafficData.len = s.TrafficData.entries.length) ∧
      (ws.BroadcastStats s).broadcast =
        ws.broadcast ++
          [{ Type_ := "stats", UsersOnline := s.GetStats.1.1, TotalReports := s.GetStats.1.2.1,
             TrafficPoints := s.GetStats.1.2.2, Report := none, Reports := [] }] ∧
      (ws.BroadcastStats s).clients = ws.clients ∧
      (∀ c b, clients.get c = some b → writeErr c = false →
        ConnEvent.written c
            { Type_ := "stats", UsersOnline := s.Users.len, TotalReports := s.Reports.len,
              TrafficPoints := s.TrafficData.len, Report := none, Reports := [] } ∈
          (WebSocketService.HandleBroadcast
            (WebSocketService.BroadcastStats ⟨clients, []⟩ s) writeErr).2) ∧
      (∀ c b, clients.get c = some b → writeErr c = false →
        ConnEvent.written c
            { Type_ := "stats", UsersOnline := s.Users.len, TotalReports := s.Reports.len,
              TrafficPoints := s.TrafficData.len, Report := none, Reports := [] } ∈
          (WebSocketService.HandleBroadcast
            ⟨clients,
              { Type_ := "stats", UsersOnline := s.Users.len, TotalReports := s.Reports.len,
                TrafficPoints := s.TrafficData.len, Report := none, Reports := [] } :: rest⟩
            writeErr).2) := by
  refine ⟨rfl, ⟨rfl, rfl, rfl⟩, rfl, rfl, ?_, ?_⟩
  · intro c b hc hw
    rw [BroadcastStats_eq]
    exact ((HandleBroadcast_result clients _ [] writeErr).2.2.2 _).mpr
      ⟨c, b, hc, Or.inl ⟨hw, rfl⟩⟩
  · intro c b hc hw
    exact ((HandleBroadcast_result clients _ rest writeErr).2.2.2 _).mpr
      ⟨c, b, hc, Or.inl ⟨hw, rfl⟩⟩

/-- C16: `RemoveClient` is idempotent. For every hub and connection,
removing a connection that is not active changes nothing and does nothing to
the connection; removing a connection a second time changes nothing more;
after a removal the connection is not active and every other connection is
active exactly if it was. -/
theorem removeClient_idempotent (ws : WebSocketService) (c : Conn) :
    (ws.clients.get c = none → ws.RemoveClient c = (ws, [])) ∧
      (ws.RemoveClient c).1.RemoveClient c = ((ws.RemoveClient c).1, []) ∧
      (ws.RemoveClient c).1.clients.get c = none ∧
      (∀ c', c' ≠ c → (ws.RemoveClient c).1.clients.get c' = ws.clients.get c') ∧
      (ws.RemoveClient c).1.broadcast = ws.broadcast := by
  have hafter : (ws.RemoveClient c).1.clients.get c = none := by
    unfold WebSocketService.RemoveClient
    cases h : ws.clients.get c with
    | none => exact h
    | some b =>
      show (ws.clients.delete c).get c = none
      rw [GoMap.get_delete, if_pos rfl]
  refine ⟨?_, ?_, hafter, ?_, ?_⟩
  · intro h
    unfold WebSocketService.RemoveClient
    rw [h]
  · have h2 : ∀ w : WebSocketService, w.clients.get c = none → w.RemoveClient c = (w, []) := by
      intro w hw
      unfold WebSocketService.RemoveClient
      rw [hw]
    exact h2 _ hafter
  · intro c' hne
    unfold WebSocketService.RemoveClient
    cases h : ws.clients.get c with
    | none => rfl
    | some b =>
      show (ws.clients.delete c).get c' = _
      rw [GoMap.get_delete, if_neg hne]
  · unfold WebSocketService.RemoveClient
    cases h : ws.clients.get c with
    | none => rfl
    | some b => rfl

/-- C17: for every set of active clients, message and outcome of the
writes, one delivery round of `HandleBroadcast` attempts the write on every
active client, once each; a client whose write succeeds receives the message
and stays active; a client whose write fails is closed and receives nothing;
and the active set afterwards is exactly the previous one without the
clients whose write failed. -/
theorem broadcast_survives_failures (clients : GoMap Conn Bool) (msg : WebSocketMessage)
    (rest : List WebSocketMessage) (writeErr : Conn → Bool) :
    attempted (WebSocketService.HandleBroadcast ⟨clients, msg :: rest⟩ writeErr).2 =
        clients.entries.map Prod.fst ∧
      (clients.entries.map Prod.fst).Nodup ∧
      (∀ c b, clients.get c = some b → writeErr c = false →
        ConnEvent.written c msg ∈
            (WebSocketService.HandleBroadcast ⟨clients, msg :: rest⟩ writeErr).2 ∧
          (WebSocketService.HandleBroadcast ⟨clients, msg :: rest⟩ writeErr).1.clients.get c =
            some b) ∧
      (∀ c b, clients.get c = some b → writeErr c = true →
        ConnEvent.closed c ∈
            (WebSocketService.HandleBroadcast ⟨clients, msg :: rest⟩ writeErr).2 ∧
          ConnEvent.written c msg ∉
            (WebSocketService.HandleBroadcast ⟨clients, msg :: rest⟩ writeErr).2) ∧
      (∀ c b,
        (WebSocketService.HandleBroadcast ⟨clients, msg :: rest⟩ writeErr).1.clients.get c =
            some b ↔
          clients.get c = some b ∧ writeErr c = false) := by
  obtain ⟨h1, _, h3, h4⟩ := HandleBroadcast_result clients msg rest writeErr
  refine ⟨h3, clients.nodupKeys, ?_, ?_, h1⟩
  · intro c b hc hw
    exact ⟨(h4 _).mpr ⟨c, b, hc, Or.inl ⟨hw, rfl⟩⟩, (h1 c b).mpr ⟨hc, hw⟩⟩
  · intro c b hc hw
    refine ⟨(h4 _).mpr ⟨c, b, hc, Or.inr ⟨hw, Or.inr rfl⟩⟩, ?_⟩
    intro hmem
    obtain ⟨c', _, _, h⟩ := (h4 _).mp hmem
    rcases h with ⟨hf, he⟩ | ⟨_, he | he⟩
    · have hcc : c = c' := by
        injection he
      rw [← hcc, hw] at hf
      cases hf
    · cases he
    · cases he

/-- C20: what `handleClientMessage` does depends only on the entry `type`
of the message. With the string "ping" nothing is broadcast; with
"request_stats" `BroadcastStats` runs exactly once; with any other string,
a value that is not a string, or no entry, nothing is broadcast. In every
case no connection is closed or written to, and the store and the set of
active clients are unchanged. -/
theorem handleClientMessage_dispatch (ws : WebSocketService) (s : Storage)
    (msg msg' : GoMap String JsonValue) :
    (msg.get "type" = some (.str "ping") → handleClientMessage ws s msg = ((ws, s), [])) ∧
      (msg.get "type" = some (.str "request_stats") →
        handleClientMessage ws s msg = ((ws.BroadcastStats s, s), [])) ∧
      (∀ t, msg.get "type" = some (.str t) → t ≠ "ping" → t ≠ "request_stats" →
        handleClientMessage ws s msg = ((ws, s), [])) ∧
      (msg.get "type" = some .nonString → handleClientMessage ws s msg = ((ws, s), [])) ∧
      (msg.get "type" = none → handleClientMessage ws s msg = ((ws, s), [])) ∧
      (msg'.get "type" = msg.get "type" →
        handleClientMessage ws s msg' = handleClientMessage ws s msg) ∧
      (handleClientMessage ws s msg).1.2 = s ∧
      (handleClientMessage ws s msg).1.1.clients = ws.clients ∧
      (handleClientMessage ws s msg).2 = [] := by
  refine ⟨?_, ?_, ?_, ?_, ?_, ?_, ?_, ?_, ?_⟩
  · intro h
    unfold handleClientMessage
    rw [h]
    rfl
  · intro h
    unfold handleClientMessage
    rw [h]
    rfl
  · intro t h h1 h2
    unfold handleClientMessage
    rw [h]
    simp only [if_neg h1, if_neg h2]
  · intro h
    unfold handleClientMessage
    rw [h]
  · intro h
    unfold handleClientMessage
    rw [h]
  · intro h
    unfold handleClientMessage
    rw [h]
  all_goals
    unfold handleClientMessage
    cases msg.get "type" with
    | none => rfl
    | some v =>
      cases v with
      | nonString => rfl
      | str t =>
        by_cases h1 : t = "ping"
        · simp only [if_pos h1]
        · by_cases h2 : t = "request_stats"
          · simp only [if_neg h1, if_pos h2] <;> rfl
          · simp only [if_neg h1, if_neg h2]

/-! ## Stored records carry their key -/

theorem Op.apply_userRecordIDs (s : Storage) (op : Op)
    (hs : ∀ k u, s.Users.get k = some u → u.ID = k) :
    ∀ k u, (op.apply s).Users.get k = some u → u.ID = k := by
  cases op with
  | createUser username lat lng now =>
    intro k u hk
    simp only [Op.apply, Storage.CreateUser, GoMap.get_set] at hk
    split at hk
    · rename_i hkey
      rw [← Option.some.inj hk, hkey]
    · exact hs k u hk
  | createReport reportType lat lng description userID now => exact hs
  | updateTrafficData key data => exact hs
  | initSampleData now => exact hs
  | cleanup now =>
    intro k u hk
    exact hs k u ((GoMap.get_rangeDeleteIf _ _ _ _).mp hk).1

theorem run_userRecordIDs (ops : List Op) (s : Storage)
    (hs : ∀ k u, s.Users.get k = some u → u.ID = k) :
    ∀ k u, (run s ops).Users.get k = some u → u.ID = k := by
  induction ops generalizing s with
  | nil => exact hs
  | cons op ops ih => exact ih (op.apply s) (Op.apply_userRecordIDs s op hs)

/-- C11: in every store reached from a fresh store that holds a user named
`n`, `CreateUser n` does not touch that record: the id it returns was not
in use, every user stored before is still stored under its id, unchanged
and with another id than the new one, the new record is added under the new
id (one user more, nothing else added), and a record named `n` other than
the new one is still there. -/
theorem createUser_same_name_adds_record (ops : List Op) (n : String) (lat lng : Float64)
    (now : Time)
    (hn : ∃ k u, (run NewStorage ops).Users.get k = some u ∧ u.Username = n) :
    (run NewStorage ops).Users.get ((run NewStorage ops).CreateUser n lat lng now).1.ID =
        none ∧
      (∀ k u, (run NewStorage ops).Users.get k = some u →
        u.ID = k ∧ u.ID ≠ ((run NewStorage ops).CreateUser n lat lng now).1.ID ∧
          ((run NewStorage ops).CreateUser n lat lng now).2.Users.get k = some u) ∧
      ((run NewStorage ops).CreateUser n lat lng now).2.Users.get
          ((run NewStorage ops).CreateUser n lat lng now).1.ID =
        some ((run NewStorage ops).CreateUser n lat lng now).1 ∧
      ((run NewStorage ops).CreateUser n lat lng now).1.Username = n ∧
      ((run NewStorage ops).CreateUser n lat lng now).2.Users.len =
        (run NewStorage ops).Users.len + 1 ∧
      (∀ k u, ((run NewStorage ops).CreateUser n lat lng now).2.Users.get k = some u →
        k = ((run NewStorage ops).CreateUser n lat lng now).1.ID ∨
          (run NewStorage ops).Users.get k = some u) ∧
      (∃ k u, k ≠ ((run NewStorage ops).CreateUser n lat lng now).1.ID ∧
        ((run NewStorage ops).CreateUser n lat lng now).2.Users.get k = some u ∧
          u.Username = n) := by
  have hempty : ∀ k u, NewStorage.Users.get k = some u → False := by
    intro k u hk
    rw [show NewStorage.Users = GoMap.empty from rfl, GoMap.get_empty] at hk
    cases hk
  obtain ⟨hkeys, _, _⟩ := run_userKeys ops NewStorage (fun k u hk => (hempty k u hk).elim)
  have hids := run_userRecordIDs ops NewStorage (fun k u hk => (hempty k u hk).elim)
  have hfree : (run NewStorage ops).Users.get (run NewStorage ops).NextUserID = none := by
    cases hg : (run NewStorage ops).Users.get (run NewStorage ops).NextUserID with
    | none => rfl
    | some u => exact absurd (hkeys _ u hg) (lt_irrefl _)
  have hold : ∀ k u, (run NewStorage ops).Users.get k = some u →
      ((run NewStorage ops).CreateUser n lat lng now).2.Users.get k = some u := by
    intro k u hk
    show ((run NewStorage ops).Users.set _ _).get k = some u
    rw [GoMap.get_set, if_neg (ne_of_lt (hkeys k u hk)), hk]
  refine ⟨hfree, ?_, ?_, rfl, GoMap.len_set_of_get_none _ _ _ hfree, ?_, ?_⟩
  · intro k u hk
    refine ⟨hids k u hk, ?_, hold k u hk⟩
    rw [hids k u hk]
    exact ne_of_lt (hkeys k u hk)
  · show ((run NewStorage ops).Users.set _ _).get (run NewStorage ops).NextUserID = _
    rw [GoMap.get_set, if_pos rfl]
    rfl
  · intro k u hk
    have hk' : ((run NewStorage ops).Users.set (run NewStorage ops).NextUserID _).get k =
        some u := hk
    rw [GoMap.get_set] at hk'
    by_cases hkey : k = (run NewStorage ops).NextUserID
    · exact Or.inl hkey
    · rw [if_neg hkey] at hk'
      exact Or.inr hk'
  · obtain ⟨k, u, hk, hname⟩ := hn
    exact ⟨k, u, ne_of_lt (hkeys k u hk), hold k u hk, hname⟩

theorem createUser_same_name_adds_record_witness :
    (∃ k u, (run NewStorage [.createUser "ana" (.finite 14) (.finite (-87)) 0]).Users.get k =
        some u ∧ u.Username = "ana") ∧
      (run NewStorage [.createUser "ana" (.finite 14) (.finite (-87)) 0]).Users.get
          ((run NewStorage [.createUser "ana" (.finite 14) (.finite (-87)) 0]).CreateUser "ana"
            (.finite 15) (.finite (-88)) 9).1.ID = none ∧
      ((run NewStorage [.createUser "ana" (.finite 14) (.finite (-87)) 0]).CreateUser "ana"
          (.finite 15) (.finite (-88)) 9).2.Users.len =
        (run NewStorage [.createUser "ana" (.finite 14) (.finite (-87)) 0]).Users.len + 1 :=
  ⟨⟨1, _, rfl, rfl⟩,
    (createUser_same_name_adds_record [.createUser "ana" (.finite 14) (.finite (-87)) 0] "ana"
      (.finite 15) (.finite (-88)) 9 ⟨1, _, rfl, rfl⟩).1,
    (createUser_same_name_adds_record [.createUser "ana" (.finite 14) (.finite (-87)) 0] "ana"
      (.finite 15) (.finite (-88)) 9 ⟨1, _, rfl, rfl⟩).2.2.2.2.1⟩

theorem Op.apply_reportKeys (s : Storage) (op : Op) (hop : op.isInitSampleData = false)
    (hs : ∀ k r, s.Reports.get k = some r → 1 ≤ k ∧ k < s.NextReportID ∧ r.ID = k)
    (h1 : 1 ≤ s.NextReportID) :
    ∀ k r, (op.apply s).Reports.get k = some r →
      1 ≤ k ∧ k < (op.apply s).NextReportID ∧ r.ID = k := by
  cases op with
  | createUser username lat lng now => exact hs
  | createReport reportType lat lng description userID now =>
    intro k r hk
    have hk' : (s.Reports.set s.NextReportID _).get k = some r := hk
    rw [GoMap.get_set] at hk'
    show 1 ≤ k ∧ k < s.NextReportID + 1 ∧ r.ID = k
    by_cases hkey : k = s.NextReportID
    · rw [if_pos hkey] at hk'
      rw [← Option.some.inj hk', hkey]
      exact ⟨h1, by omega, rfl⟩
    · rw [if_neg hkey] at hk'
      obtain ⟨a, b, c⟩ := hs k r hk'
      exact ⟨a, by omega, c⟩
  | updateTrafficData key data => exact hs
  | initSampleData now => simp [Op.isInitSampleData] at hop
  | cleanup now =>
    intro k r hk
    exact hs k r ((GoMap.get_rangeDeleteIf _ _ _ _).mp hk).1

theorem run_reportKeys_of_noSeed (ops : List Op) (s : Storage)
    (h : ∀ op ∈ ops, op.isInitSampleData = false)
    (hs : ∀ k r, s.Reports.get k = some r → 1 ≤ k ∧ k < s.NextReportID ∧ r.ID = k)
    (h1 : 1 ≤ s.NextReportID) :
    ∀ k r, (run s ops).Reports.get k = some r →
      1 ≤ k ∧ k < (run s ops).NextReportID ∧ r.ID = k := by
  induction ops generalizing s with
  | nil => exact hs
  | cons op ops ih =>
    exact ih (op.apply s) (fun o ho => h o (List.mem_cons_of_mem _ ho))
      (Op.apply_reportKeys s op (h op (List.mem_cons_self _ _)) hs h1)
      (Op.apply_reportCounter_ge_one s op h1)

theorem InitSampleData_reportKeys (s : Storage) (now : Time)
    (hs : ∀ k r, s.Reports.get k = some r → 1 ≤ k ∧ k < s.NextReportID ∧ r.ID = k)
    (h4 : s.NextReportID ≤ 4) :
    ∀ k r, (s.InitSampleData now).Reports.get k = some r →
      1 ≤ k ∧ k < (s.InitSampleData now).NextReportID ∧ r.ID = k := by
  intro k r hk
  have hk' : (((s.Reports.set 1 _).set 2 _).set 3 _).get k = some r := hk
  rw [GoMap.get_set, GoMap.get_set, GoMap.get_set] at hk'
  show 1 ≤ k ∧ k < 4 ∧ r.ID = k
  by_cases k3 : k = 3
  · rw [if_pos k3] at hk'
    rw [← Option.some.inj hk', k3]
    exact ⟨by omega, by omega, rfl⟩
  · rw [if_neg k3] at hk'
    by_cases k2 : k = 2
    · rw [if_pos k2] at hk'
      rw [← Option.some.inj hk', k2]
      exact ⟨by omega, by omega, rfl⟩
    · rw [if_neg k2] at hk'
      by_cases k1 : k = 1
      · rw [if_pos k1] at hk'
        rw [← Option.some.inj hk', k1]
        exact ⟨by omega, by omega, rfl⟩
      · rw [if_neg k1] at hk'
        obtain ⟨a, b, c⟩ := hs k r hk'
        exact ⟨a, by omega, c⟩

theorem run_reportKeys_of_seeded (ops : List Op) (s : Storage)
    (h : seededBeforeReports ops = true)
    (hs : ∀ k r, s.Reports.get k = some r → 1 ≤ k ∧ k < s.NextReportID ∧ r.ID = k)
    (h1 : s.NextReportID = 1) :
    ∀ k r, (run s ops).Reports.get k = some r →
      1 ≤ k ∧ k < (run s ops).NextReportID ∧ r.ID = k := by
  induction ops generalizing s with
  | nil => exact hs
  | cons op ops ih =>
    cases op with
    | createUser username lat lng now => exact ih _ h hs h1
    | updateTrafficData key data => exact ih _ h hs h1
    | cleanup now =>
      refine ih _ h ?_ h1
      intro k r hk
      exact hs k r ((GoMap.get_rangeDeleteIf _ _ _ _).mp hk).1
    | createReport reportType lat lng description userID now =>
      refine run_reportKeys_of_noSeed _ s ?_ hs (by omega)
      intro o ho
      rcases List.mem_cons.mp ho with ho | ho
      · rw [ho]
        rfl
      · exact all_noSeed h o ho
    | initSampleData now =>
      exact run_reportKeys_of_noSeed ops (s.InitSampleData now) (all_noSeed h)
        (InitSampleData_reportKeys s now hs (by omega)) (by show (1 : Int) ≤ 4; omega)

theorem reportKeys_of_seeded_run (ops : List Op) (h : seededBeforeReports ops = true) :
    ∀ k r, (run NewStorage ops).Reports.get k = some r →
      1 ≤ k ∧ k < (run NewStorage ops).NextReportID ∧ r.ID = k := by
  apply run_reportKeys_of_seeded ops NewStorage h _ rfl
  intro k r hk
  rw [show NewStorage.Reports = GoMap.empty from rfl, GoMap.get_empty] at hk
  cases hk

/-! ## Broadcasting a new report -/

theorem jsonMarshal_of_encodable (msg : WebSocketMessage) (r : Report)
    (hr : msg.Report = some r) (hall : ∀ x ∈ msg.Reports, x.encodable = true)
    (hmem : r ∈ msg.Reports) : jsonMarshal msg = some msg := by
  unfold jsonMarshal
  rw [hr]
  have h1 : r.encodable = true := hall r hmem
  have h2 : msg.Reports.all Report.encodable = true := List.all_eq_true.mpr hall
  simp [h1, h2]

theorem jsonMarshal_of_not_encodable (msg : WebSocketMessage)
    (hex : ∃ x ∈ msg.Reports, x.encodable = false) : jsonMarshal msg = none := by
  unfold jsonMarshal
  obtain ⟨x, hx, henc⟩ := hex
  have h2 : msg.Reports.all Report.encodable = false := by
    cases h : msg.Reports.all Report.encodable with
    | false => rfl
    | true =>
      have := List.all_eq_true.mp h x hx
      rw [henc] at this
      cases this
  simp [h2]

/-- C18, as the code has it: take a store reached from a fresh store by
operations among which `InitSampleData` occurs at most once and before any
`CreateReport`, holding n reports; create a report r and call
`BroadcastNewReport` with it less than 24 hours later. The recent-reports
list then contains r and the store holds n + 1 reports. If every report of
that list has finite coordinates, exactly two messages are sent on the
channel, in this order: a new_report message carrying r and the list, then
a stats message whose report count is n + 1. If some report of the list has
a NaN or infinite coordinate, `json.Marshal` fails and nothing is sent. -/
theorem broadcastNewReport_events (ops : List Op) (s s1 : Storage) (r : Report)
    (ws : WebSocketService) (reportType : String) (lat lng : Float64) (description : String)
    (userID : Int) (t0 t1 : Time)
    (hs : s = run NewStorage ops) (hseed : seededBeforeReports ops = true)
    (hr : s.CreateReport reportType lat lng description userID t0 = (r, s1))
    (hlt : t1 - t0 < 24 * Hour) :
    r ∈ (s1.GetRecentReports t1).1 ∧
      s1.Reports.len = s.Reports.len + 1 ∧
      ((∀ x ∈ (s1.GetRecentReports t1).1, x.encodable = true) →
        (ws.BroadcastNewReport s1 r t1).broadcast =
          ws.broadcast ++
            [{ Type_ := "new_report", UsersOnline := 0, TotalReports := 0, TrafficPoints := 0,
               Report := some r, Reports := (s1.GetRecentReports t1).1 },
             { Type_ := "stats", UsersOnline := s1.Users.len,
               TotalReports := s.Reports.len + 1, TrafficPoints := s1.TrafficData.len,
               Report := none, Reports := [] }]) ∧
      ((∃ x ∈ (s1.GetRecentReports t1).1, x.encodable = false) →
        ws.BroadcastNewReport s1 r t1 = ws) ∧
      (ws.BroadcastNewReport s1 r t1).clients = ws.clients := by
  have hr1 : r = (s.CreateReport reportType lat lng description userID t0).1 := by rw [hr]
  have hs1 : s1 = (s.CreateReport reportType lat lng description userID t0).2 := by rw [hr]
  have hfree : s.Reports.get s.NextReportID = none := by
    cases hg : s.Reports.get s.NextReportID with
    | none => rfl
    | some x =>
      have := (reportKeys_of_seeded_run ops hseed s.NextReportID x (by rw [← hs]; exact hg)).2.1
      rw [← hs] at this
      exact absurd this (lt_irrefl _)
  have hmem : r ∈ (s1.GetRecentReports t1).1 := by
    rw [mem_GetRecentReports]
    refine ⟨⟨s.NextReportID, ?_⟩, by rw [hr1]; exact hlt⟩
    rw [hs1, hr1]
    show (s.Reports.set s.NextReportID _).get s.NextReportID = _
    rw [GoMap.get_set, if_pos rfl]
    rfl
  have hlen : s1.Reports.len = s.Reports.len + 1 := by
    rw [hs1]
    exact GoMap.len_set_of_get_none _ _ _ hfree
  refine ⟨hmem, hlen, ?_, ?_, ?_⟩
  · intro hall
    unfold WebSocketService.BroadcastNewReport
    simp only
    rw [jsonMarshal_of_encodable _ r rfl hall hmem]
    dsimp only
    rw [BroadcastStats_eq, hlen]
    simp
  · intro hex
    unfold WebSocketService.BroadcastNewReport
    simp only
    rw [jsonMarshal_of_not_encodable _ hex]
  · unfold WebSocketService.BroadcastNewReport
    simp only
    cases jsonMarshal _ with
    | none => rfl
    | some data => rfl

theorem broadcastNewReport_events_witness :
    (NewStorage = run NewStorage [] ∧ seededBeforeReports [] = true ∧
        NewStorage.CreateReport "traffic" (.finite 14) (.finite (-87)) "jam" 1 0 =
          ((NewStorage.CreateReport "traffic" (.finite 14) (.finite (-87)) "jam" 1 0).1,
            (NewStorage.CreateReport "traffic" (.finite 14) (.finite (-87)) "jam" 1 0).2) ∧
        (5 : Int) - 0 < 24 * Hour) ∧
      (NewStorage.CreateReport "traffic" (.finite 14) (.finite (-87)) "jam" 1 0).2.Reports.len =
        NewStorage.Reports.len + 1 :=
  ⟨⟨rfl, rfl, rfl, by decide⟩,
    (broadcastNewReport_events [] NewStorage _ _ ⟨GoMap.empty, []⟩ "traffic" (.finite 14)
      (.finite (-87)) "jam" 1 0 5 rfl rfl rfl (by decide)).2.1⟩

/-- C18, as stated, fails. A `CreateReport` request with the latitude NaN
is accepted and stores the report, but `BroadcastNewReport` then sends
nothing, because `json.Marshal` rejects NaN. And in the store reached by
four `CreateReport` calls followed by a late `InitSampleData`, which holds
4 reports, the next `CreateReport` overwrites report 4, so the stats message
counts 4 reports and not 5. -/
theorem broadcastNewReport_as_stated_fails :
    (CreateReportHandler NewStorage "traffic" .nan (.finite 0) "jam" 0 0).storage =
        (NewStorage.CreateReport "traffic" .nan (.finite 0) "jam" 1 0).2 ∧
      (WebSocketService.BroadcastNewReport ⟨GoMap.empty, []⟩
        (NewStorage.CreateReport "traffic" .nan (.finite 0) "jam" 1 0).2
        (NewStorage.CreateReport "traffic" .nan (.finite 0) "jam" 1 0).1 0).broadcast = [] ∧
      (run NewStorage [sampleCreateReport, sampleCreateReport, sampleCreateReport,
        sampleCreateReport, .initSampleData 0]).Reports.len = 4 ∧
      ((WebSocketService.BroadcastNewReport ⟨GoMap.empty, []⟩
        ((run NewStorage [sampleCreateReport, sampleCreateReport, sampleCreateReport,
          sampleCreateReport, .initSampleData 0]).CreateReport "traffic" (.finite 14)
            (.finite (-87)) "jam" 1 0).2
        ((run NewStorage [sampleCreateReport, sampleCreateReport, sampleCreateReport,
          sampleCreateReport, .initSampleData 0]).CreateReport "traffic" (.finite 14)
            (.finite (-87)) "jam" 1 0).1 0).broadcast.map
          (fun m => (m.Type_, m.TotalReports))) = [("new_report", 0), ("stats", 4)] := by
  exact ⟨rfl, rfl, rfl, rfl⟩

/-! ## Concurrent calls of `CreateUser` -/

theorem getElem?_set_of_some {α : Type} {l : List α} {i : Nat} {c : α} (h : l[i]? = some c)
    (a : α) (j : Nat) : (l.set i a)[j]? = if j = i then some a else l[j]? := by
  have hi : i < l.length := by
    by_contra hlt
    rw [List.getElem?_eq_none (Nat.le_of_not_lt hlt)] at h
    cases h
  rw [List.getElem?_set]
  by_cases hji : j = i
  · rw [if_pos hji.symm, if_pos hi, if_pos hji]
  · rw [if_neg (fun h' => hji h'.symm), if_neg hji]

theorem written_frame {calls : List CreateUserCall} {i : Nat} {c c' : CreateUserCall}
    (h : calls[i]? = some c) (hw : c'.written = c.written) (j : Nat) (u : User) :
    (∃ x, (calls.set i c')[j]? = some x ∧ x.written = some u) ↔
      ∃ y, calls[j]? = some y ∧ y.written = some u := by
  rw [getElem?_set_of_some h]
  by_cases hji : j = i
  · rw [if_pos hji, hji]
    constructor
    · rintro ⟨x, hx, hxu⟩
      rw [← Option.some.inj hx, hw] at hxu
      exact ⟨c, h, hxu⟩
    · rintro ⟨y, hy, hyu⟩
      rw [h] at hy
      rw [← Option.some.inj hy, ← hw] at hyu
      exact ⟨c', rfl, hyu⟩
  · rw [if_neg hji]

theorem lock_frame {calls : List CreateUserCall} {i : Nat} {c c' : CreateUserCall}
    (h : calls[i]? = some c) (hw : c'.holdsLock = c.holdsLock) (j : Nat) :
    (∃ x, (calls.set i c')[j]? = some x ∧ x.holdsLock = true) ↔
      ∃ y, calls[j]? = some y ∧ y.holdsLock = true := by
  rw [getElem?_set_of_some h]
  by_cases hji : j = i
  · rw [if_pos hji, hji]
    constructor
    · rintro ⟨x, hx, hxu⟩
      rw [← Option.some.inj hx, hw] at hxu
      exact ⟨c, h, hxu⟩
    · rintro ⟨y, hy, hyu⟩
      rw [h] at hy
      rw [← Option.some.inj hy, ← hw] at hyu
      exact ⟨c', rfl, hyu⟩
  · rw [if_neg hji]

theorem writtenCount_set {calls : List CreateUserCall} {i : Nat} {c : CreateUserCall}
    (h : calls[i]? = some c) (c' : CreateUserCall) :
    Goroutines.writtenCount (calls.set i c') + (if c.written.isSome then 1 else 0) =
      Goroutines.writtenCount calls + (if c'.written.isSome then 1 else 0) := by
  induction calls generalizing i with
  | nil => simp at h
  | cons x xs ih =>
    cases i with
    | zero =>
      simp only [List.getElem?_cons_zero, Option.some.injEq] at h
      rw [List.set_cons_zero, h]
      simp only [Goroutines.writtenCount]
      omega
    | succ n =>
      simp only [List.getElem?_cons_succ] at h
      rw [List.set_cons_succ]
      simp only [Goroutines.writtenCount]
      have := ih h
      omega

theorem stepsLeft_set {calls : List CreateUserCall} {i : Nat} {c : CreateUserCall}
    (h : calls[i]? = some c) (c' : CreateUserCall) :
    Goroutines.stepsLeft (calls.set i c') + c.stepsLeft =
      Goroutines.stepsLeft calls + c'.stepsLeft := by
  induction calls generalizing i with
  | nil => simp at h
  | cons x xs ih =>
    cases i with
    | zero =>
      simp only [List.getElem?_cons_zero, Option.some.injEq] at h
      rw [List.set_cons_zero, h]
      simp only [Goroutines.stepsLeft]
      omega
    | succ n =>
      simp only [List.getElem?_cons_succ] at h
      rw [List.set_cons_succ]
      simp only [Goroutines.stepsLeft]
      have := ih h
      omega

/-- The fields of the invariant about written users carry over a step that
leaves the map alone and does not change what the goroutine has written. -/
theorem Inv_written_frame (g : Goroutines) (hg : g.Inv) (i : Nat) (c c' : CreateUserCall)
    (users : GoMap Int User) (h : g.calls[i]? = some c) (hw : c'.written = c.written)
    (hu : users = g.storage.Users) :
    (∀ (k : Int) (u : User), users.get k = some u →
        ∃ (j : Nat) (x : CreateUserCall),
          (g.calls.set i c')[j]? = some x ∧ x.written = some u ∧ u.ID = k) ∧
      (∀ (j : Nat) (x : CreateUserCall) (u : User), (g.calls.set i c')[j]? = some x →
        x.written = some u → users.get u.ID = some u) ∧
      (∀ (j k : Nat) (x y : CreateUserCall) (u v : User), j ≠ k →
        (g.calls.set i c')[j]? = some x → (g.calls.set i c')[k]? = some y →
        x.written = some u → y.written = some v → u.ID ≠ v.ID) ∧
      users.len = Goroutines.writtenCount (g.calls.set i c') := by
  subst hu
  refine ⟨?_, ?_, ?_, ?_⟩
  · intro k u hk
    obtain ⟨j, y, hy, hyu, hid⟩ := hg.keysWritten k u hk
    obtain ⟨x, hx, hxu⟩ := (written_frame h hw j u).mpr ⟨y, hy, hyu⟩
    exact ⟨j, x, hx, hxu, hid⟩
  · intro j x u hx hxu
    obtain ⟨y, hy, hyu⟩ := (written_frame h hw j u).mp ⟨x, hx, hxu⟩
    exact hg.writtenStored j y u hy hyu
  · intro j k x y u v hjk hx hy hxu hyv
    obtain ⟨x', hx', hxu'⟩ := (written_frame h hw j u).mp ⟨x, hx, hxu⟩
    obtain ⟨y', hy', hyv'⟩ := (written_frame h hw k v).mp ⟨y, hy, hyv⟩
    exact hg.distinct j k x' y' u v hjk hx' hy' hxu' hyv'
  · have := writtenCount_set h c'
    rw [hw] at this
    rw [hg.count]
    omega

/-- The fields of the invariant about the mutex carry over a step that
leaves the mutex alone and is taken inside the critical section. -/
theorem Inv_lock_frame (g : Goroutines) (hg : g.Inv) (i : Nat) (c c' : CreateUserCall)
    (h : g.calls[i]? = some c) (hw : c'.holdsLock = c.holdsLock) :
    (∀ (j : Nat) (x : CreateUserCall), (g.calls.set i c')[j]? = some x →
        x.holdsLock = true → g.muLocked = true) ∧
      (g.muLocked = true →
        ∃ (j : Nat) (x : CreateUserCall), (g.calls.set i c')[j]? = some x ∧
          x.holdsLock = true) ∧
      (∀ (j k : Nat) (x y : CreateUserCall), (g.calls.set i c')[j]? = some x →
        (g.calls.set i c')[k]? = some y → x.holdsLock = true → y.holdsLock = true → j = k) := by
  refine ⟨?_, ?_, ?_⟩
  · intro j x hx hxl
    obtain ⟨y, hy, hyl⟩ := (lock_frame h hw j).mp ⟨x, hx, hxl⟩
    exact hg.lockHeld j y hy hyl
  · intro hm
    obtain ⟨j, y, hy, hyl⟩ := hg.lockOwner hm
    obtain ⟨x, hx, hxl⟩ := (lock_frame h hw j).mpr ⟨y, hy, hyl⟩
    exact ⟨j, x, hx, hxl⟩
  · intro j k x y hx hy hxl hyl
    obtain ⟨x', hx', hxl'⟩ := (lock_frame h hw j).mp ⟨x, hx, hxl⟩
    obtain ⟨y', hy', hyl'⟩ := (lock_frame h hw k).mp ⟨y, hy, hyl⟩
    exact hg.oneHolder j k x' y' hx' hy' hxl' hyl'

theorem written_of_not_holdsLock (x : CreateUserCall) (u : User) (hw : x.written = some u)
    (hl : x.holdsLock = false) : x = .returned u := by
  cases x with
  | start username lat lng => cases hw
  | locked username lat lng => cases hw
  | built user => cases hw
  | stored user => cases hl
  | bumped user => cases hl
  | returned user =>
    cases hw
    rfl

theorem Inv_acquire (g : Goroutines) (hg : g.Inv) (i : Nat) (username : String)
    (lat lng : Float64) (h : g.calls[i]? = some (.start username lat lng))
    (hm : g.muLocked = false) :
    Goroutines.Inv
      { g with muLocked := true, calls := g.calls.set i (.locked username lat lng) } := by
  have hfree : ∀ (j : Nat) (x : CreateUserCall), g.calls[j]? = some x →
      x.holdsLock = true → False := by
    intro j x hx hxl
    have := hg.lockHeld j x hx hxl
    rw [hm] at this
    cases this
  obtain ⟨w1, w2, w3, w4⟩ :=
    Inv_written_frame g hg i _ (.locked username lat lng) g.storage.Users h rfl rfl
  refine ⟨fun _ _ _ _ => rfl, ?_, ?_, ?_, ?_, ?_, ?_, w1, w2, w3, w4⟩
  · intro _
    refine ⟨i, .locked username lat lng, ?_, rfl⟩
    show (g.calls.set i _)[i]? = _
    rw [getElem?_set_of_some h, if_pos rfl]
  · intro j k x y hx hy hxl hyl
    have hx' : (g.calls.set i (.locked username lat lng))[j]? = some x := hx
    have hy' : (g.calls.set i (.locked username lat lng))[k]? = some y := hy
    rw [getElem?_set_of_some h] at hx' hy'
    by_cases hji : j = i
    · by_cases hki : k = i
      · rw [hji, hki]
      · rw [if_neg hki] at hy'
        exact (hfree k y hy' hyl).elim
    · rw [if_neg hji] at hx'
      exact (hfree j x hx' hxl).elim
  · intro j u hj
    have hj' : (g.calls.set i (.locked username lat lng))[j]? = some (.built u) := hj
    rw [getElem?_set_of_some h] at hj'
    by_cases hji : j = i
    · rw [if_pos hji] at hj'
      cases hj'
    · rw [if_neg hji] at hj'
      exact hg.builtID j u hj'
  · intro j u hj
    have hj' : (g.calls.set i (.locked username lat lng))[j]? = some (.stored u) := hj
    rw [getElem?_set_of_some h] at hj'
    by_cases hji : j = i
    · rw [if_pos hji] at hj'
      cases hj'
    · rw [if_neg hji] at hj'
      exact hg.storedID j u hj'
  · intro j u hj
    have hj' : (g.calls.set i (.locked username lat lng))[j]? = some (.bumped u) := hj
    rw [getElem?_set_of_some h] at hj'
    by_cases hji : j = i
    · rw [if_pos hji] at hj'
      cases hj'
    · rw [if_neg hji] at hj'
      exact hg.bumpedID j u hj'
  · intro j u hj
    have hj' : (g.calls.set i (.locked username lat lng))[j]? = some (.returned u) := hj
    rw [getElem?_set_of_some h] at hj'
    by_cases hji : j = i
    · rw [if_pos hji] at hj'
      cases hj'
    · rw [if_neg hji] at hj'
      exact hg.returnedID j u hj'

theorem Inv_build (g : Goroutines) (hg : g.Inv) (i : Nat) (username : String)
    (lat lng : Float64) (now : Time) (h : g.calls[i]? = some (.locked username lat lng)) :
    Goroutines.Inv
      { g with
        calls := g.calls.set i
          (.built
            { ID := g.storage.NextUserID, Username := username, Lat := lat, Lng := lng,
              LastSeen := now }) } := by
  obtain ⟨w1, w2, w3, w4⟩ :=
    Inv_written_frame g hg i _
      (.built
        { ID := g.storage.NextUserID, Username := username, Lat := lat, Lng := lng,
          LastSeen := now }) g.storage.Users h rfl rfl
  obtain ⟨l1, l2, l3⟩ :=
    Inv_lock_frame g hg i _
      (.built
        { ID := g.storage.NextUserID, Username := username, Lat := lat, Lng := lng,
          LastSeen := now }) h rfl
  refine ⟨l1, l2, l3, ?_, ?_, ?_, ?_, w1, w2, w3, w4⟩
  · intro j u hj
    have hj' : (g.calls.set i _)[j]? = some (.built u) := hj
    rw [getElem?_set_of_some h] at hj'
    by_cases hji : j = i
    · rw [if_pos hji] at hj'
      cases hj'
      rfl
    · rw [if_neg hji] at hj'
      exact hg.builtID j u hj'
  · intro j u hj
    have hj' : (g.calls.set i _)[j]? = some (.stored u) := hj
    rw [getElem?_set_of_some h] at hj'
    by_cases hji : j = i
    · rw [if_pos hji] at hj'
      cases hj'
    · rw [if_neg hji] at hj'
      exact hg.storedID j u hj'
  · intro j u hj
    have hj' : (g.calls.set i _)[j]? = some (.bumped u) := hj
    rw [getElem?_set_of_some h] at hj'
    by_cases hji : j = i
    · rw [if_pos hji] at hj'
      cases hj'
    · rw [if_neg hji] at hj'
      exact hg.bumpedID j u hj'
  · intro j u hj
    have hj' : (g.calls.set i _)[j]? = some (.returned u) := hj
    rw [getElem?_set_of_some h] at hj'
    by_cases hji : j = i
    · rw [if_pos hji] at hj'
      cases hj'
    · rw [if_neg hji] at hj'
      exact hg.returnedID j u hj'

theorem Inv_bump (g : Goroutines) (hg : g.Inv) (i : Nat) (user : User)
    (h : g.calls[i]? = some (.stored user)) :
    Goroutines.Inv
      { g with
        storage := { g.storage with NextUserID := g.storage.NextUserID + 1 }
        calls := g.calls.set i (.bumped user) } := by
  have hother : ∀ (j : Nat) (x : CreateUserCall), j ≠ i → g.calls[j]? = some x →
      x.holdsLock = true → False := by
    intro j x hji hx hxl
    exact hji (hg.oneHolder j i x _ hx h hxl rfl)
  obtain ⟨w1, w2, w3, w4⟩ :=
    Inv_written_frame g hg i _ (.bumped user) g.storage.Users h rfl rfl
  obtain ⟨l1, l2, l3⟩ := Inv_lock_frame g hg i _ (.bumped user) h rfl
  refine ⟨l1, l2, l3, ?_, ?_, ?_, ?_, w1, w2, w3, w4⟩
  · intro j u hj
    have hj' : (g.calls.set i (.bumped user))[j]? = some (.built u) := hj
    rw [getElem?_set_of_some h] at hj'
    by_cases hji : j = i
    · rw [if_pos hji] at hj'
      cases hj'
    · rw [if_neg hji] at hj'
      exact (hother j _ hji hj' rfl).elim
  · intro j u hj
    have hj' : (g.calls.set i (.bumped user))[j]? = some (.stored u) := hj
    rw [getElem?_set_of_some h] at hj'
    by_cases hji : j = i
    · rw [if_pos hji] at hj'
      cases hj'
    · rw [if_neg hji] at hj'
      exact (hother j _ hji hj' rfl).elim
  · intro j u hj
    have hj' : (g.calls.set i (.bumped user))[j]? = some (.bumped u) := hj
    rw [getElem?_set_of_some h] at hj'
    by_cases hji : j = i
    · rw [if_pos hji] at hj'
      cases hj'
      have := hg.storedID i _ h
      show user.ID + 1 = g.storage.NextUserID + 1
      omega
    · rw [if_neg hji] at hj'
      exact (hother j _ hji hj' rfl).elim
  · intro j u hj
    have hj' : (g.calls.set i (.bumped user))[j]? = some (.returned u) := hj
    rw [getElem?_set_of_some h] at hj'
    by_cases hji : j = i
    · rw [if_pos hji] at hj'
      cases hj'
    · rw [if_neg hji] at hj'
      have := hg.returnedID j u hj'
      show u.ID < g.storage.NextUserID + 1
      omega

theorem Inv_release (g : Goroutines) (hg : g.Inv) (i : Nat) (user : User)
    (h : g.calls[i]? = some (.bumped user)) :
    Goroutines.Inv
      { g with muLocked := false, calls := g.calls.set i (.returned user) } := by
  have hnone : ∀ (j : Nat) (x : CreateUserCall),
      (g.calls.set i (.returned user))[j]? = some x → x.holdsLock = true → False := by
    intro j x hx hxl
    rw [getElem?_set_of_some h] at hx
    by_cases hji : j = i
    · rw [if_pos hji] at hx
      rw [← Option.some.inj hx] at hxl
      cases hxl
    · rw [if_neg hji] at hx
      exact hji (hg.oneHolder j i x _ hx h hxl rfl)
  obtain ⟨w1, w2, w3, w4⟩ :=
    Inv_written_frame g hg i _ (.returned user) g.storage.Users h rfl rfl
  refine ⟨?_, ?_, ?_, ?_, ?_, ?_, ?_, w1, w2, w3, w4⟩
  · intro j x hx hxl
    exact (hnone j x hx hxl).elim
  · intro hm
    cases hm
  · intro j k x y hx _ hxl _
    exact (hnone j x hx hxl).elim
  · intro j u hj
    have hj' : (g.calls.set i (.returned user))[j]? = some (.built u) := hj
    exact (hnone j _ hj' rfl).elim
  · intro j u hj
    have hj' : (g.calls.set i (.returned user))[j]? = some (.stored u) := hj
    exact (hnone j _ hj' rfl).elim
  · intro j u hj
    have hj' : (g.calls.set i (.returned user))[j]? = some (.bumped u) := hj
    exact (hnone j _ hj' rfl).elim
  · intro j u hj
    have hj' : (g.calls.set i (.returned user))[j]? = some (.returned u) := hj
    rw [getElem?_set_of_some h] at hj'
    by_cases hji : j = i
    · rw [if_pos hji] at hj'
      cases hj'
      have := hg.bumpedID i _ h
      show user.ID < g.storage.NextUserID
      omega
    · rw [if_neg hji] at hj'
      exact hg.returnedID j u hj'

theorem Inv_store (g : Goroutines) (hg : g.Inv) (i : Nat) (user : User)
    (h : g.calls[i]? = some (.built user)) :
    Goroutines.Inv
      { g with
        storage :=
          { g.storage with Users := g.storage.Users.set g.storage.NextUserID user }
        calls := g.calls.set i (.stored user) } := by
  have hid : user.ID = g.storage.NextUserID := hg.builtID i user h
  have hreturned : ∀ (j : Nat) (x : CreateUserCall) (u : User), j ≠ i →
      g.calls[j]? = some x → x.written = some u → u.ID < g.storage.NextUserID := by
    intro j x u hji hx hxu
    have hl : x.holdsLock = false := by
      cases hxl : x.holdsLock with
      | false => rfl
      | true => exact absurd (hg.oneHolder j i x _ hx h hxl rfl) hji
    rw [written_of_not_holdsLock x u hxu hl] at hx
    exact hg.returnedID j u hx
  have hfree : g.storage.Users.get g.storage.NextUserID = none := by
    cases hget : g.storage.Users.get g.storage.NextUserID with
    | none => rfl
    | some u =>
      obtain ⟨j, x, hx, hxu, hk⟩ := hg.keysWritten _ u hget
      have hji : j ≠ i := by
        intro hji
        rw [hji, h] at hx
        rw [← Option.some.inj hx] at hxu
        cases hxu
      have := hreturned j x u hji hx hxu
      omega
  obtain ⟨l1, l2, l3⟩ := Inv_lock_frame g hg i _ (.stored user) h rfl
  refine ⟨l1, l2, l3, ?_, ?_, ?_, ?_, ?_, ?_, ?_, ?_⟩
  · intro j u hj
    have hj' : (g.calls.set i (.stored user))[j]? = some (.built u) := hj
    rw [getElem?_set_of_some h] at hj'
    by_cases hji : j = i
    · rw [if_pos hji] at hj'
      cases hj'
    · rw [if_neg hji] at hj'
      exact hg.builtID j u hj'
  · intro j u hj
    have hj' : (g.calls.set i (.stored user))[j]? = some (.stored u) := hj
    rw [getElem?_set_of_some h] at hj'
    by_cases hji : j = i
    · rw [if_pos hji] at hj'
      cases hj'
      exact hid
    · rw [if_neg hji] at hj'
      exact hg.storedID j u hj'
  · intro j u hj
    have hj' : (g.calls.set i (.stored user))[j]? = some (.bumped u) := hj
    rw [getElem?_set_of_some h] at hj'
    by_cases hji : j = i
    · rw [if_pos hji] at hj'
      cases hj'
    · rw [if_neg hji] at hj'
      exact hg.bumpedID j u hj'
  · intro j u hj
    have hj' : (g.calls.set i (.stored user))[j]? = some (.returned u) := hj
    rw [getElem?_set_of_some h] at hj'
    by_cases hji : j = i
    · rw [if_pos hji] at hj'
      cases hj'
    · rw [if_neg hji] at hj'
      exact hg.returnedID j u hj'
  · intro k u hk
    have hk' : (g.storage.Users.set g.storage.NextUserID user).get k = some u := hk
    rw [GoMap.get_set] at hk'
    show ∃ (j : Nat) (x : CreateUserCall),
      (g.calls.set i (.stored user))[j]? = some x ∧ x.written = some u ∧ u.ID = k
    by_cases hkey : k = g.storage.NextUserID
    · rw [if_pos hkey] at hk'
      refine ⟨i, .stored user, by rw [getElem?_set_of_some h, if_pos rfl], ?_, ?_⟩
      · rw [← Option.some.inj hk']
        rfl
      · rw [← Option.some.inj hk', hid, hkey]
    · rw [if_neg hkey] at hk'
      obtain ⟨j, x, hx, hxu, hxk⟩ := hg.keysWritten k u hk'
      have hji : j ≠ i := by
        intro hji
        rw [hji, h] at hx
        rw [← Option.some.inj hx] at hxu
        cases hxu
      exact ⟨j, x, by rw [getElem?_set_of_some h, if_neg hji]; exact hx, hxu, hxk⟩
  · intro j x u hx hxu
    have hx' : (g.calls.set i (.stored user))[j]? = some x := hx
    rw [getElem?_set_of_some h] at hx'
    show (g.storage.Users.set g.storage.NextUserID user).get u.ID = some u
    rw [GoMap.get_set]
    by_cases hji : j = i
    · rw [if_pos hji] at hx'
      rw [← Option.some.inj hx'] at hxu
      have huu : user = u := Option.some.inj hxu
      rw [← huu, if_pos hid]
    · rw [if_neg hji] at hx'
      have := hreturned j x u hji hx' hxu
      rw [if_neg (by omega)]
      exact hg.writtenStored j x u hx' hxu
  · intro j k x y u v hjk hx hy hxu hyv
    have hx' : (g.calls.set i (.stored user))[j]? = some x := hx
    have hy' : (g.calls.set i (.stored user))[k]? = some y := hy
    rw [getElem?_set_of_some h] at hx' hy'
    by_cases hji : j = i
    · have hki : k ≠ i := fun hki => hjk (hji.trans hki.symm)
      rw [if_pos hji] at hx'
      rw [if_neg hki] at hy'
      rw [← Option.some.inj hx'] at hxu
      have huu : user = u := Option.some.inj hxu
      have := hreturned k y v hki hy' hyv
      rw [← huu]
      omega
    · rw [if_neg hji] at hx'
      by_cases hki : k = i
      · rw [if_pos hki] at hy'
        rw [← Option.some.inj hy'] at hyv
        have hvv : user = v := Option.some.inj hyv
        have := hreturned j x u hji hx' hxu
        rw [← hvv]
        omega
      · rw [if_neg hki] at hy'
        exact hg.distinct j k x y u v hjk hx' hy' hxu hyv
  · show (g.storage.Users.set g.storage.NextUserID user).len = _
    rw [GoMap.len_set_of_get_none _ _ _ hfree, hg.count]
    have := writtenCount_set h (.stored user)
    simp only [CreateUserCall.written, Option.isSome_none, Option.isSome_some, if_true,
      Bool.false_eq_true, if_false] at this
    show Goroutines.writtenCount g.calls + 1 =
      Goroutines.writtenCount (g.calls.set i (.stored user))
    omega

theorem Inv_step (g : Goroutines) (hg : g.Inv) (i : Nat) (now : Time) :
    (g.step i now).Inv := by
  unfold Goroutines.step
  split
  · exact hg
  · rename_i username lat lng h
    by_cases hm : g.muLocked = true
    · rw [if_pos hm]
      exact hg
    · rw [if_neg hm]
      exact Inv_acquire g hg i username lat lng h (Bool.eq_false_iff.mpr hm)
  · rename_i username lat lng h
    exact Inv_build g hg i username lat lng now h
  · rename_i user h
    exact Inv_store g hg i user h
  · rename_i user h
    exact Inv_bump g hg i user h
  · rename_i user h
    exact Inv_release g hg i user h
  · exact hg

theorem Inv_runSchedule (schedule : List (Nat × Time)) (g : Goroutines) (hg : g.Inv) :
    (g.runSchedule schedule).Inv := by
  induction schedule generalizing g with
  | nil => exact hg
  | cons e schedule ih => exact ih (g.step e.1 e.2) (Inv_step g hg e.1 e.2)

theorem initial_calls_start (args : List (String × Float64 × Float64)) (i : Nat)
    (c : CreateUserCall) (h : (Goroutines.initial args).calls[i]? = some c) :
    ∃ username lat lng, c = .start username lat lng := by
  have h' : (args.map (fun a => CreateUserCall.start a.1 a.2.1 a.2.2))[i]? = some c := h
  rw [List.getElem?_map] at h'
  obtain ⟨a, _, ha⟩ := Option.map_eq_some'.mp h'
  exact ⟨a.1, a.2.1, a.2.2, ha.symm⟩

theorem writtenCount_initial (args : List (String × Float64 × Float64)) :
    Goroutines.writtenCount (args.map (fun a => CreateUserCall.start a.1 a.2.1 a.2.2)) = 0 := by
  induction args with
  | nil => rfl
  | cons a args ih =>
    simp only [List.map_cons, Goroutines.writtenCount, ih]
    rfl

theorem Inv_initial (args : List (String × Float64 × Float64)) :
    (Goroutines.initial args).Inv := by
  have hstart := initial_calls_start args
  refine ⟨?_, ?_, ?_, ?_, ?_, ?_, ?_, ?_, ?_, ?_, ?_⟩
  · intro i c hc hl
    obtain ⟨_, _, _, rfl⟩ := hstart i c hc
    cases hl
  · intro hm
    cases hm
  · intro i j ci cj hci _ hl _
    obtain ⟨_, _, _, rfl⟩ := hstart i ci hci
    cases hl
  · intro i u hc
    obtain ⟨_, _, _, h⟩ := hstart i _ hc
    cases h
  · intro i u hc
    obtain ⟨_, _, _, h⟩ := hstart i _ hc
    cases h
  · intro i u hc
    obtain ⟨_, _, _, h⟩ := hstart i _ hc
    cases h
  · intro i u hc
    obtain ⟨_, _, _, h⟩ := hstart i _ hc
    cases h
  · intro k u hk
    have hk' : (GoMap.empty : GoMap Int User).get k = some u := hk
    rw [GoMap.get_empty] at hk'
    cases hk'
  · intro i c u hc hw
    obtain ⟨_, _, _, rfl⟩ := hstart i c hc
    cases hw
  · intro i j ci cj ui uj _ hci _ hw _
    obtain ⟨_, _, _, rfl⟩ := hstart i ci hci
    cases hw
  · show (GoMap.empty : GoMap Int User).len = _
    rw [show (Goroutines.initial args).calls =
      args.map (fun a => CreateUserCall.start a.1 a.2.1 a.2.2) from rfl, writtenCount_initial]
    rfl

theorem step_length (g : Goroutines) (i : Nat) (now : Time) :
    (g.step i now).calls.length = g.calls.length := by
  unfold Goroutines.step
  split
  · rfl
  · split
    · rfl
    · exact List.length_set _ _ _
  · exact List.length_set _ _ _
  · exact List.length_set _ _ _
  · exact List.length_set _ _ _
  · exact List.length_set _ _ _
  · rfl

theorem runSchedule_length (schedule : List (Nat × Time)) (g : Goroutines) :
    (g.runSchedule schedule).calls.length = g.calls.length := by
  induction schedule generalizing g with
  | nil => rfl
  | cons e schedule ih =>
    exact (ih (g.step e.1 e.2)).trans (step_length g e.1 e.2)

theorem writtenCount_of_all_returned (calls : List CreateUserCall)
    (h : ∀ c ∈ calls, ∃ u, c = .returned u) :
    Goroutines.writtenCount calls = calls.length := by
  induction calls with
  | nil => rfl
  | cons c cs ih =>
    obtain ⟨u, rfl⟩ := h _ (List.mem_cons_self _ _)
    have := ih (fun c hc => h c (List.mem_cons_of_mem _ hc))
    simp only [Goroutines.writtenCount, CreateUserCall.written, Option.isSome_some, if_true,
      List.length_cons]
    push_cast
    omega

theorem stepsLeft_zero (calls : List CreateUserCall) (h : Goroutines.stepsLeft calls = 0) :
    ∀ c ∈ calls, ∃ u, c = .returned u := by
  induction calls with
  | nil => simp
  | cons c cs ih =>
    simp only [Goroutines.stepsLeft] at h
    intro x hx
    rcases List.mem_cons.mp hx with rfl | hx
    · cases x with
      | returned u => exact ⟨u, rfl⟩
      | start username lat lng => simp [CreateUserCall.stepsLeft] at h
      | locked username lat lng => simp [CreateUserCall.stepsLeft] at h
      | built u => simp [CreateUserCall.stepsLeft] at h
      | stored u => simp [CreateUserCall.stepsLeft] at h
      | bumped u => simp [CreateUserCall.stepsLeft] at h
    · exact ih (by omega) x hx

theorem exists_unfinished (calls : List CreateUserCall) (h : 0 < Goroutines.stepsLeft calls) :
    ∃ (i : Nat) (c : CreateUserCall), calls[i]? = some c ∧ 0 < c.stepsLeft := by
  induction calls with
  | nil => simp [Goroutines.stepsLeft] at h
  | cons c cs ih =>
    by_cases hc : 0 < c.stepsLeft
    · exact ⟨0, c, List.getElem?_cons_zero, hc⟩
    · simp only [Goroutines.stepsLeft] at h
      obtain ⟨i, x, hx, hxs⟩ := ih (by omega)
      exact ⟨i + 1, x, by simpa using hx, hxs⟩

/-- A goroutine that holds the mutex can take its next step, and so can a
goroutine that has not started when the mutex is free; the step brings the
goroutines one statement closer to the end. -/
theorem step_progress (g : Goroutines) (i : Nat) (c : CreateUserCall) (now : Time)
    (h : g.calls[i]? = some c) (hs : 0 < c.stepsLeft)
    (hfree : c.holdsLock = false → g.muLocked = false) :
    Goroutines.stepsLeft (g.step i now).calls + 1 = Goroutines.stepsLeft g.calls := by
  unfold Goroutines.step
  cases c with
  | start username lat lng =>
    have hm := hfree rfl
    simp only [h, hm, Bool.false_eq_true, if_false]
    have := stepsLeft_set h (.locked username lat lng)
    simp only [CreateUserCall.stepsLeft] at this
    omega
  | locked username lat lng =>
    simp only [h]
    have := stepsLeft_set h
      (.built
        { ID := g.storage.NextUserID, Username := username, Lat := lat, Lng := lng,
          LastSeen := now })
    simp only [CreateUserCall.stepsLeft] at this
    omega
  | built user =>
    simp only [h]
    have := stepsLeft_set h (.stored user)
    simp only [CreateUserCall.stepsLeft] at this
    omega
  | stored user =>
    simp only [h]
    have := stepsLeft_set h (.bumped user)
    simp only [CreateUserCall.stepsLeft] at this
    omega
  | bumped user =>
    simp only [h]
    have := stepsLeft_set h (.returned user)
    simp only [CreateUserCall.stepsLeft] at this
    omega
  | returned user => simp [CreateUserCall.stepsLeft] at hs

theorem exists_next_step (g : Goroutines) (hg : g.Inv)
    (h : 0 < Goroutines.stepsLeft g.calls) :
    ∃ i : Nat,
      Goroutines.stepsLeft (g.step i 0).calls + 1 = Goroutines.stepsLeft g.calls := by
  by_cases hm : g.muLocked = true
  · obtain ⟨i, c, hc, hl⟩ := hg.lockOwner hm
    refine ⟨i, step_progress g i c 0 hc ?_ ?_⟩
    · cases c <;> simp [CreateUserCall.holdsLock] at hl <;> simp [CreateUserCall.stepsLeft]
    · intro hl'
      rw [hl] at hl'
      cases hl'
  · obtain ⟨i, c, hc, hs⟩ := exists_unfinished g.calls h
    exact ⟨i, step_progress g i c 0 hc hs (fun _ => Bool.eq_false_iff.mpr hm)⟩

theorem exists_completion (n : Nat) (g : Goroutines) (hg : g.Inv)
    (hn : Goroutines.stepsLeft g.calls = n) :
    ∃ more : List (Nat × Time), ∀ c ∈ (g.runSchedule more).calls, ∃ u, c = .returned u := by
  induction n generalizing g with
  | zero => exact ⟨[], stepsLeft_zero _ hn⟩
  | succ n ih =>
    obtain ⟨i, hi⟩ := exists_next_step g hg (by omega)
    obtain ⟨more, hmore⟩ := ih (g.step i 0) (Inv_step g hg i 0) (by omega)
    exact ⟨(i, 0) :: more, hmore⟩

/-- C19: take any number N of `CreateUser` calls started concurrently on a
fresh store, and any schedule of their steps (the mutex admits one goroutine
at a time between `Lock` and `Unlock`). At every moment the calls that have
returned have pairwise distinct ids and their users are in the map under
these ids; once all N calls have returned the map holds exactly N users,
each the one returned to a caller; and from every moment on the calls can
all run to their return (no schedule blocks them for good). -/
theorem concurrent_createUser_distinct_ids (args : List (String × Float64 × Float64))
    (schedule : List (Nat × Time)) :
    ((Goroutines.initial args).runSchedule schedule).calls.length = args.length ∧
      (∀ (i j : Nat) (ui uj : User), i ≠ j →
        ((Goroutines.initial args).runSchedule schedule).calls[i]? = some (.returned ui) →
        ((Goroutines.initial args).runSchedule schedule).calls[j]? = some (.returned uj) →
        ui.ID ≠ uj.ID) ∧
      (∀ (i : Nat) (u : User),
        ((Goroutines.initial args).runSchedule schedule).calls[i]? = some (.returned u) →
        ((Goroutines.initial args).runSchedule schedule).storage.Users.get u.ID = some u) ∧
      ((∀ c ∈ ((Goroutines.initial args).runSchedule schedule).calls, ∃ u, c = .returned u) →
        ((Goroutines.initial args).runSchedule schedule).storage.Users.len = args.length ∧
          ∀ (k : Int) (u : User),
            ((Goroutines.initial args).runSchedule schedule).storage.Users.get k = some u →
            ∃ i : Nat,
              ((Goroutines.initial args).runSchedule schedule).calls[i]? =
                some (.returned u) ∧ u.ID = k) ∧
      (∃ more : List (Nat × Time),
        ∀ c ∈ ((Goroutines.initial args).runSchedule (schedule ++ more)).calls,
          ∃ u, c = .returned u) := by
  have hinv := Inv_runSchedule schedule _ (Inv_initial args)
  have hlen : ((Goroutines.initial args).runSchedule schedule).calls.length = args.length := by
    rw [runSchedule_length]
    exact List.length_map _ _
  refine ⟨hlen, ?_, ?_, ?_, ?_⟩
  · intro i j ui uj hij hi hj
    exact hinv.distinct i j _ _ ui uj hij hi hj rfl rfl
  · intro i u hi
    exact hinv.writtenStored i _ u hi rfl
  · intro hall
    constructor
    · rw [hinv.count, writtenCount_of_all_returned _ hall, hlen]
    · intro k u hk
      obtain ⟨i, c, hc, hw, hid⟩ := hinv.keysWritten k u hk
      obtain ⟨v, rfl⟩ := hall c (List.getElem?_mem hc)
      have hvu : v = u := Option.some.inj hw
      rw [hvu] at hc
      exact ⟨i, hc, hid⟩
  · obtain ⟨more, hmore⟩ := exists_completion _ _ hinv rfl
    refine ⟨more, ?_⟩
    rw [show (Goroutines.initial args).runSchedule (schedule ++ more) =
      ((Goroutines.initial args).runSchedule schedule).runSchedule more from
        List.foldl_append _ _ _ _]
    exact hmore

/-! ## One tick of the traffic simulator -/

theorem formatFixed4_pos (a : Nat) (str : String)
    (hstr : toString (a / 10000) ++ "." ++
        String.mk (List.replicate (4 - (toString (a % 10000)).length) '0') ++
        toString (a % 10000) = str) :
    formatFixed4 (.finite ((a : ℚ) / 10000)) = str := by
  have h : |((a : ℚ) / 10000)| * 10000 = (a : ℚ) := by
    rw [abs_of_nonneg (by positivity)]
    field_simp
  rw [formatFixed4_of_scaled _ a h, if_neg (by
    have : (0 : ℚ) ≤ (a : ℚ) / 10000 := by positivity
    exact not_lt.mpr this), ← hstr]
  simp

theorem formatFixed4_neg (a : Nat) (str : String) (ha : 0 < a)
    (hstr : "-" ++ toString (a / 10000) ++ "." ++
        String.mk (List.replicate (4 - (toString (a % 10000)).length) '0') ++
        toString (a % 10000) = str) :
    formatFixed4 (.finite (-(a : ℚ) / 10000)) = str := by
  have hpos : (0 : ℚ) < (a : ℚ) := by exact_mod_cast ha
  have hneg : -(a : ℚ) / 10000 < 0 := by
    apply div_neg_of_neg_of_pos <;> linarith
  have h : |(-(a : ℚ) / 10000)| * 10000 = (a : ℚ) := by
    rw [abs_of_neg hneg]
    field_simp
  rw [formatFixed4_of_scaled _ a h, if_pos hneg, ← hstr]

theorem trafficWrites_keys (hour unixTime : Int) (now : Time) :
    (TrafficService.trafficWrites hour unixTime now).map Prod.fst =
      TrafficService.zoneKeys := by
  have p1 := formatFixed4_pos 140818 "14.0818" (by decide)
  have n1 := formatFixed4_neg 872068 "-87.2068" (by decide) (by decide)
  have p2 := formatFixed4_pos 140900 "14.0900" (by decide)
  have n2 := formatFixed4_neg 872100 "-87.2100" (by decide) (by decide)
  have p3 := formatFixed4_pos 140700 "14.0700" (by decide)
  have n3 := formatFixed4_neg 872000 "-87.2000" (by decide) (by decide)
  have p4 := formatFixed4_pos 140800 "14.0800" (by decide)
  have n4 := formatFixed4_neg 871900 "-87.1900" (by decide) (by decide)
  have p5 := formatFixed4_pos 140750 "14.0750" (by decide)
  have n5 := formatFixed4_neg 872200 "-87.2200" (by decide) (by decide)
  have p6 := formatFixed4_pos 140950 "14.0950" (by decide)
  have n6 := formatFixed4_neg 872150 "-87.2150" (by decide) (by decide)
  have p7 := formatFixed4_pos 140650 "14.0650" (by decide)
  have n7 := formatFixed4_neg 872050 "-87.2050" (by decide) (by decide)
  have p8 := formatFixed4_pos 140850 "14.0850" (by decide)
  have n8 := formatFixed4_neg 871950 "-87.1950" (by decide) (by decide)
  simp only [Nat.cast_ofNat] at p1 n1 p2 n2 p3 n3 p4 n4 p5 n5 p6 n6 p7 n7 p8 n8
  simp only [TrafficService.trafficWrites, TrafficService.locations, List.enum, List.enumFrom,
    List.map, TrafficService.simulateZone, p1, n1, p2, n2, p3, n3, p4, n4, p5, n5, p6, n6, p7,
    n7, p8, n8]
  decide

theorem updates_eq (ws : List (String × TrafficData)) (s : Storage) :
    ws.foldl (fun st w => st.UpdateTrafficData w.1 w.2) s =
      { s with TrafficData := ws.foldl (fun m w => m.set w.1 w.2) s.TrafficData } := by
  induction ws generalizing s with
  | nil => rfl
  | cons w ws ih =>
    rw [List.foldl_cons, ih]
    rfl

theorem foldSet_get_of_not_mem {κ α : Type} [DecidableEq κ] (ws : List (κ × α))
    (m : GoMap κ α) (k : κ) (hk : k ∉ ws.map Prod.fst) :
    (ws.foldl (fun m w => m.set w.1 w.2) m).get k = m.get k := by
  induction ws generalizing m with
  | nil => rfl
  | cons w ws ih =>
    rw [List.foldl_cons, ih (m.set w.1 w.2) (fun h => hk (List.mem_cons_of_mem _ h)),
      GoMap.get_set, if_neg (fun h => hk (by rw [h]; exact List.mem_cons_self _ _))]

theorem foldSet_get_of_mem {κ α : Type} [DecidableEq κ] (ws : List (κ × α))
    (m : GoMap κ α) (k : κ) (v : α) (hnodup : (ws.map Prod.fst).Nodup) (hk : (k, v) ∈ ws) :
    (ws.foldl (fun m w => m.set w.1 w.2) m).get k = some v := by
  induction ws generalizing m with
  | nil => cases hk
  | cons w ws ih =>
    rw [List.map_cons, List.nodup_cons] at hnodup
    rw [List.foldl_cons]
    rcases List.mem_cons.mp hk with h | h
    · rw [← h] at hnodup
      rw [foldSet_get_of_not_mem ws _ k hnodup.1, ← h, GoMap.get_set, if_pos rfl]
    · exact ih _ hnodup.2 h

theorem foldSet_keys {κ α : Type} [DecidableEq κ] (ws : List (κ × α)) (m : GoMap κ α)
    (k : κ) :
    k ∈ (ws.foldl (fun m w => m.set w.1 w.2) m).entries.map Prod.fst ↔
      k ∈ ws.map Prod.fst ∨ k ∈ m.entries.map Prod.fst := by
  induction ws generalizing m with
  | nil => simp
  | cons w ws ih =>
    rw [List.foldl_cons, ih]
    have hset : k ∈ (m.set w.1 w.2).entries.map Prod.fst ↔
        k = w.1 ∨ k ∈ m.entries.map Prod.fst := by
      show k ∈ ((w.1, w.2) :: m.entries.filter _).map Prod.fst ↔ _
      rw [List.map_cons, List.mem_cons]
      constructor
      · rintro (h | h)
        · exact Or.inl h
        · obtain ⟨e, he, rfl⟩ := List.mem_map.mp h
          exact Or.inr (List.mem_map.mpr ⟨e, (List.mem_filter.mp he).1, rfl⟩)
      · rintro (h | h)
        · exact Or.inl h
        · by_cases hkw : k = w.1
          · exact Or.inl hkw
          · obtain ⟨e, he, rfl⟩ := List.mem_map.mp h
            exact Or.inr (List.mem_map.mpr ⟨e, List.mem_filter.mpr ⟨he, by simpa using hkw⟩,
              rfl⟩)
    rw [hset, List.map_cons, List.mem_cons]
    tauto

theorem foldSet_len {κ α : Type} [DecidableEq κ] (ws : List (κ × α)) (m : GoMap κ α)
    (hnodup : (ws.map Prod.fst).Nodup)
    (hsub : ∀ k, k ∈ m.entries.map Prod.fst → k ∈ ws.map Prod.fst) :
    (ws.foldl (fun m w => m.set w.1 w.2) m).len = ws.length := by
  have hperm : ((ws.foldl (fun m w => m.set w.1 w.2) m).entries.map Prod.fst).Perm
      (ws.map Prod.fst) := by
    rw [List.perm_ext_iff_of_nodup (GoMap.nodupKeys _) hnodup]
    intro k
    rw [foldSet_keys]
    exact ⟨fun h => h.elim id (hsub k), Or.inl⟩
  have := hperm.length_eq
  rw [List.length_map, List.length_map] at this
  show ((List.foldl _ m ws).entries.length : Int) = _
  rw [this]

theorem simulateTrafficData_traffic (s : Storage) (hour unixTime : Int) (now : Time) :
    TrafficService.simulateTrafficData s hour unixTime now =
      { s with
        TrafficData :=
          (TrafficService.trafficWrites hour unixTime now).foldl (fun m w => m.set w.1 w.2)
            s.TrafficData } := by
  rw [simulateTrafficData_eq_writes, updates_eq]

theorem zoneKeys_nodup : TrafficService.zoneKeys.Nodup := by
  decide

theorem simulateTrafficData_len (s : Storage) (hour unixTime : Int) (now : Time)
    (hsub : ∀ k d, s.TrafficData.get k = some d → k ∈ TrafficService.zoneKeys) :
    (TrafficService.simulateTrafficData s hour unixTime now).TrafficData.len = 8 ∧
      ∀ k d, (TrafficService.simulateTrafficData s hour unixTime now).TrafficData.get k =
        some d → k ∈ TrafficService.zoneKeys := by
  have hkeys := trafficWrites_keys hour unixTime now
  rw [simulateTrafficData_traffic]
  constructor
  · show (List.foldl _ s.TrafficData _).len = 8
    rw [foldSet_len _ _ (by rw [hkeys]; exact zoneKeys_nodup)]
    · have : (TrafficService.trafficWrites hour unixTime now).length = 8 := by
        rw [← List.length_map _ Prod.fst, hkeys]
        rfl
      rw [this]
      rfl
    · intro k hk
      obtain ⟨e, he, rfl⟩ := List.mem_map.mp hk
      rw [hkeys]
      exact hsub e.1 e.2 ((GoMap.mem_entries_iff_get _ _ _).mp he)
  · intro k d hk
    have hk' : (List.foldl (fun m w => m.set w.1 w.2) s.TrafficData
        (TrafficService.trafficWrites hour unixTime now)).get k = some d := hk
    have hmem : k ∈ (List.foldl (fun m w => m.set w.1 w.2) s.TrafficData
        (TrafficService.trafficWrites hour unixTime now)).entries.map Prod.fst :=
      List.mem_map.mpr ⟨(k, d), (GoMap.mem_entries_iff_get _ _ _).mpr hk', rfl⟩
    rw [foldSet_keys, hkeys] at hmem
    rcases hmem with h | h
    · exact h
    · obtain ⟨e, he, rfl⟩ := List.mem_map.mp h
      exact hsub e.1 e.2 ((GoMap.mem_entries_iff_get _ _ _).mp he)

theorem no_keys_of_len_zero (s : Storage) (h : s.TrafficData.len = 0) :
    ∀ k d, s.TrafficData.get k = some d → k ∈ TrafficService.zoneKeys := by
  intro k d hk
  have hm := (GoMap.mem_entries_iff_get _ _ _).mpr hk
  have hl : s.TrafficData.entries.length = 0 := by
    have : (s.TrafficData.entries.length : Int) = 0 := h
    exact_mod_cast this
  rw [List.length_eq_zero.mp hl] at hm
  cases hm

/-- C21: one `simulateTrafficData` call makes one `UpdateTrafficData` call
per zone of the 8-entry list, under 8 pairwise distinct keys, the first
being "14.0818,-87.2068"; each sample carries its zone's position, the
speed and congestion computed for its zone index, and the clock. After the
call every written sample is stored under its key and every other key is
as before. On a store without traffic samples the store then holds exactly
8 samples, and on any store whose keys are among the 8 zone keys (such as
the store after a tick) it holds exactly 8 samples under those keys again,
so a further tick keeps the count at 8. Users, reports and both id counters
are unchanged. -/
theorem simulation_tick (s : Storage) (hour unixTime hour' unixTime' : Int) (now now' : Time) :
    (TrafficService.trafficWrites hour unixTime now).map Prod.fst =
        TrafficService.zoneKeys ∧
      TrafficService.zoneKeys.Nodup ∧ TrafficService.zoneKeys.length = 8 ∧
      TrafficService.zoneKeys.head? = some "14.0818,-87.2068" ∧
      TrafficService.locations.length = 8 ∧
      (TrafficService.trafficWrites hour unixTime now).map Prod.snd =
        TrafficService.locations.enum.map
          (fun e =>
            { Lat := e.2.Lat, Lng := e.2.Lng,
              Speed := TrafficService.calculateSpeed e.1 e.2 hour unixTime,
              Congestion :=
                TrafficService.getCongestionLevel
                  (TrafficService.calculateSpeed e.1 e.2 hour unixTime),
              Timestamp := now }) ∧
      (∀ k d, (k, d) ∈ TrafficService.trafficWrites hour unixTime now →
        (TrafficService.simulateTrafficData s hour unixTime now).TrafficData.get k = some d) ∧
      (∀ k, k ∉ TrafficService.zoneKeys →
        (TrafficService.simulateTrafficData s hour unixTime now).TrafficData.get k =
          s.TrafficData.get k) ∧
      (s.TrafficData.len = 0 →
        (TrafficService.simulateTrafficData s hour unixTime now).TrafficData.len = 8) ∧
      ((∀ k d, s.TrafficData.get k = some d → k ∈ TrafficService.zoneKeys) →
        (TrafficService.simulateTrafficData s hour unixTime now).TrafficData.len = 8 ∧
          ∀ k d, (TrafficService.simulateTrafficData s hour unixTime now).TrafficData.get k =
            some d → k ∈ TrafficService.zoneKeys) ∧
      (s.TrafficData.len = 0 →
        (TrafficService.simulateTrafficData
          (TrafficService.simulateTrafficData s hour unixTime now) hour' unixTime'
            now').TrafficData.len = 8) ∧
      (TrafficService.simulateTrafficData s hour unixTime now).Users = s.Users ∧
      (TrafficService.simulateTrafficData s hour unixTime now).Reports = s.Reports ∧
      (TrafficService.simulateTrafficData s hour unixTime now).NextUserID = s.NextUserID ∧
      (TrafficService.simulateTrafficData s hour unixTime now).NextReportID =
        s.NextReportID := by
  have hkeys := trafficWrites_keys hour unixTime now
  have hfold := simulateTrafficData_traffic s hour unixTime now
  refine ⟨hkeys, zoneKeys_nodup, rfl, rfl, rfl, ?_, ?_, ?_, ?_, ?_, ?_, ?_, ?_, ?_, ?_⟩
  · unfold TrafficService.trafficWrites
    rw [List.map_map]
    rfl
  · intro k d hk
    rw [hfold]
    exact foldSet_get_of_mem _ _ k d (by rw [hkeys]; exact zoneKeys_nodup) hk
  · intro k hk
    rw [hfold]
    exact foldSet_get_of_not_mem _ _ k (by rw [hkeys]; exact hk)
  · intro h0
    exact (simulateTrafficData_len s hour unixTime now (no_keys_of_len_zero s h0)).1
  · exact simulateTrafficData_len s hour unixTime now
  · intro h0
    exact (simulateTrafficData_len _ hour' unixTime' now'
      (simulateTrafficData_len s hour unixTime now (no_keys_of_len_zero s h0)).2).1
  · rw [hfold]
  · rw [hfold]
  · rw [hfold]
  · rw [hfold]

/-! ## Keys and ids of the stored records -/

theorem Op.apply_userKeys_ge_one (s : Storage) (op : Op)
    (hs : ∀ k u, s.Users.get k = some u → 1 ≤ k) (h1 : 1 ≤ s.NextUserID) :
    ∀ k u, (op.apply s).Users.get k = some u → 1 ≤ k := by
  cases op with
  | createUser username lat lng now =>
    intro k u hk
    have hk' : (s.Users.set s.NextUserID _).get k = some u := hk
    rw [GoMap.get_set] at hk'
    by_cases hkey : k = s.NextUserID
    · rw [hkey]
      exact h1
    · rw [if_neg hkey] at hk'
      exact hs k u hk'
  | createReport reportType lat lng description userID now => exact hs
  | updateTrafficData key data => exact hs
  | initSampleData now => exact hs
  | cleanup now =>
    intro k u hk
    exact hs k u ((GoMap.get_rangeDeleteIf _ _ _ _).mp hk).1

theorem run_userKeys_ge_one (ops : List Op) (s : Storage)
    (hs : ∀ k u, s.Users.get k = some u → 1 ≤ k) (h1 : 1 ≤ s.NextUserID) :
    ∀ k u, (run s ops).Users.get k = some u → 1 ≤ k := by
  induction ops generalizing s with
  | nil => exact hs
  | cons op ops ih =>
    exact ih (op.apply s) (Op.apply_userKeys_ge_one s op hs h1)
      (le_trans h1 (Op.apply_userCounter s op))

/-- C22: in every store reached from a fresh store by `CreateUser`,
`CreateReport`, `UpdateTrafficData` and `cleanup`, with `InitSampleData`
applied at most once and before any `CreateReport`, every key of the user
map is at least 1 and below the next user id and is the id of the record
stored under it, and likewise every key of the report map is at least 1,
below the next report id, and the id of its record. -/
theorem store_keys_invariant (ops : List Op) (h : seededBeforeReports ops = true) :
    (∀ k u, (run NewStorage ops).Users.get k = some u →
        1 ≤ k ∧ k < (run NewStorage ops).NextUserID ∧ u.ID = k) ∧
      (∀ k r, (run NewStorage ops).Reports.get k = some r →
        1 ≤ k ∧ k < (run NewStorage ops).NextReportID ∧ r.ID = k) := by
  have hempty : ∀ k u, NewStorage.Users.get k = some u → False := by
    intro k u hk
    rw [show NewStorage.Users = GoMap.empty from rfl, GoMap.get_empty] at hk
    cases hk
  refine ⟨?_, reportKeys_of_seeded_run ops h⟩
  intro k u hk
  exact ⟨run_userKeys_ge_one ops NewStorage (fun k u hk => (hempty k u hk).elim)
      (le_refl _) k u hk,
    (run_userKeys ops NewStorage (fun k u hk => (hempty k u hk).elim)).1 k u hk,
    run_userRecordIDs ops NewStorage (fun k u hk => (hempty k u hk).elim) k u hk⟩

theorem store_keys_invariant_witness :
    seededBeforeReports [.createUser "ana" (.finite 14) (.finite (-87)) 0, .initSampleData 5,
        sampleCreateReport, .cleanup 9] = true ∧
      (∀ k r, (run NewStorage [.createUser "ana" (.finite 14) (.finite (-87)) 0,
          .initSampleData 5, sampleCreateReport, .cleanup 9]).Reports.get k = some r →
        1 ≤ k ∧ k < (run NewStorage [.createUser "ana" (.finite 14) (.finite (-87)) 0,
          .initSampleData 5, sampleCreateReport, .cleanup 9]).NextReportID ∧ r.ID = k) :=
  ⟨by decide,
    (store_keys_invariant [.createUser "ana" (.finite 14) (.finite (-87)) 0, .initSampleData 5,
      sampleCreateReport, .cleanup 9] (by decide)).2⟩

/-! ## The two expiry boundaries of reports -/

theorem cleanup_reports_entries (s : Storage) (now : Time) :
    (s.cleanup now).Reports.entries =
      s.Reports.entries.filter (fun e => decide (now - e.2.CreatedAt ≤ 24 * Hour)) := by
  show (s.Reports.rangeDeleteIf _).entries = _
  rw [GoMap.rangeDeleteIf_entries]
  apply List.filter_congr
  intro e _
  have := expired_false_iff now e.2.CreatedAt (24 * Hour) day_bounds.1 (le_of_lt day_bounds.2)
  by_cases h : now - e.2.CreatedAt ≤ 24 * Hour
  · rw [decide_eq_true h, this.mpr h]
    rfl
  · rw [decide_eq_false h]
    cases hd : decide (Since now e.2.CreatedAt > 24 * Hour) with
    | false => exact absurd (this.mp hd) h
    | true => rfl

/-- C23: for every store and time, every report `GetRecentReports` returns
at that time is still stored after `cleanup` at that time; a report that is
stored after `cleanup` is missing from the recent reports exactly if it was
created exactly 24 hours before; the recent reports are the same before and
after the `cleanup`; so after a `cleanup` the report count of `GetStats` is
the number of recent reports plus the number of stored reports aged exactly
24 hours. -/
theorem expiry_boundaries (s : Storage) (now : Time) :
    (∀ r ∈ (s.GetRecentReports now).1, ∃ k, (s.cleanup now).Reports.get k = some r) ∧
      (∀ k r, (s.cleanup now).Reports.get k = some r →
        (r ∉ (s.GetRecentReports now).1 ↔ now - r.CreatedAt = 24 * Hour)) ∧
      ((s.cleanup now).GetRecentReports now).1 = (s.GetRecentReports now).1 ∧
      (s.cleanup now).GetStats.1.2.1 =
        (((s.cleanup now).GetRecentReports now).1.length : Int) +
          (((s.cleanup now).Reports.entries.filter
            (fun e => decide (now - e.2.CreatedAt = 24 * Hour))).length : Int) := by
  have hget : ∀ k r, (s.cleanup now).Reports.get k = some r ↔
      s.Reports.get k = some r ∧ now - r.CreatedAt ≤ 24 * Hour := by
    intro k r
    rw [← GoMap.mem_entries_iff_get, ← GoMap.mem_entries_iff_get, cleanup_reports_entries,
      List.mem_filter]
    simp
  refine ⟨?_, ?_, ?_, ?_⟩
  · intro r hr
    obtain ⟨⟨k, hk⟩, hlt⟩ := (mem_GetRecentReports s now r).mp hr
    exact ⟨k, (hget k r).mpr ⟨hk, le_of_lt hlt⟩⟩
  · intro k r hk
    obtain ⟨hstored, hle⟩ := (hget k r).mp hk
    rw [mem_GetRecentReports]
    constructor
    · intro hnot
      have : ¬ now - r.CreatedAt < 24 * Hour := fun hlt => hnot ⟨⟨k, hstored⟩, hlt⟩
      exact le_antisymm hle (not_lt.mp this)
    · intro heq hmem
      exact absurd hmem.2 (by rw [heq]; exact lt_irrefl _)
  · rw [GetRecentReports_eq, GetRecentReports_eq, cleanup_reports_entries, List.filter_filter]
    congr 1
    apply List.filter_congr
    intro e _
    by_cases h : now - e.2.CreatedAt < 24 * Hour
    · simp [h, le_of_lt h]
    · simp [h]
  · show ((s.cleanup now).Reports.entries.length : Int) = _
    rw [GetRecentReports_eq, List.length_map,
      List.length_eq_countP_add_countP
        (fun e : Int × Report => decide (now - e.2.CreatedAt < 24 * Hour))
        (s.cleanup now).Reports.entries,
      List.countP_eq_length_filter, List.countP_eq_length_filter]
    push_cast
    congr 3
    apply List.filter_congr
    intro e he
    have hle : now - e.2.CreatedAt ≤ 24 * Hour := by
      rw [cleanup_reports_entries] at he
      simpa using (List.mem_filter.mp he).2
    by_cases h : now - e.2.CreatedAt < 24 * Hour
    · simp [h, ne_of_lt h]
    · have heq : now - e.2.CreatedAt = 24 * Hour := le_antisymm hle (not_lt.mp h)
      simp [heq]

/-! ## The range of the perturbation -/

theorem tmod_twenty_bounds (a : Int) :
    -19 ≤ Int.tmod a 20 ∧ Int.tmod a 20 ≤ 19 ∧ (0 ≤ a → 0 ≤ Int.tmod a 20) ∧
      (Int.tmod a 20 < 0 → a < 0) := by
  cases a with
  | ofNat n =>
    have h : Int.tmod (Int.ofNat n) 20 = ((n % 20 : Nat) : Int) := rfl
    rw [h]
    have := Nat.mod_lt n (by decide : 0 < 20)
    refine ⟨by omega, by omega, fun _ => by omega, fun hneg => by omega⟩
  | negSucc n =>
    have h : Int.tmod (Int.negSucc n) 20 = -(((n + 1) % 20 : Nat) : Int) := rfl
    rw [h]
    have := Nat.mod_lt (n + 1) (by decide : 0 < 20)
    refine ⟨by omega, by omega, fun hpos => ?_, fun _ => Int.negSucc_lt_zero n⟩
    exact absurd hpos (not_le.mpr (Int.negSucc_lt_zero n))

theorem unclamped_speed (locationIndex hour unixTime : Int) :
    ∃ b v : Int,
      TrafficService.baseSpeed hour = .finite (b : ℚ) ∧
        TrafficService.locationVariation locationIndex unixTime = .finite (v : ℚ) ∧
        Float64.add (TrafficService.baseSpeed hour)
            (TrafficService.locationVariation locationIndex unixTime) =
          .finite ((b + v : Int) : ℚ) ∧
        (b = 25 ∨ b = 45 ∨ b = 55) ∧
        v = Int.tmod (wrapInt64 (wrapInt64 (locationIndex * 7) + unixTime)) 20 - 10 := by
  refine ⟨_, _, baseSpeed_cases hour, rfl, ?_, ?_, rfl⟩
  · rw [baseSpeed_cases]
    simp [TrafficService.locationVariation, Float64.ofInt, Float64.add]
  · split_ifs
    · exact Or.inl rfl
    · exact Or.inr (Or.inr rfl)
    · exact Or.inr (Or.inl rfl)

theorem Float64.lt_int (x y : Int) :
    Float64.lt (.finite (x : ℚ)) (.finite (y : ℚ)) = decide (x < y) := by
  simp only [Float64.lt]
  exact decide_eq_decide.mpr (by exact_mod_cast Iff.rfl)

/-- C24, as amended: for every non-negative zone index, hour in 0..23 and
non-negative unix time whose sum `locationIndex*7 + unixTime` fits the
64-bit `int` (is below `2^63`) the perturbation lies in [-10, 9] and the
unclamped speed in [15, 64], so neither clamp test (`speed < 5`,
`speed > 70`) succeeds and the speed returned is the unclamped one. For
arbitrary integers the perturbation lies in [-29, 9]; it is below -10 only
when the 64-bit sum is negative, where Go's truncated remainder is negative,
and the 64-bit sum is negative only when `locationIndex*7 + unixTime` is
negative or has overflowed; -29 is reached (sum -19); the lower clamp test
succeeds only for a negative 64-bit sum, and does at hour 8 with sum -19;
the upper clamp test never succeeds. -/
theorem perturbation_range (locationIndex hour unixTime : Int) (loc : Location)
    (hidx : 0 ≤ locationIndex) (hhour : 0 ≤ hour ∧ hour ≤ 23) (hunix : 0 ≤ unixTime)
    (hfit : locationIndex * 7 + unixTime < 9223372036854775808) :
    (∃ v : Int, TrafficService.locationVariation locationIndex unixTime = .finite (v : ℚ) ∧
        -10 ≤ v ∧ v ≤ 9) ∧
      (∃ x : Int,
        Float64.add (TrafficService.baseSpeed hour)
            (TrafficService.locationVariation locationIndex unixTime) = .finite (x : ℚ) ∧
          15 ≤ x ∧ x ≤ 64) ∧
      Float64.lt
          (Float64.add (TrafficService.baseSpeed hour)
            (TrafficService.locationVariation locationIndex unixTime)) (.finite 5) = false ∧
      Float64.gt
          (Float64.add (TrafficService.baseSpeed hour)
            (TrafficService.locationVariation locationIndex unixTime)) (.finite 70) = false ∧
      TrafficService.calculateSpeed locationIndex loc hour unixTime =
        Float64.add (TrafficService.baseSpeed hour)
          (TrafficService.locationVariation locationIndex unixTime) ∧
      (∀ i u : Int, ∃ v : Int,
        TrafficService.locationVariation i u = .finite (v : ℚ) ∧ -29 ≤ v ∧ v ≤ 9 ∧
          (v < -10 →
            wrapInt64 (wrapInt64 (i * 7) + u) < 0 ∧
              (i * 7 + u < 0 ∨ 9223372036854775808 ≤ i * 7 + u))) ∧
      TrafficService.locationVariation 0 (-19) = .finite (-29) ∧
      (∀ i h u : Int,
        Float64.lt
            (Float64.add (TrafficService.baseSpeed h) (TrafficService.locationVariation i u))
            (.finite 5) = true →
          wrapInt64 (wrapInt64 (i * 7) + u) < 0 ∧
            (i * 7 + u < 0 ∨ 9223372036854775808 ≤ i * 7 + u)) ∧
      Float64.lt
          (Float64.add (TrafficService.baseSpeed 8) (TrafficService.locationVariation 0 (-19)))
          (.finite 5) = true ∧
      TrafficService.calculateSpeed 0 loc 8 (-19) = .finite 5 ∧
      (∀ i h u : Int,
        Float64.gt
            (Float64.add (TrafficService.baseSpeed h) (TrafficService.locationVariation i u))
            (.finite 70) = false) := by
  have _ := hhour
  have h5 : ((5 : Int) : ℚ) = 5 := by norm_num
  have h70 : ((70 : Int) : ℚ) = 70 := by norm_num
  obtain ⟨b, v, hb, hv, hadd, hbase, hvdef⟩ := unclamped_speed locationIndex hour unixTime
  have hw : wrapInt64 (wrapInt64 (locationIndex * 7) + unixTime) =
      locationIndex * 7 + unixTime := by
    rw [wrapInt64_sum]
    exact wrapInt64_of_fits _ (by omega) hfit
  rw [hw] at hvdef
  obtain ⟨t1, t2, t3, _⟩ := tmod_twenty_bounds (locationIndex * 7 + unixTime)
  have hsum : 0 ≤ locationIndex * 7 + unixTime := by omega
  have ht := t3 hsum
  have hneg : ∀ i u : Int, wrapInt64 (wrapInt64 (i * 7) + u) < 0 →
      i * 7 + u < 0 ∨ 9223372036854775808 ≤ i * 7 + u := by
    intro i u h
    rw [wrapInt64_sum] at h
    exact wrapInt64_neg _ h
  have hlt : Float64.lt (Float64.add (TrafficService.baseSpeed hour)
      (TrafficService.locationVariation locationIndex unixTime)) (.finite 5) = false := by
    rw [hadd, ← h5, Float64.lt_int]
    exact decide_eq_false (by omega)
  have hgt : Float64.gt (Float64.add (TrafficService.baseSpeed hour)
      (TrafficService.locationVariation locationIndex unixTime)) (.finite 70) = false := by
    unfold Float64.gt
    rw [hadd, ← h70, Float64.lt_int]
    exact decide_eq_false (by omega)
  have hb8 : TrafficService.baseSpeed 8 = .finite ((25 : Int) : ℚ) := by
    rw [baseSpeed_cases]
    rfl
  have hv19 : TrafficService.locationVariation 0 (-19) = .finite ((-29 : Int) : ℚ) := rfl
  refine ⟨⟨v, hv, by omega, by omega⟩, ⟨b + v, hadd, by omega, by omega⟩, hlt, hgt, ?_, ?_, ?_,
    ?_, ?_, ?_, ?_⟩
  · unfold TrafficService.calculateSpeed
    simp only [hlt, Bool.false_eq_true, if_false, hgt]
  · intro i u
    obtain ⟨_, v', _, hv', _, _, hvdef'⟩ := unclamped_speed i 0 u
    obtain ⟨s1, s2, _, s4⟩ := tmod_twenty_bounds (wrapInt64 (wrapInt64 (i * 7) + u))
    refine ⟨v', hv', by omega, by omega, fun hlow => ?_⟩
    have hs : wrapInt64 (wrapInt64 (i * 7) + u) < 0 := s4 (by omega)
    exact ⟨hs, hneg i u hs⟩
  · rw [hv19]
    norm_num
  · intro i h u hclamp
    obtain ⟨b', v', _, _, hadd', hbase', hvdef'⟩ := unclamped_speed i h u
    obtain ⟨_, _, _, s4⟩ := tmod_twenty_bounds (wrapInt64 (wrapInt64 (i * 7) + u))
    rw [hadd', ← h5, Float64.lt_int] at hclamp
    have := of_decide_eq_true hclamp
    have hs : wrapInt64 (wrapInt64 (i * 7) + u) < 0 := s4 (by omega)
    exact ⟨hs, hneg i u hs⟩
  · rw [hb8, hv19]
    have : Float64.add (.finite ((25 : Int) : ℚ)) (.finite ((-29 : Int) : ℚ)) =
        .finite (((-4 : Int)) : ℚ) := by
      simp [Float64.add]
      norm_num
    rw [this, ← h5, Float64.lt_int]
    rfl
  · have := calculateSpeed_of_int 0 loc 8 (-19) 25 (-29) hb8 hv19
    rw [this]
    norm_num
  · intro i h u
    obtain ⟨b', v', _, _, hadd', hbase', hvdef'⟩ := unclamped_speed i h u
    obtain ⟨_, s2, _, _⟩ := tmod_twenty_bounds (wrapInt64 (wrapInt64 (i * 7) + u))
    unfold Float64.gt
    rw [hadd', ← h70, Float64.lt_int]
    exact decide_eq_false (by omega)

theorem perturbation_range_witness :
    ((0 : Int) ≤ 3 ∧ ((0 : Int) ≤ 12 ∧ (12 : Int) ≤ 23) ∧ (0 : Int) ≤ 1700000000 ∧
        (3 : Int) * 7 + 1700000000 < 9223372036854775808) ∧
      TrafficService.calculateSpeed 3 ⟨.finite 14, .finite (-87)⟩ 12 1700000000 =
        Float64.add (TrafficService.baseSpeed 12)
          (TrafficService.locationVariation 3 1700000000) :=
  ⟨by decide,
    (perturbation_range 3 12 1700000000 ⟨.finite 14, .finite (-87)⟩ (by decide) (by decide)
      (by decide) (by decide)).2.2.2.2.1⟩

/-- C24, as stated, fails: the zone index 1317624576693539411, the hour 8
and the unix time 0 are non-negative and the hour is in 0..23, but the
product `locationIndex*7` is `2^63 + 69` and overflows the 64-bit `int`: the
64-bit sum is `-2^63 + 69`, its truncated remainder by 20 is -19, the
perturbation is -29, below -10, the unclamped speed is -4, the lower clamp
test succeeds and the speed returned is 5. -/
theorem perturbation_range_overflow :
    (0 : Int) ≤ 1317624576693539411 ∧ ((0 : Int) ≤ 8 ∧ (8 : Int) ≤ 23) ∧ (0 : Int) ≤ 0 ∧
      (1317624576693539411 : Int) * 7 + 0 = 9223372036854775808 + 69 ∧
      wrapInt64 (wrapInt64 (1317624576693539411 * 7) + 0) = -9223372036854775808 + 69 ∧
      TrafficService.locationVariation 1317624576693539411 0 = .finite (-29) ∧
      Float64.add (TrafficService.baseSpeed 8)
          (TrafficService.locationVariation 1317624576693539411 0) = .finite (-4) ∧
      Float64.lt
          (Float64.add (TrafficService.baseSpeed 8)
            (TrafficService.locationVariation 1317624576693539411 0)) (.finite 5) = true ∧
      TrafficService.calculateSpeed 1317624576693539411 ⟨.finite 14, .finite (-87)⟩ 8 0 =
        .finite 5 := by
  have hb8 : TrafficService.baseSpeed 8 = .finite ((25 : Int) : ℚ) := by
    rw [baseSpeed_cases]
    rfl
  have hv : TrafficService.locationVariation 1317624576693539411 0 =
      .finite ((-29 : Int) : ℚ) := rfl
  have hadd : Float64.add (TrafficService.baseSpeed 8)
      (TrafficService.locationVariation 1317624576693539411 0) = .finite ((-4 : Int) : ℚ) := by
    rw [hb8, hv]
    simp [Float64.add]
    norm_num
  have hs := calculateSpeed_of_int 1317624576693539411 ⟨.finite 14, .finite (-87)⟩ 8 0 25 (-29)
    hb8 hv
  have h5 : ((5 : Int) : ℚ) = 5 := by norm_num
  refine ⟨by decide, by decide, by decide, by decide, by decide, by rw [hv]; norm_num,
    by rw [hadd]; norm_num, ?_, by rw [hs]; norm_num⟩
  rw [hadd, ← h5, Float64.lt_int]
  rfl

/-! ## Rounding to `float64`: bounds -/

theorem roundHalfEven_floor (y : ℚ) (hy : 0 ≤ y) :
    ((⌊y⌋.toNat : Nat) : ℚ) ≤ y ∧ y < ((⌊y⌋.toNat : Nat) : ℚ) + 1 ∧
      (roundHalfEven y = ⌊y⌋.toNat ∨
        (roundHalfEven y = ⌊y⌋.toNat + 1 ∧ ((⌊y⌋.toNat : Nat) : ℚ) + 1 / 2 ≤ y)) := by
  have hfl : 0 ≤ ⌊y⌋ := Int.floor_nonneg.mpr hy
  have hcast : ((⌊y⌋.toNat : Nat) : ℚ) = ((⌊y⌋ : Int) : ℚ) := by
    have : ((⌊y⌋.toNat : Nat) : Int) = ⌊y⌋ := Int.toNat_of_nonneg hfl
    exact_mod_cast congrArg (fun z : Int => (z : ℚ)) this
  refine ⟨by rw [hcast]; exact Int.floor_le y, by rw [hcast]; exact Int.lt_floor_add_one y, ?_⟩
  unfold roundHalfEven
  simp only
  split_ifs with h1 h2 h3
  · exact Or.inl rfl
  · exact Or.inr ⟨rfl, by linarith⟩
  · exact Or.inl rfl
  · exact Or.inr ⟨rfl, by linarith⟩

theorem roundHalfEven_le (y : ℚ) (n : Nat) (hy : 0 ≤ y) (h : y ≤ n) : roundHalfEven y ≤ n := by
  obtain ⟨h1, h2, h3⟩ := roundHalfEven_floor y hy
  rcases h3 with h3 | ⟨h3, h4⟩
  · rw [h3]
    have : ((⌊y⌋.toNat : Nat) : ℚ) ≤ n := le_trans h1 h
    exact_mod_cast this
  · rw [h3]
    have : ((⌊y⌋.toNat : Nat) : ℚ) < n := by linarith
    have : ⌊y⌋.toNat < n := by exact_mod_cast this
    omega

theorem roundHalfEven_ge (y : ℚ) (n : Nat) (hy : 0 ≤ y) (h : (n : ℚ) ≤ y) :
    n ≤ roundHalfEven y := by
  obtain ⟨h1, h2, h3⟩ := roundHalfEven_floor y hy
  have hn : n ≤ ⌊y⌋.toNat := by
    have : (n : ℚ) < ((⌊y⌋.toNat : Nat) : ℚ) + 1 := lt_of_le_of_lt h h2
    have : (n : ℚ) < ((⌊y⌋.toNat + 1 : Nat) : ℚ) := by push_cast; exact this
    have : n < ⌊y⌋.toNat + 1 := by exact_mod_cast this
    omega
  rcases h3 with h3 | ⟨h3, _⟩ <;> rw [h3] <;> omega

theorem roundHalfEven_lt (y : ℚ) (n : Nat) (hy : 0 ≤ y) (h : y + 1 / 2 < n) :
    roundHalfEven y < n := by
  obtain ⟨h1, h2, h3⟩ := roundHalfEven_floor y hy
  rcases h3 with h3 | ⟨h3, h4⟩
  · rw [h3]
    have : ((⌊y⌋.toNat : Nat) : ℚ) < n := by linarith
    exact_mod_cast this
  · rw [h3]
    have : ((⌊y⌋.toNat + 1 : Nat) : ℚ) < n := by push_cast; linarith
    exact_mod_cast this

theorem two_zpow_pos (a : Int) : (0 : ℚ) < (2 : ℚ) ^ a :=
  zpow_pos (by norm_num) a

theorem two_zpow_mono {a b : Int} (h : a ≤ b) : (2 : ℚ) ^ a ≤ (2 : ℚ) ^ b :=
  (zpow_le_zpow_iff_right₀ (by norm_num : (1 : ℚ) < 2)).mpr h

theorem two_zpow_split (e : Int) (n : Nat) :
    ((2 : ℚ) ^ n) * (2 : ℚ) ^ (e - n) = (2 : ℚ) ^ e := by
  rw [← zpow_natCast, ← zpow_add₀ (by norm_num : (2 : ℚ) ≠ 0)]
  congr 1
  omega

theorem log_two_eq (x : ℚ) (e : Int) (h1 : (2 : ℚ) ^ e ≤ x) (h2 : x < (2 : ℚ) ^ (e + 1)) :
    Int.log 2 x = e := by
  have hx : 0 < x := lt_of_lt_of_le (two_zpow_pos e) h1
  have ha : e ≤ Int.log 2 x :=
    (Int.zpow_le_iff_le_log (R := ℚ) (b := 2) (by norm_num) hx (x := e)).mp (by simpa using h1)
  have hb : Int.log 2 x < e + 1 :=
    (Int.lt_zpow_iff_log_lt (R := ℚ) (b := 2) (by norm_num) hx (x := e + 1)).mp
      (by simpa using h2)
  omega

theorem exponent_facts (x : ℚ) (hx : 0 < x) :
    -1022 ≤ Float64.exponent x ∧ Int.log 2 x ≤ Float64.exponent x ∧
      0 < Float64.ulp x ∧ x / Float64.ulp x < (2 : ℚ) ^ (53 : Nat) ∧ 0 ≤ x / Float64.ulp x ∧
      (-1022 ≤ Int.log 2 x →
        Float64.exponent x = Int.log 2 x ∧ (2 : ℚ) ^ (52 : Nat) ≤ x / Float64.ulp x) := by
  have hu : 0 < Float64.ulp x := two_zpow_pos _
  have hlog : Int.log 2 x ≤ Float64.exponent x := le_max_left _ _
  refine ⟨le_max_right _ _, hlog, hu, ?_, le_of_lt (div_pos hx hu), ?_⟩
  · rw [div_lt_iff₀ hu]
    have h1 : x < (2 : ℚ) ^ (Int.log 2 x + 1) := by
      simpa using Int.lt_zpow_succ_log_self (R := ℚ) (b := 2) (by norm_num) x
    have h2 : (2 : ℚ) ^ (Int.log 2 x + 1) ≤ (2 : ℚ) ^ (Float64.exponent x + 1) :=
      two_zpow_mono (by omega)
    have h3 : (2 : ℚ) ^ (53 : Nat) * Float64.ulp x = (2 : ℚ) ^ (Float64.exponent x + 1) := by
      unfold Float64.ulp
      rw [← zpow_natCast, ← zpow_add₀ (by norm_num : (2 : ℚ) ≠ 0)]
      congr 1
      push_cast
      omega
    rw [h3]
    exact lt_of_lt_of_le h1 h2
  · intro hn
    have he : Float64.exponent x = Int.log 2 x := max_eq_left hn
    refine ⟨he, ?_⟩
    rw [le_div_iff₀ hu]
    have h1 : (2 : ℚ) ^ Int.log 2 x ≤ x := by
      simpa using Int.zpow_log_le_self (R := ℚ) (b := 2) (by norm_num) hx
    have h3 : (2 : ℚ) ^ (52 : Nat) * Float64.ulp x = (2 : ℚ) ^ Int.log 2 x := by
      unfold Float64.ulp
      rw [he, ← zpow_natCast, ← zpow_add₀ (by norm_num : (2 : ℚ) ≠ 0)]
      congr 1
      push_cast
      omega
    rw [h3]
    exact h1

theorem roundPos_le_pow (x : ℚ) (hx : 0 < x) :
    Float64.roundPos x ≤ (2 : ℚ) ^ (Float64.exponent x + 1) := by
  obtain ⟨_, _, hu, hlt, hnn, _⟩ := exponent_facts x hx
  have hr : roundHalfEven (x / Float64.ulp x) ≤ 2 ^ 53 :=
    roundHalfEven_le _ (2 ^ 53) hnn (by push_cast; exact le_of_lt hlt)
  have hr' : (roundHalfEven (x / Float64.ulp x) : ℚ) ≤ (2 : ℚ) ^ (53 : Nat) := by
    exact_mod_cast hr
  have h3 : (2 : ℚ) ^ (53 : Nat) * Float64.ulp x = (2 : ℚ) ^ (Float64.exponent x + 1) := by
    unfold Float64.ulp
    rw [← zpow_natCast, ← zpow_add₀ (by norm_num : (2 : ℚ) ≠ 0)]
    congr 1
    push_cast
    omega
  unfold Float64.roundPos
  rw [← h3]
  exact mul_le_mul_of_nonneg_right hr' (le_of_lt hu)

theorem roundPos_ge_pow (x : ℚ) (hx : 0 < x) (hn : -1022 ≤ Int.log 2 x) :
    (2 : ℚ) ^ Float64.exponent x ≤ Float64.roundPos x := by
  obtain ⟨_, _, hu, _, hnn, h⟩ := exponent_facts x hx
  obtain ⟨he, hge⟩ := h hn
  have hr : 2 ^ 52 ≤ roundHalfEven (x / Float64.ulp x) :=
    roundHalfEven_ge _ (2 ^ 52) hnn (by push_cast; exact hge)
  have hr' : (2 : ℚ) ^ (52 : Nat) ≤ (roundHalfEven (x / Float64.ulp x) : ℚ) := by
    exact_mod_cast hr
  have h3 : (2 : ℚ) ^ (52 : Nat) * Float64.ulp x = (2 : ℚ) ^ Float64.exponent x := by
    unfold Float64.ulp
    rw [← zpow_natCast, ← zpow_add₀ (by norm_num : (2 : ℚ) ≠ 0)]
    congr 1
    push_cast
    omega
  unfold Float64.roundPos
  rw [← h3]
  exact mul_le_mul_of_nonneg_right hr' (le_of_lt hu)

/-- A normal `float64` value: `m` times two to the `e - 52`, with a 53-bit
significand `m`. Its exponent is `e`. -/
theorem exponent_of_normal (c : ℚ) (m : Nat) (e : Int) (he : -1022 ≤ e)
    (hm1 : 2 ^ 52 ≤ m) (hm2 : m < 2 ^ 53) (hc : c = m * (2 : ℚ) ^ (e - 52)) :
    0 < c ∧ Int.log 2 c = e ∧ Float64.exponent c = e ∧ Float64.ulp c = (2 : ℚ) ^ (e - 52) ∧
      (2 : ℚ) ^ e ≤ c ∧ c < (2 : ℚ) ^ (e + 1) := by
  have hu : (0 : ℚ) < (2 : ℚ) ^ (e - 52) := two_zpow_pos _
  have h52 : (2 : ℚ) ^ (52 : Nat) * (2 : ℚ) ^ (e - 52) = (2 : ℚ) ^ e := by
    have := two_zpow_split e 52
    simpa using this
  have h53 : (2 : ℚ) ^ (53 : Nat) * (2 : ℚ) ^ (e - 52) = (2 : ℚ) ^ (e + 1) := by
    rw [← zpow_natCast, ← zpow_add₀ (by norm_num : (2 : ℚ) ≠ 0)]
    congr 1
    push_cast
    omega
  have hlo : (2 : ℚ) ^ e ≤ c := by
    rw [hc, ← h52]
    exact mul_le_mul_of_nonneg_right (by exact_mod_cast hm1) (le_of_lt hu)
  have hhi : c < (2 : ℚ) ^ (e + 1) := by
    rw [hc, ← h53]
    exact mul_lt_mul_of_pos_right (by exact_mod_cast hm2) hu
  have hlog := log_two_eq c e hlo hhi
  have hexp : Float64.exponent c = e := by
    unfold Float64.exponent
    rw [hlog]
    exact max_eq_left he
  refine ⟨lt_of_lt_of_le (two_zpow_pos e) hlo, hlog, hexp, ?_, hlo, hhi⟩
  unfold Float64.ulp
  rw [hexp]

theorem exponent_le_of_le (x c : ℚ) (m : Nat) (e : Int) (he : -1022 ≤ e)
    (hm1 : 2 ^ 52 ≤ m) (hm2 : m < 2 ^ 53) (hc : c = m * (2 : ℚ) ^ (e - 52)) (hx : 0 < x)
    (hxc : x ≤ c) : Float64.exponent x ≤ e := by
  obtain ⟨_, hlog, _, _, _, _⟩ := exponent_of_normal c m e he hm1 hm2 hc
  have := Int.log_mono_right (b := 2) hx hxc
  rw [hlog] at this
  exact max_le this he

theorem roundPos_le_low (x : ℚ) (e : Int) (hx : 0 < x) (hE : Float64.exponent x < e) :
    Float64.roundPos x ≤ (2 : ℚ) ^ e :=
  le_trans (roundPos_le_pow x hx) (two_zpow_mono (by omega))

theorem roundPos_le_of_le (x c : ℚ) (m : Nat) (e : Int) (he : -1022 ≤ e)
    (hm1 : 2 ^ 52 ≤ m) (hm2 : m < 2 ^ 53) (hc : c = m * (2 : ℚ) ^ (e - 52)) (hx : 0 < x)
    (hxc : x ≤ c) : Float64.roundPos x ≤ c := by
  obtain ⟨_, _, _, _, hlo, _⟩ := exponent_of_normal c m e he hm1 hm2 hc
  have hle := exponent_le_of_le x c m e he hm1 hm2 hc hx hxc
  by_cases hE : Float64.exponent x = e
  · have hu : Float64.ulp x = (2 : ℚ) ^ (e - 52) := by
      unfold Float64.ulp
      rw [hE]
    have hupos : (0 : ℚ) < (2 : ℚ) ^ (e - 52) := two_zpow_pos _
    have hr : roundHalfEven (x / Float64.ulp x) ≤ m := by
      apply roundHalfEven_le _ m (le_of_lt (div_pos hx (by rw [hu]; exact hupos)))
      rw [hu, div_le_iff₀ hupos, ← hc]
      exact hxc
    unfold Float64.roundPos
    rw [hc, ← hu]
    exact mul_le_mul_of_nonneg_right (by exact_mod_cast hr) (by rw [hu]; exact le_of_lt hupos)
  · exact le_trans (roundPos_le_low x e hx (lt_of_le_of_ne hle hE)) hlo

theorem roundPos_ge_of_ge (x c : ℚ) (m : Nat) (e : Int) (he : -1022 ≤ e)
    (hm1 : 2 ^ 52 ≤ m) (hm2 : m < 2 ^ 53) (hc : c = m * (2 : ℚ) ^ (e - 52)) (hcx : c ≤ x) :
    c ≤ Float64.roundPos x := by
  obtain ⟨hcpos, hlog, _, _, _, hhi⟩ := exponent_of_normal c m e he hm1 hm2 hc
  have hx : 0 < x := lt_of_lt_of_le hcpos hcx
  have hmono := Int.log_mono_right (b := 2) hcpos hcx
  rw [hlog] at hmono
  obtain ⟨_, _, hupos, _, hnn, h⟩ := exponent_facts x hx
  obtain ⟨hEx, _⟩ := h (by omega)
  by_cases hE : Float64.exponent x = e
  · have hu : Float64.ulp x = (2 : ℚ) ^ (e - 52) := by
      unfold Float64.ulp
      rw [hE]
    have hr : m ≤ roundHalfEven (x / Float64.ulp x) := by
      apply roundHalfEven_ge _ m hnn
      rw [le_div_iff₀ hupos, hu, ← hc]
      exact hcx
    unfold Float64.roundPos
    rw [hc, ← hu]
    exact mul_le_mul_of_nonneg_right (by exact_mod_cast hr) (le_of_lt hupos)
  · have hgt : e + 1 ≤ Float64.exponent x := by
      rw [hEx] at hE ⊢
      omega
    exact le_trans (le_of_lt hhi)
      (le_trans (two_zpow_mono hgt) (roundPos_ge_pow x hx (by omega)))

theorem pred_ge_pow (c : ℚ) (m : Nat) (e : Int) (hm : 2 ^ 52 < m)
    (hc : c = m * (2 : ℚ) ^ (e - 52)) : (2 : ℚ) ^ e ≤ c - (2 : ℚ) ^ (e - 52) := by
  have hupos : (0 : ℚ) < (2 : ℚ) ^ (e - 52) := two_zpow_pos _
  have h52 : (2 : ℚ) ^ (52 : Nat) * (2 : ℚ) ^ (e - 52) = (2 : ℚ) ^ e := by
    have := two_zpow_split e 52
    simpa using this
  have hm' : (2 : ℚ) ^ (52 : Nat) ≤ (m : ℚ) - 1 := by
    have : 2 ^ 52 + 1 ≤ m := hm
    have : ((2 ^ 52 + 1 : Nat) : ℚ) ≤ (m : ℚ) := by exact_mod_cast this
    push_cast at this
    linarith
  rw [hc, ← h52]
  have := mul_le_mul_of_nonneg_right hm' (le_of_lt hupos)
  linarith

/-- A rounded value below a normal `float64` value that is not a power of
two is at most the `float64` value before it. -/
theorem roundPos_lt_normal (x c : ℚ) (m : Nat) (e : Int) (he : -1022 ≤ e)
    (hm1 : 2 ^ 52 < m) (hm2 : m < 2 ^ 53) (hc : c = m * (2 : ℚ) ^ (e - 52)) (hx : 0 < x)
    (h : Float64.roundPos x < c) : Float64.roundPos x ≤ c - (2 : ℚ) ^ (e - 52) := by
  have hxc : x ≤ c := by
    by_contra hnot
    exact absurd (roundPos_ge_of_ge x c m e he (le_of_lt hm1) hm2 hc (le_of_lt (not_le.mp hnot)))
      (not_le.mpr h)
  have hle := exponent_le_of_le x c m e he (le_of_lt hm1) hm2 hc hx hxc
  by_cases hE : Float64.exponent x = e
  · have hu : Float64.ulp x = (2 : ℚ) ^ (e - 52) := by
      unfold Float64.ulp
      rw [hE]
    have hupos : (0 : ℚ) < (2 : ℚ) ^ (e - 52) := two_zpow_pos _
    have hr : roundHalfEven (x / Float64.ulp x) < m := by
      have h' : (roundHalfEven (x / Float64.ulp x) : ℚ) * Float64.ulp x <
          (m : ℚ) * Float64.ulp x := by
        have := h
        unfold Float64.roundPos at this
        rw [hc, ← hu] at this
        exact this
      have := lt_of_mul_lt_mul_right h' (by rw [hu]; exact le_of_lt hupos)
      exact_mod_cast this
    have hr' : (roundHalfEven (x / Float64.ulp x) : ℚ) ≤ (m : ℚ) - 1 := by
      have : roundHalfEven (x / Float64.ulp x) + 1 ≤ m := hr
      have : ((roundHalfEven (x / Float64.ulp x) + 1 : Nat) : ℚ) ≤ (m : ℚ) := by
        exact_mod_cast this
      push_cast at this
      linarith
    have hupos' : (0 : ℚ) ≤ Float64.ulp x := by
      rw [hu]
      exact le_of_lt hupos
    unfold Float64.roundPos
    rw [hc, ← hu]
    have := mul_le_mul_of_nonneg_right hr' hupos'
    linarith
  · exact le_trans (roundPos_le_low x e hx (lt_of_le_of_ne hle hE)) (pred_ge_pow c m e hm1 hc)

/-- A positive rational below the midpoint between a normal `float64` value
that is not a power of two and the value before it rounds to at most the
value before it. -/
theorem roundPos_le_pred (x c : ℚ) (m : Nat) (e : Int) (he : -1022 ≤ e)
    (hm1 : 2 ^ 52 < m) (hm2 : m < 2 ^ 53) (hc : c = m * (2 : ℚ) ^ (e - 52)) (hx : 0 < x)
    (h : x < c - (2 : ℚ) ^ (e - 52) / 2) : Float64.roundPos x ≤ c - (2 : ℚ) ^ (e - 52) := by
  have hupos : (0 : ℚ) < (2 : ℚ) ^ (e - 52) := two_zpow_pos _
  have hxc : x ≤ c := by linarith
  have hle := exponent_le_of_le x c m e he (le_of_lt hm1) hm2 hc hx hxc
  by_cases hE : Float64.exponent x = e
  · have hu : Float64.ulp x = (2 : ℚ) ^ (e - 52) := by
      unfold Float64.ulp
      rw [hE]
    have hr : roundHalfEven (x / Float64.ulp x) < m := by
      apply roundHalfEven_lt _ m (le_of_lt (div_pos hx (by rw [hu]; exact hupos)))
      rw [hu]
      have h1 : x / (2 : ℚ) ^ (e - 52) < (m : ℚ) - 1 / 2 := by
        rw [div_lt_iff₀ hupos]
        rw [hc] at h
        linarith
      linarith
    have hr' : (roundHalfEven (x / Float64.ulp x) : ℚ) ≤ (m : ℚ) - 1 := by
      have : roundHalfEven (x / Float64.ulp x) + 1 ≤ m := hr
      have : ((roundHalfEven (x / Float64.ulp x) + 1 : Nat) : ℚ) ≤ (m : ℚ) := by
        exact_mod_cast this
      push_cast at this
      linarith
    have hupos' : (0 : ℚ) ≤ Float64.ulp x := by
      rw [hu]
      exact le_of_lt hupos
    unfold Float64.roundPos
    rw [hc, ← hu]
    have := mul_le_mul_of_nonneg_right hr' hupos'
    linarith
  · exact le_trans (roundPos_le_low x e hx (lt_of_le_of_ne hle hE)) (pred_ge_pow c m e hm1 hc)

/-! ## Rounding to `float64`: the sector boundaries -/

theorem roundPos_nonneg (x : ℚ) : 0 ≤ Float64.roundPos x := by
  unfold Float64.roundPos
  exact mul_nonneg (Nat.cast_nonneg _) (le_of_lt (two_zpow_pos _))

/-- A normal `float64` value rounds to itself. -/
theorem roundPos_normal (c : ℚ) (m : Nat) (e : Int) (he : -1022 ≤ e)
    (hm1 : 2 ^ 52 ≤ m) (hm2 : m < 2 ^ 53) (hc : c = m * (2 : ℚ) ^ (e - 52)) :
    Float64.roundPos c = c := by
  obtain ⟨hpos, _⟩ := exponent_of_normal c m e he hm1 hm2 hc
  exact le_antisymm (roundPos_le_of_le c c m e he hm1 hm2 hc hpos le_rfl)
    (roundPos_ge_of_ge c c m e he hm1 hm2 hc le_rfl)

theorem round_of_pos (x : ℚ) (hx : 0 < x) (hlt : Float64.roundPos x < (2 : ℚ) ^ (1024 : Nat)) :
    Float64.round x = .finite (Float64.roundPos x) := by
  unfold Float64.round
  rw [if_neg (ne_of_gt hx), abs_of_pos hx, if_neg (not_le.mpr hlt), if_neg (not_lt.mpr (le_of_lt hx))]

theorem small_lt_huge (y : ℚ) (h : y ≤ 512) : y < (2 : ℚ) ^ (1024 : Nat) := by
  have h1 : (2 : ℚ) ^ (9 : Nat) ≤ (2 : ℚ) ^ (1024 : Nat) :=
    pow_le_pow_right₀ (by norm_num) (by norm_num)
  have h2 : (2 : ℚ) ^ (9 : Nat) = 512 := by norm_num
  linarith

/-- Rounding does not take a sum below a sector boundary `45 * j` that it
has reached. -/
theorem boundary_ge (x : ℚ) (j : Nat) (hj1 : 1 ≤ j) (hj8 : j ≤ 8) (h : 45 * (j : ℚ) ≤ x) :
    45 * (j : ℚ) ≤ Float64.roundPos x := by
  have hj : j = 1 ∨ j = 2 ∨ j = 3 ∨ j = 4 ∨ j = 5 ∨ j = 6 ∨ j = 7 ∨ j = 8 := by omega
  rcases hj with rfl | rfl | rfl | rfl | rfl | rfl | rfl | rfl
  · exact roundPos_ge_of_ge x _ (45 * 2 ^ 47) 5 (by norm_num) (by norm_num) (by norm_num)
      (by norm_num) h
  · exact roundPos_ge_of_ge x _ (45 * 2 ^ 47) 6 (by norm_num) (by norm_num) (by norm_num)
      (by norm_num) h
  · exact roundPos_ge_of_ge x _ (135 * 2 ^ 45) 7 (by norm_num) (by norm_num) (by norm_num)
      (by norm_num) h
  · exact roundPos_ge_of_ge x _ (45 * 2 ^ 47) 7 (by norm_num) (by norm_num) (by norm_num)
      (by norm_num) h
  · exact roundPos_ge_of_ge x _ (225 * 2 ^ 45) 7 (by norm_num) (by norm_num) (by norm_num)
      (by norm_num) h
  · exact roundPos_ge_of_ge x _ (135 * 2 ^ 45) 8 (by norm_num) (by norm_num) (by norm_num)
      (by norm_num) h
  · exact roundPos_ge_of_ge x _ (315 * 2 ^ 44) 8 (by norm_num) (by norm_num) (by norm_num)
      (by norm_num) h
  · exact roundPos_ge_of_ge x _ (45 * 2 ^ 47) 8 (by norm_num) (by norm_num) (by norm_num)
      (by norm_num) h

/-- Rounding does not take a sum above a sector boundary `45 * j` that it
has not passed. -/
theorem boundary_le (x : ℚ) (hx : 0 < x) (j : Nat) (hj1 : 1 ≤ j) (hj8 : j ≤ 8)
    (h : x ≤ 45 * (j : ℚ)) : Float64.roundPos x ≤ 45 * (j : ℚ) := by
  have hj : j = 1 ∨ j = 2 ∨ j = 3 ∨ j = 4 ∨ j = 5 ∨ j = 6 ∨ j = 7 ∨ j = 8 := by omega
  rcases hj with rfl | rfl | rfl | rfl | rfl | rfl | rfl | rfl
  · exact roundPos_le_of_le x _ (45 * 2 ^ 47) 5 (by norm_num) (by norm_num) (by norm_num)
      (by norm_num) hx h
  · exact roundPos_le_of_le x _ (45 * 2 ^ 47) 6 (by norm_num) (by norm_num) (by norm_num)
      (by norm_num) hx h
  · exact roundPos_le_of_le x _ (135 * 2 ^ 45) 7 (by norm_num) (by norm_num) (by norm_num)
      (by norm_num) hx h
  · exact roundPos_le_of_le x _ (45 * 2 ^ 47) 7 (by norm_num) (by norm_num) (by norm_num)
      (by norm_num) hx h
  · exact roundPos_le_of_le x _ (225 * 2 ^ 45) 7 (by norm_num) (by norm_num) (by norm_num)
      (by norm_num) hx h
  · exact roundPos_le_of_le x _ (135 * 2 ^ 45) 8 (by norm_num) (by norm_num) (by norm_num)
      (by norm_num) hx h
  · exact roundPos_le_of_le x _ (315 * 2 ^ 44) 8 (by norm_num) (by norm_num) (by norm_num)
      (by norm_num) hx h
  · exact roundPos_le_of_le x _ (45 * 2 ^ 47) 8 (by norm_num) (by norm_num) (by norm_num)
      (by norm_num) hx h

/-- The rounded quotient by 45 does not fall below a whole number `j` that
the dividend has reached as `45 * j`. -/
theorem quotient_ge (s : ℚ) (j : Nat) (hj8 : j ≤ 8) (h : 45 * (j : ℚ) ≤ s) :
    (j : ℚ) ≤ Float64.roundPos (s / 45) := by
  have hj : j = 0 ∨ j = 1 ∨ j = 2 ∨ j = 3 ∨ j = 4 ∨ j = 5 ∨ j = 6 ∨ j = 7 ∨ j = 8 := by omega
  have hq : (j : ℚ) ≤ s / 45 := by
    rw [le_div_iff₀ (by norm_num)]
    linarith
  rcases hj with rfl | rfl | rfl | rfl | rfl | rfl | rfl | rfl | rfl
  · simpa using roundPos_nonneg (s / 45)
  · exact roundPos_ge_of_ge (s / 45) _ (2 ^ 52) 0 (by norm_num) (by norm_num) (by norm_num)
      (by norm_num) hq
  · exact roundPos_ge_of_ge (s / 45) _ (2 ^ 52) 1 (by norm_num) (by norm_num) (by norm_num)
      (by norm_num) hq
  · exact roundPos_ge_of_ge (s / 45) _ (3 * 2 ^ 51) 1 (by norm_num) (by norm_num) (by norm_num)
      (by norm_num) hq
  · exact roundPos_ge_of_ge (s / 45) _ (2 ^ 52) 2 (by norm_num) (by norm_num) (by norm_num)
      (by norm_num) hq
  · exact roundPos_ge_of_ge (s / 45) _ (5 * 2 ^ 50) 2 (by norm_num) (by norm_num) (by norm_num)
      (by norm_num) hq
  · exact roundPos_ge_of_ge (s / 45) _ (3 * 2 ^ 51) 2 (by norm_num) (by norm_num) (by norm_num)
      (by norm_num) hq
  · exact roundPos_ge_of_ge (s / 45) _ (7 * 2 ^ 50) 2 (by norm_num) (by norm_num) (by norm_num)
      (by norm_num) hq
  · exact roundPos_ge_of_ge (s / 45) _ (2 ^ 52) 3 (by norm_num) (by norm_num) (by norm_num)
      (by norm_num) hq

/-- A rounded sum below the sector boundary `45 * j` has a rounded quotient
by 45 below `j`. -/
theorem quotient_lt (x : ℚ) (hx : 0 < x) (hs : 0 < Float64.roundPos x) (j : Nat) (hj1 : 1 ≤ j)
    (hj8 : j ≤ 8) (h : Float64.roundPos x < 45 * (j : ℚ)) :
    Float64.roundPos (Float64.roundPos x / 45) < (j : ℚ) := by
  have hj : j = 1 ∨ j = 2 ∨ j = 3 ∨ j = 4 ∨ j = 5 ∨ j = 6 ∨ j = 7 ∨ j = 8 := by omega
  have hq : 0 < Float64.roundPos x / 45 := div_pos hs (by norm_num)
  rcases hj with rfl | rfl | rfl | rfl | rfl | rfl | rfl | rfl
  · have h1 := roundPos_lt_normal x _ (45 * 2 ^ 47) 5 (by norm_num) (by norm_num) (by norm_num)
      (by norm_num) hx h
    have h2 := roundPos_le_of_le (Float64.roundPos x / 45) (1 - 1 / 2 ^ 53) (2 ^ 53 - 1) (-1)
      (by norm_num) (by norm_num) (by norm_num) (by norm_num) hq
      (by rw [div_le_iff₀ (by norm_num)]; norm_num at h1 ⊢; linarith)
    norm_num at h2 ⊢
    linarith
  · have h1 := roundPos_lt_normal x _ (45 * 2 ^ 47) 6 (by norm_num) (by norm_num) (by norm_num)
      (by norm_num) hx h
    have h2 := roundPos_le_of_le (Float64.roundPos x / 45) (2 - 1 / 2 ^ 52) (2 ^ 53 - 1) (0)
      (by norm_num) (by norm_num) (by norm_num) (by norm_num) hq
      (by rw [div_le_iff₀ (by norm_num)]; norm_num at h1 ⊢; linarith)
    norm_num at h2 ⊢
    linarith
  · have h1 := roundPos_lt_normal x _ (135 * 2 ^ 45) 7 (by norm_num) (by norm_num) (by norm_num)
      (by norm_num) hx h
    have h2 := roundPos_le_pred (Float64.roundPos x / 45) 3 (3 * 2 ^ 51) 1
      (by norm_num) (by norm_num) (by norm_num) (by norm_num) hq
      (by rw [div_lt_iff₀ (by norm_num)]; norm_num at h1 ⊢; linarith)
    norm_num at h2 ⊢
    linarith
  · have h1 := roundPos_lt_normal x _ (45 * 2 ^ 47) 7 (by norm_num) (by norm_num) (by norm_num)
      (by norm_num) hx h
    have h2 := roundPos_le_of_le (Float64.roundPos x / 45) (4 - 1 / 2 ^ 51) (2 ^ 53 - 1) (1)
      (by norm_num) (by norm_num) (by norm_num) (by norm_num) hq
      (by rw [div_le_iff₀ (by norm_num)]; norm_num at h1 ⊢; linarith)
    norm_num at h2 ⊢
    linarith
  · have h1 := roundPos_lt_normal x _ (225 * 2 ^ 45) 7 (by norm_num) (by norm_num) (by norm_num)
      (by norm_num) hx h
    have h2 := roundPos_le_pred (Float64.roundPos x / 45) 5 (5 * 2 ^ 50) 2
      (by norm_num) (by norm_num) (by norm_num) (by norm_num) hq
      (by rw [div_lt_iff₀ (by norm_num)]; norm_num at h1 ⊢; linarith)
    norm_num at h2 ⊢
    linarith
  · have h1 := roundPos_lt_normal x _ (135 * 2 ^ 45) 8 (by norm_num) (by norm_num) (by norm_num)
      (by norm_num) hx h
    have h2 := roundPos_le_pred (Float64.roundPos x / 45) 6 (3 * 2 ^ 51) 2
      (by norm_num) (by norm_num) (by norm_num) (by norm_num) hq
      (by rw [div_lt_iff₀ (by norm_num)]; norm_num at h1 ⊢; linarith)
    norm_num at h2 ⊢
    linarith
  · have h1 := roundPos_lt_normal x _ (315 * 2 ^ 44) 8 (by norm_num) (by norm_num) (by norm_num)
      (by norm_num) hx h
    have h2 := roundPos_le_pred (Float64.roundPos x / 45) 7 (7 * 2 ^ 50) 2
      (by norm_num) (by norm_num) (by norm_num) (by norm_num) hq
      (by rw [div_lt_iff₀ (by norm_num)]; norm_num at h1 ⊢; linarith)
    norm_num at h2 ⊢
    linarith
  · have h1 := roundPos_lt_normal x _ (45 * 2 ^ 47) 8 (by norm_num) (by norm_num) (by norm_num)
      (by norm_num) hx h
    have h2 := roundPos_le_of_le (Float64.roundPos x / 45) (8 - 1 / 2 ^ 50) (2 ^ 53 - 1) (2)
      (by norm_num) (by norm_num) (by norm_num) (by norm_num) hq
      (by rw [div_le_iff₀ (by norm_num)]; norm_num at h1 ⊢; linarith)
    norm_num at h2 ⊢
    linarith

theorem roundHalfEven_half_odd (n : Nat) (hodd : n % 2 = 1) :
    roundHalfEven ((n : ℚ) + 1 / 2) = n + 1 := by
  have hfl : ⌊(n : ℚ) + 1 / 2⌋ = (n : Int) := by
    rw [Int.floor_eq_iff]
    constructor
    · push_cast
      linarith
    · push_cast
      linarith
  unfold roundHalfEven
  simp only [hfl, Int.toNat_ofNat]
  rw [if_neg (by norm_num), if_neg (by norm_num), if_neg (by omega)]

theorem sum_rounded (q : ℚ) (h0 : 0 ≤ q) (h360 : q ≤ 360) :
    Float64.addRounded (.finite q) (.finite (45 / 2)) =
        .finite (Float64.roundPos (q + 45 / 2)) ∧
      45 / 2 ≤ Float64.roundPos (q + 45 / 2) ∧ Float64.roundPos (q + 45 / 2) ≤ 765 / 2 := by
  have hx : 0 < q + 45 / 2 := by linarith
  have hlo : (45 / 2 : ℚ) ≤ Float64.roundPos (q + 45 / 2) :=
    roundPos_ge_of_ge (q + 45 / 2) _ (45 * 2 ^ 47) 4 (by norm_num) (by norm_num) (by norm_num)
      (by norm_num) (by linarith)
  have hhi : Float64.roundPos (q + 45 / 2) ≤ (765 / 2 : ℚ) :=
    roundPos_le_of_le (q + 45 / 2) _ (765 * 2 ^ 43) 8 (by norm_num) (by norm_num) (by norm_num)
      (by norm_num) hx (by linarith)
  refine ⟨?_, hlo, hhi⟩
  show Float64.round (q + 45 / 2) = _
  exact round_of_pos _ hx (small_lt_huge _ (by linarith))

theorem quotient_rounded (s : ℚ) (h1 : 45 / 2 ≤ s) (h2 : s ≤ 765 / 2) :
    Float64.divRounded (.finite s) (.finite 45) = .finite (Float64.roundPos (s / 45)) ∧
      Float64.roundPos (s / 45) ≤ 17 / 2 := by
  have hx : 0 < s / 45 := div_pos (by linarith) (by norm_num)
  have hhi : Float64.roundPos (s / 45) ≤ (17 / 2 : ℚ) :=
    roundPos_le_of_le (s / 45) _ (17 * 2 ^ 48) 3 (by norm_num) (by norm_num) (by norm_num)
      (by norm_num) hx (by rw [div_le_iff₀ (by norm_num)]; linarith)
  refine ⟨?_, hhi⟩
  have h45 : ¬ (45 : ℚ) = 0 := by norm_num
  unfold Float64.divRounded
  simp only [if_neg h45]
  exact round_of_pos _ hx (small_lt_huge _ (by linarith))

theorem toInt_of_floor (y : ℚ) (k : Nat) (hk : k ≤ 8) (h1 : (k : ℚ) ≤ y) (h2 : y < (k : ℚ) + 1) :
    Float64.toInt (.finite y) = some (k : Int) := by
  have hy : 0 ≤ y := le_trans (Nat.cast_nonneg k) h1
  have hfl : ⌊y⌋ = (k : Int) := by
    rw [Int.floor_eq_iff]
    exact ⟨by exact_mod_cast h1, by exact_mod_cast h2⟩
  unfold Float64.toInt
  simp only [if_pos hy, hfl]
  rw [if_pos (by omega)]

theorem direction_of_quotient (b : Float64) (y : ℚ) (k : Nat) (hk : k ≤ 8)
    (hdiv : Float64.divRounded (Float64.addRounded b (.finite (45 / 2))) (.finite 45) = .finite y)
    (h1 : (k : ℚ) ≤ y) (h2 : y < (k : ℚ) + 1) :
    directionIndex b = some ((k % 8 : Nat) : Int) ∧
      GetCardinalDirection b = directions[k % 8]? := by
  have hidx : directionIndex b = some ((k % 8 : Nat) : Int) := by
    unfold directionIndex
    rw [hdiv, toInt_of_floor y k hk h1 h2]
    have hk' : k = 0 ∨ k = 1 ∨ k = 2 ∨ k = 3 ∨ k = 4 ∨ k = 5 ∨ k = 6 ∨ k = 7 ∨ k = 8 := by omega
    rcases hk' with rfl | rfl | rfl | rfl | rfl | rfl | rfl | rfl | rfl <;> rfl
  refine ⟨hidx, ?_⟩
  unfold GetCardinalDirection
  rw [hidx]
  simp only [Int.toNat_ofNat]
  rw [if_pos (Int.ofNat_nonneg _)]

theorem roundPos_tie_up : Float64.roundPos (45 / 2 - 1 / 2 ^ 48 + 45 / 2) = 45 := by
  have hlog : Int.log 2 (45 / 2 - 1 / 2 ^ 48 + 45 / 2 : ℚ) = 5 :=
    log_two_eq _ 5 (by norm_num) (by norm_num)
  have hexp : Float64.exponent (45 / 2 - 1 / 2 ^ 48 + 45 / 2) = 5 := by
    unfold Float64.exponent
    rw [hlog]
    rfl
  have hulp : Float64.ulp (45 / 2 - 1 / 2 ^ 48 + 45 / 2) = 1 / 2 ^ 47 := by
    unfold Float64.ulp
    rw [hexp]
    norm_num
  have hdiv : (45 / 2 - 1 / 2 ^ 48 + 45 / 2 : ℚ) / Float64.ulp (45 / 2 - 1 / 2 ^ 48 + 45 / 2) =
      ((45 * 2 ^ 47 - 1 : Nat) : ℚ) + 1 / 2 := by
    rw [hulp]
    norm_num
  unfold Float64.roundPos
  rw [hdiv, roundHalfEven_half_odd _ (by norm_num), hulp]
  norm_num

/-- C25, as amended. For every bearing with `0 ≤ bearing ≤ 360` the sum
`bearing + 22.5` is a `float64` `s` with `22.5 ≤ s ≤ 382.5`. With `k` the
45-degree sector of `s` (`45 * k ≤ s < 45 * (k + 1)`, `k ≤ 8`), the index of
`GetCardinalDirection` is `k % 8`, it lies in 0..7, the lookup stays in range,
and the result is the entry `k % 8` of `directions`. A bearing at or above a
sector boundary (`45 * j ≤ bearing + 22.5`) is in sector `j` or later; a
bearing below the boundary is in an earlier sector, unless the sum rounds to
the boundary itself, and then it is in sector `j`. -/
theorem cardinal_direction (q : ℚ) (h0 : 0 ≤ q) (h360 : q ≤ 360) :
    ∃ (s : ℚ) (k : Nat),
      Float64.addRounded (.finite q) (.finite (45 / 2)) = .finite s ∧
      45 / 2 ≤ s ∧ s ≤ 765 / 2 ∧
      k ≤ 8 ∧ 45 * (k : ℚ) ≤ s ∧ s < 45 * ((k : ℚ) + 1) ∧
      directionIndex (.finite q) = some ((k % 8 : Nat) : Int) ∧
      (0 : Int) ≤ ((k % 8 : Nat) : Int) ∧ ((k % 8 : Nat) : Int) ≤ 7 ∧
      GetCardinalDirection (.finite q) = directions[k % 8]? ∧
      (∃ name, GetCardinalDirection (.finite q) = some name ∧ name ∈ directions) ∧
      (∀ j : Nat, j ≤ 8 → 45 * (j : ℚ) ≤ q + 45 / 2 → j ≤ k) ∧
      (∀ j : Nat, 1 ≤ j → j ≤ 8 → q + 45 / 2 < 45 * (j : ℚ) →
        k < j ∨ (k = j ∧ s = 45 * (j : ℚ))) := by
  obtain ⟨hadd, hlo, hhi⟩ := sum_rounded q h0 h360
  have hx : 0 < q + 45 / 2 := by linarith
  have hspos : 0 < Float64.roundPos (q + 45 / 2) := by linarith
  obtain ⟨hdiv, hy85⟩ := quotient_rounded _ hlo hhi
  have hq0 : 0 ≤ Float64.roundPos (q + 45 / 2) / 45 := div_nonneg (le_of_lt hspos) (by norm_num)
  obtain ⟨hk1, hk2, _⟩ := roundHalfEven_floor _ hq0
  obtain ⟨k, hk⟩ : ∃ k : Nat, k = ⌊Float64.roundPos (q + 45 / 2) / 45⌋.toNat := ⟨_, rfl⟩
  rw [← hk] at hk1 hk2
  have hks : 45 * (k : ℚ) ≤ Float64.roundPos (q + 45 / 2) := by
    rw [le_div_iff₀ (by norm_num)] at hk1
    linarith
  have hsk : Float64.roundPos (q + 45 / 2) < 45 * ((k : ℚ) + 1) := by
    rw [div_lt_iff₀ (by norm_num)] at hk2
    linarith
  have hk8 : k ≤ 8 := by
    have h9 : (k : ℚ) < ((9 : Nat) : ℚ) := by
      push_cast
      linarith
    have : k < 9 := by exact_mod_cast h9
    omega
  have hy1 : (k : ℚ) ≤ Float64.roundPos (Float64.roundPos (q + 45 / 2) / 45) :=
    quotient_ge _ k hk8 hks
  have hy2 : Float64.roundPos (Float64.roundPos (q + 45 / 2) / 45) < (k : ℚ) + 1 := by
    by_cases h8 : k = 8
    · rw [h8]
      push_cast
      linarith
    · have := quotient_lt (q + 45 / 2) hx hspos (k + 1) (by omega) (by omega)
        (by push_cast; exact hsk)
      push_cast at this
      exact this
  have hdiv' : Float64.divRounded (Float64.addRounded (.finite q) (.finite (45 / 2)))
      (.finite 45) = .finite (Float64.roundPos (Float64.roundPos (q + 45 / 2) / 45)) := by
    rw [hadd]
    exact hdiv
  obtain ⟨hidx, hdir⟩ := direction_of_quotient (.finite q) _ k hk8 hdiv' hy1 hy2
  have hlen : k % 8 < directions.length := by
    show k % 8 < 8
    omega
  refine ⟨_, k, hadd, hlo, hhi, hk8, hks, hsk, hidx, by omega, by omega, hdir, ?_, ?_, ?_⟩
  · refine ⟨directions[k % 8], ?_, List.getElem_mem _⟩
    rw [hdir, List.getElem?_eq_getElem hlen]
  · intro j hj8 hj
    by_cases hj0 : j = 0
    · omega
    · have hb := boundary_ge (q + 45 / 2) j (by omega) hj8 hj
      have h1 : (j : ℚ) < ((k + 1 : Nat) : ℚ) := by
        push_cast
        linarith
      have : j < k + 1 := by exact_mod_cast h1
      omega
  · intro j hj1 hj8 hj
    have hle := boundary_le (q + 45 / 2) hx j hj1 hj8 (le_of_lt hj)
    rcases lt_or_eq_of_le hle with hlt | heq
    · left
      have h1 : (k : ℚ) < (j : ℚ) := by linarith
      exact_mod_cast h1
    · right
      refine ⟨?_, heq⟩
      have h1 : (k : ℚ) ≤ (j : ℚ) := by linarith
      have h2 : (j : ℚ) < ((k + 1 : Nat) : ℚ) := by
        push_cast
        linarith
      have h1' : k ≤ j := by exact_mod_cast h1
      have h2' : j < k + 1 := by exact_mod_cast h2
      omega

theorem cardinal_direction_witness :
    (0 : ℚ) ≤ 90 ∧ (90 : ℚ) ≤ 360 ∧
      ∃ name, GetCardinalDirection (.finite 90) = some name ∧ name ∈ directions := by
  obtain ⟨_, _, _, _, _, _, _, _, _, _, _, _, h, _⟩ :=
    cardinal_direction 90 (by norm_num) (by norm_num)
  exact ⟨by norm_num, by norm_num, h⟩

/-- C25, the claim as stated fails. The bearing `22.5 - 2^-48` is a `float64`
(it rounds to itself), lies between 0 and 360 and is below 22.5, where the
claim promises "N", the entry 0 of `directions`; but its sum with 22.5 rounds
to 45, the index is 1 and the result is "NE". -/
theorem bearing_below_boundary_misnamed :
    (0 : ℚ) ≤ 45 / 2 - 1 / 2 ^ 48 ∧ (45 / 2 - 1 / 2 ^ 48 : ℚ) ≤ 360 ∧
      (45 / 2 - 1 / 2 ^ 48 : ℚ) < 45 / 2 ∧
      Float64.round (45 / 2 - 1 / 2 ^ 48) = .finite (45 / 2 - 1 / 2 ^ 48) ∧
      Float64.addRounded (.finite (45 / 2 - 1 / 2 ^ 48)) (.finite (45 / 2)) = .finite 45 ∧
      directionIndex (.finite (45 / 2 - 1 / 2 ^ 48)) = some 1 ∧
      GetCardinalDirection (.finite (45 / 2 - 1 / 2 ^ 48)) = some "NE" ∧
      directions[0]? = some "N" := by
  have hrep : Float64.roundPos (45 / 2 - 1 / 2 ^ 48) = 45 / 2 - 1 / 2 ^ 48 :=
    roundPos_normal _ (45 * 2 ^ 47 - 1) 4 (by norm_num) (by norm_num) (by norm_num) (by norm_num)
  have hround : Float64.round (45 / 2 - 1 / 2 ^ 48) = .finite (45 / 2 - 1 / 2 ^ 48) := by
    rw [round_of_pos _ (by norm_num) (small_lt_huge _ (by rw [hrep]; norm_num)), hrep]
  have hadd : Float64.addRounded (.finite (45 / 2 - 1 / 2 ^ 48)) (.finite (45 / 2)) =
      .finite 45 := by
    show Float64.round (45 / 2 - 1 / 2 ^ 48 + 45 / 2) = _
    rw [round_of_pos _ (by norm_num) (small_lt_huge _ (by rw [roundPos_tie_up]; norm_num)),
      roundPos_tie_up]
  have hone : Float64.roundPos (45 / 45) = 1 := by
    have h := roundPos_normal (45 / 45) (2 ^ 52) 0 (by norm_num) (by norm_num) (by norm_num)
      (by norm_num)
    rw [h]
    norm_num
  have hdiv : Float64.divRounded
      (Float64.addRounded (.finite (45 / 2 - 1 / 2 ^ 48)) (.finite (45 / 2))) (.finite 45) =
      .finite 1 := by
    rw [hadd, (quotient_rounded 45 (by norm_num) (by norm_num)).1, hone]
  obtain ⟨hidx, hdir⟩ := direction_of_quotient (.finite (45 / 2 - 1 / 2 ^ 48)) 1 1
    (by norm_num) hdiv (by norm_num) (by norm_num)
  exact ⟨by norm_num, by norm_num, by norm_num, hround, hadd, hidx, hdir, rfl⟩

end GoWaze
